import Mathlib

/-!
Verification of the grid-decomposition and table-classification core of the
excel2md subsystem (modules `table_detection.py`, `table_formatting.py`,
`mermaid_generator.py`, `table_extraction.py`).

The Python code is shallowly embedded:
* `Grid` is a list of rows of 0/1 entries (`List (List Nat)`), exactly the
  Python representation `[[0]*cols ...]`; out-of-range indexing defaults to 0.
* Worksheet/cell access (`openpyxl` cells, `cell_utils` formatting helpers,
  fills, borders, hyperlinks) are external collaborators of this core
  (spec §1/§6): a worksheet is modelled as a bundle of functions from sheet
  coordinates to the values those helpers would return, with `opts`-dependent
  helpers (`cell_display_value`, `normalize_numeric_text`, `md_escape`,
  Unicode tables for NFKC/casefold/isalnum) abstracted as function parameters.
* Python `while` loops that are only terminating for reasons proved below are
  embedded with an explicit fuel argument whose initial value is shown (in the
  theorems) to be large enough that the fuel never runs out.
* Python exceptions are modelled with `Except PyErr`.
-/

namespace Excel2MD

/-- A rectangle `(top, left, bottom, right)` / area `(min_row, min_col,
max_row, max_col)`, inclusive coordinates, as the 4-tuples used in
`table_detection.py`. -/
abbrev Rect : Type := Nat × Nat × Nat × Nat

/-- A boolean non-emptiness grid, `grid[r][c] ∈ {0,1}`. -/
abbrev Grid : Type := List (List Nat)

/-- `grid[r][c]`, defaulting to `0` out of range (the Python code never
indexes out of range on the rectangular grids it builds). -/
def getCell (g : Grid) (r c : Nat) : Nat := (g.getD r []).getD c 0

/-- Membership of the cell `(r, c)` in the inclusive rectangle `t`. -/
def inRect (t : Rect) (r c : Nat) : Prop :=
  t.1 ≤ r ∧ r ≤ t.2.2.1 ∧ t.2.1 ≤ c ∧ c ≤ t.2.2.2

instance (t : Rect) (r c : Nat) : Decidable (inRect t r c) := by
  unfold inRect; infer_instance

/-- Python `min` over a nonempty list (the code only applies it to nonempty
collections; the `[]` default is never reached there). -/
def listMin : List Nat → Nat
  | [] => 0
  | x :: xs => xs.foldl min x

/-- Python `max` over a nonempty list. -/
def listMax : List Nat → Nat
  | [] => 0
  | x :: xs => xs.foldl max x

/-- Stable insertion step: `x` goes before the first `y` with `le x y`, so an
element inserted from the left of the original list precedes equal elements. -/
def insLe {α : Type} (le : α → α → Bool) (x : α) : List α → List α
  | [] => [x]
  | y :: ys => if le x y then x :: y :: ys else y :: insLe le x ys

/-- Python's `list.sort`/`sorted` (a stable sort by `le`), embedded as stable
insertion sort, which computes the same list as any stable sort by `le`. -/
def pySort {α : Type} (le : α → α → Bool) : List α → List α
  | [] => []
  | x :: xs => insLe le x (pySort le xs)

/-! ### `table_detection.enumerate_histogram_rectangles` (lines 77-103)

Per row the histogram `H` of consecutive 1s ending at that row is updated and
a monotonic-stack scan (stack top at the list head) emits all maximal
rectangles whose bottom edge is that row.  In the Python source
`top = r - hh + 1` on `int`s; here `r + 1 - hh` on `Nat`, which agrees
because every height in `H` after processing rows `0..r` is at most `r + 1`
(each row adds at most 1 to each column count). -/

/-- One pass of `for c in range(C): H[c] = H[c]+1 if grid[r][c]==1 else 0`. -/
def updateH (H : List Nat) (row : List Nat) : List Nat :=
  H.mapIdx fun c hc => if row.getD c 0 = 1 then hc + 1 else 0

/-- The inner `while stack and stack[-1][1] > h` pop loop at position `c` of
row `r`: pops entries, emits their rectangles, and tracks `last`.  Returns
`(stack, last, rects)`. -/
def popPhase (r c h : Nat) : List (Nat × Nat) → Nat → List Rect →
    List (Nat × Nat) × Nat × List Rect
  | [], last, rects => ([], last, rects)
  | (i, hh) :: rest, last, rects =>
    if h < hh then
      let width := c - i
      let rects' := if 0 < hh ∧ 0 < width then rects ++ [(r + 1 - hh, i, r, c - 1)] else rects
      popPhase r c h rest i rects'
    else ((i, hh) :: rest, last, rects)

/-- The `for c in range(C + 1)` scan of one row: `hs` is `H ++ [0]` (the
sentinel column has height 0) and `c` the current position. -/
def hscan (r : Nat) : Nat → List Nat → List (Nat × Nat) → List Rect → List Rect
  | _, [], _, rects => rects
  | c, h :: hs, stack, rects =>
    let s := popPhase r c h stack c rects
    let stack2 := match s.1 with
      | [] => [(s.2.1, h)]
      | (i0, h0) :: tl => if h0 < h then (s.2.1, h) :: (i0, h0) :: tl else (i0, h0) :: tl
    hscan r (c + 1) hs stack2 s.2.2

/-- The `for r in range(R)` loop: update `H`, scan the row, accumulate. -/
def enumRows : Nat → List (List Nat) → List Nat → List Rect → List Rect
  | _, [], _, rects => rects
  | r, row :: rows, H, rects =>
    let H' := updateH H row
    enumRows (r + 1) rows H' (hscan r 0 (H' ++ [0]) [] rects)

/-- `table_detection.enumerate_histogram_rectangles`. -/
def enumerate_histogram_rectangles (grid : Grid) : List Rect :=
  if grid = [] ∨ grid.headD [] = [] then []
  else enumRows 0 grid (List.replicate (grid.headD []).length 0) []

/-! ### `table_detection.carve_rectangles` (lines 105-125) -/

/-- The `any_ones` helper. -/
def anyOnes (g : Grid) : Bool := g.any fun row => row.any fun v => v == 1

/-- Rectangle area `(r[2]-r[0]+1)*(r[3]-r[1]+1)` (the carve key). -/
def rectArea (t : Rect) : Nat := (t.2.2.1 - t.1 + 1) * (t.2.2.2 - t.2.1 + 1)

/-- `candidates.sort(key=area, reverse=True)` then `candidates[0]`: Python's
sort is stable, so this is the first candidate of maximal area. -/
def pickLargest (cands : List Rect) : Option Rect :=
  (pySort (fun a b => rectArea b ≤ rectArea a) cands).head?

/-- `g[r][c] = 0` over the rectangle `t` (the carve zero-out loop). -/
def zeroRect (g : Grid) (t : Rect) : Grid :=
  g.mapIdx fun r row => row.mapIdx fun c v =>
    if t.1 ≤ r ∧ r ≤ t.2.2.1 ∧ t.2.1 ≤ c ∧ c ≤ t.2.2.2 then 0 else v

/-- Width bound used for counting 1-cells: the longest row length. -/
def gridWidth (g : Grid) : Nat := g.foldr (fun row acc => max row.length acc) 0

/-- The finite set of 1-cells of a grid. -/
def onesFinset (g : Grid) : Finset (Nat × Nat) :=
  (Finset.range g.length ×ˢ Finset.range (gridWidth g)).filter fun p => getCell g p.1 p.2 = 1

/-- Number of 1-cells; the termination measure of the carve loop. -/
def onesCount (g : Grid) : Nat := (onesFinset g).card

/-- The `while any_ones(g)` greedy loop with explicit fuel.  Each iteration
zeroes the chosen rectangle, which (as proved below) removes at least one
1-cell, so fuel `onesCount g` suffices for the loop to run to completion
exactly as the unbounded Python loop does. -/
def carveAux : Nat → Grid → List Rect
  | 0, _ => []
  | fuel + 1, g =>
    if anyOnes g then
      match pickLargest (enumerate_histogram_rectangles g) with
      | none => []
      | some t => t :: carveAux fuel (zeroRect g t)
    else []

/-- The final `out.sort(key=lambda r: (r[0], r[1], area))` comparison. -/
def rectKeyLe (a b : Rect) : Bool :=
  decide (a.1 < b.1 ∨ (a.1 = b.1 ∧ (a.2.1 < b.2.1 ∨ (a.2.1 = b.2.1 ∧ rectArea a ≤ rectArea b))))

/-- `table_detection.carve_rectangles`. -/
def carve_rectangles (grid : Grid) : List Rect :=
  pySort rectKeyLe (carveAux (onesCount grid) grid)

/-! ### `table_detection.union_rects` (lines 159-207) -/

/-- The column interval `(c0, c1)` of a rectangle. -/
def colIv (t : Rect) : Nat × Nat := (t.2.1, t.2.2.2)

/-- Python tuple `≤` (lexicographic) used by `iv.sort()`. -/
def ivLe (a b : Nat × Nat) : Bool :=
  decide (a.1 < b.1 ∨ (a.1 = b.1 ∧ a.2 ≤ b.2))

/-- The interval-merging fold of `merge_intervals`: `cur` is `out[-1]`,
`acc` is `out[:-1]`. -/
def mergeGo : Nat × Nat → List (Nat × Nat) → List (Nat × Nat) → List (Nat × Nat)
  | cur, acc, [] => acc ++ [cur]
  | cur, acc, (s, e) :: rest =>
    if s ≤ cur.2 then mergeGo (cur.1, max cur.2 e) acc rest
    else mergeGo (s, e) (acc ++ [cur]) rest

/-- `merge_intervals` (nested in `union_rects`): sort, then merge
overlapping or touching column intervals. -/
def merge_intervals (iv : List (Nat × Nat)) : List (Nat × Nat) :=
  match pySort ivLe iv with
  | [] => []
  | x :: xs => mergeGo x [] xs

/-- Processing of `events.get(row, [])`: the events dict holds, per row, an
"add" for every rect with `r0 = row` and a "rem" for every rect with
`r1 + 1 = row`, in input order; "rem" removes the first matching occurrence
(`list.remove`, with absent values ignored, matching the `except ValueError`
branch). -/
def applyEvents (rects : List Rect) (row : Nat) (active : List (Nat × Nat)) :
    List (Nat × Nat) :=
  rects.foldl (fun act t =>
    let act := if t.1 = row then act ++ [colIv t] else act
    if t.2.2.1 + 1 = row then act.erase (colIv t) else act) active

/-- The row sweep of `union_rects`: the remaining rows (including the
`max_r + 1` sentinel), the active interval list, `prev_row` (`none` encodes
Python's initial `None`), `prev_spans`, and the output accumulator. -/
def sweepLoop (rects : List Rect) : List Nat → List (Nat × Nat) → Option Nat →
    List (Nat × Nat) → List Rect → List Rect
  | [], _, _, _, out => out
  | row :: rest, active, prevRow, prevSpans, out =>
    let active' := applyEvents rects row active
    let spans := merge_intervals active'
    match prevRow with
    | none => sweepLoop rects rest active' (some row) spans out
    | some p =>
      if spans ≠ prevSpans then
        sweepLoop rects rest active' (some row) spans
          (out ++ prevSpans.map fun iv => (p, iv.1, row - 1, iv.2))
      else sweepLoop rects rest active' (some p) prevSpans out

/-- `table_detection.union_rects`. -/
def union_rects (rects : List Rect) : List Rect :=
  if rects = [] then []
  else
    let minR := listMin (rects.map fun t => t.1)
    let maxR := listMax (rects.map fun t => t.2.2.1)
    sweepLoop rects (List.range' minR (maxR + 2 - minR)) [] none [] []

/-! ### The worksheet / cell layer

Cell-level helpers (`cell_utils.cell_is_empty`, `cell_display_value`,
`no_fill`, `has_border`, `hyperlink_info`) and the hidden-row/column flags
are external collaborators (spec §1, §6): the core only consumes their
results.  A worksheet is therefore a bundle of functions from 1-based sheet
coordinates to those results, with the per-conversion `opts` dictionary
already applied to the `opts`-dependent ones. -/

/-- The dict returned by `cell_utils.hyperlink_info` (keys `display`,
`target`, `location`; any of them may be absent/None). -/
structure Hyper where
  display : Option String
  target : Option String
  location : Option String
deriving DecidableEq, Repr

/-- The worksheet model. -/
structure Ws where
  /-- `cell_is_empty(ws.cell(R, C), opts)`. -/
  cellEmpty : Nat → Nat → Bool
  /-- `cell_display_value(ws.cell(R, C), opts)` (a str; `None` is `""`). -/
  disp : Nat → Nat → String
  /-- `no_fill(ws.cell(R, C), opts.get("readonly_fill_policy", ...))`. -/
  noFill : Nat → Nat → Bool
  /-- `has_border(ws.cell(R, C))`. -/
  hasBorder : Nat → Nat → Bool
  /-- `hyperlink_info(ws.cell(R, C))`. -/
  hyperlink : Nat → Nat → Option Hyper
  /-- `ws.merged_cells.ranges` as `(min_row, min_col, max_row, max_col)`. -/
  mergedRanges : List Rect
  /-- the rows reported hidden by `collect_hidden`. -/
  hiddenRows : Finset Nat
  /-- the columns reported hidden by `collect_hidden`. -/
  hiddenCols : Finset Nat

/-- Drop a leading run of whitespace characters (the exotic Unicode space
characters Python additionally strips do not occur in this development's
inputs). -/
def dropWs : List Char → List Char
  | [] => []
  | c :: cs => if c.isWhitespace then dropWs cs else c :: cs

/-- Python `str.strip()`: drop leading and trailing whitespace. -/
def pyStrip (s : String) : String :=
  String.mk ((dropWs ((dropWs s.toList).reverse)).reverse)

/-- Truthiness of `text and text.strip()`, the pervasive "cell has visible
text" test. -/
def truthyStrip (s : String) : Bool := s != "" && pyStrip s != ""

/-! ### `table_detection.build_nonempty_grid` (lines 24-75) -/

/-- The `merged_coords` filter: drop blocks that do not intersect the area,
drop blocks whose top-left cell is outside the area, clip the rest. -/
def mergedCoordsOf (ws : Ws) (area : Rect) : List Rect :=
  ws.mergedRanges.filterMap fun b =>
    if b.2.2.1 < area.1 ∨ b.1 > area.2.2.1 ∨ b.2.2.2 < area.2.1 ∨ b.2.1 > area.2.2.2 then none
    else if b.1 < area.1 ∨ b.2.1 < area.2.1 then none
    else some (max area.1 b.1, max area.2.1 b.2.1, min area.2.2.1 b.2.2.1,
               min area.2.2.2 b.2.2.2)

/-- All cells of the inclusive rectangle `(a, b, c, d)` in row-major order
(the Python double `for R in range(mr0, mr1+1): for C in range(mc0, mc1+1)`
loop order). -/
def rectCellList (a b c d : Nat) : List (Nat × Nat) :=
  (List.range' a (c + 1 - a)).flatMap fun R => (List.range' b (d + 1 - b)).map fun C => (R, C)

/-- `g[r][c] = 1` (no-op out of range; the code's `0 <= grid_r < rows`
guard makes the in-range case the only reachable one). -/
def setCellOne (g : Grid) (r c : Nat) : Grid := g.set r ((g.getD r []).set c 1)

/-- One iteration of the merged-influence pass of `build_nonempty_grid` for
one (already clipped) block: if any cell of the block inside the area is
non-empty, mark every such cell `1`. -/
def mergeInfluence (ws : Ws) (area : Rect) (rows cols : Nat) (g : Grid) (blk : Rect) : Grid :=
  let cells := rectCellList blk.1 blk.2.1 blk.2.2.1 blk.2.2.2
  let found := cells.any fun p =>
    !decide (p.1 < area.1 ∨ p.1 > area.2.2.1 ∨ p.2 < area.2.1 ∨ p.2 > area.2.2.2) &&
    !ws.cellEmpty p.1 p.2
  if found then
    cells.foldl (fun g p =>
      if p.1 < area.1 ∨ p.1 > area.2.2.1 ∨ p.2 < area.2.1 ∨ p.2 > area.2.2.2 then g
      else if p.1 - area.1 < rows ∧ p.2 - area.2.1 < cols then
        setCellOne g (p.1 - area.1) (p.2 - area.2.1)
      else g) g
  else g

/-- `table_detection.build_nonempty_grid` (the `opts` argument lives inside
`Ws`); returns `(grid, r0, c0, r1, c1)`. -/
def build_nonempty_grid (ws : Ws) (area : Rect) (hiddenPolicy : String) :
    Grid × Nat × Nat × Nat × Nat :=
  let (r0, c0, r1, c1) := area
  let rows := r1 - r0 + 1
  let cols := c1 - c0 + 1
  let base : Grid := (List.range rows).map fun rr => (List.range cols).map fun cc =>
    let R := r0 + rr
    let C := c0 + cc
    if hiddenPolicy = "exclude" ∧ (R ∈ ws.hiddenRows ∨ C ∈ ws.hiddenCols) then 0
    else if ws.cellEmpty R C then 0 else 1
  let grid := (mergedCoordsOf ws area).foldl (mergeInfluence ws area rows cols) base
  (grid, r0, c0, r1, c1)

/-! ### `table_detection.build_merged_lookup` (lines 359-391)

The Python dict maps each in-area cell of each kept merged range to that
range's top-left; later ranges overwrite earlier ones, so the lookup is the
last kept range containing the cell. -/

def build_merged_lookup (ws : Ws) (area : Option Rect) : Nat × Nat → Option (Nat × Nat) :=
  fun rc =>
    let keep : Rect → Bool := fun b =>
      match area with
      | none => true
      | some a =>
        !decide (b.2.2.1 < a.1 ∨ b.1 > a.2.2.1 ∨ b.2.2.2 < a.2.1 ∨ b.2.1 > a.2.2.2) &&
        !decide (b.1 < a.1 ∨ b.2.1 < a.2.1)
    let inArea : Bool :=
      match area with
      | none => true
      | some a => !decide (rc.1 < a.1 ∨ rc.1 > a.2.2.1 ∨ rc.2 < a.2.1 ∨ rc.2 > a.2.2.2)
    if inArea then
      match ((ws.mergedRanges.filter keep).reverse.find? fun b =>
          decide (b.1 ≤ rc.1 ∧ rc.1 ≤ b.2.2.1 ∧ b.2.1 ≤ rc.2 ∧ rc.2 ≤ b.2.2.2)) with
      | some b => some (b.1, b.2.1)
      | none => none
    else none

/-! ### `table_detection.grid_to_tables` (lines 209-357) -/

/-- The per-cell test of the empty-row / empty-column scans: skip non-top-left
members of merged ranges, then require both empty display text and default
fill.  `true` means "this cell contributes emptiness". -/
def scanCellEmpty (ws : Ws) (ml : Nat × Nat → Option (Nat × Nat)) (rowNum colNum : Nat) : Bool :=
  match ml (rowNum, colNum) with
  | some tl =>
    if (rowNum, colNum) ≠ tl then true
    else
      let text := ws.disp tl.1 tl.2
      let hasFill := ! ws.noFill tl.1 tl.2
      !(truthyStrip text || hasFill)
  | none =>
    let text := ws.disp rowNum colNum
    let hasFill := ! ws.noFill rowNum colNum
    !(truthyStrip text || hasFill)

/-- The `empty_rows` set of local row indices (lines 227-251). -/
def emptyRowsOf (ws : Ws) (ml : Nat × Nat → Option (Nat × Nat)) (r0 c0 R C : Nat) :
    Finset Nat :=
  (Finset.range R).filter fun r => (List.range C).all fun c => scanCellEmpty ws ml (r0 + r) (c0 + c)

/-- The `empty_cols` set of local column indices (lines 253-283). -/
def emptyColsOf (ws : Ws) (ml : Nat × Nat → Option (Nat × Nat)) (r0 c0 R C : Nat) :
    Finset Nat :=
  (Finset.range C).filter fun c => (List.range R).all fun r => scanCellEmpty ws ml (r0 + r) (c0 + c)

/-- `is_connected` (lines 287-315), parametrized by the `empty_rows` /
`empty_cols` sets the Python closure captures.  The first two arguments
`(r1, c1)` are the cell currently being expanded by the flood fill, the last
two the candidate neighbour. -/
def is_connected (empty_rows empty_cols : Finset Nat) (r1 c1 r2 c2 : Nat) : Bool :=
  if r1 = r2 then
    !decide (min c1 c2 ∈ empty_cols ∨ max c1 c2 ∈ empty_cols)
  else if c1 = c2 then
    !decide (min r1 r2 ∈ empty_rows ∨ max r1 r2 ∈ empty_rows)
  else
    -- dr, dc, h_path_ok, v_path_ok of the source, inlined
    if ((r2 : Int) - (r1 : Int)).natAbs = 1 ∧ ((c2 : Int) - (c1 : Int)).natAbs = 1 then
      (!decide (c1 ∈ empty_cols ∨ c2 ∈ empty_cols) && !decide (r1 ∈ empty_rows)) ||
      (!decide (r1 ∈ empty_rows ∨ r2 ∈ empty_rows) && !decide (c1 ∈ empty_cols))
    else false

/-- The 8 neighbour offsets, in the Python tuple order. -/
def dirs8 : List (Int × Int) :=
  [(1, 0), (-1, 0), (0, 1), (0, -1), (1, 1), (1, -1), (-1, 1), (-1, -1)]

/-- `seen[r][c]`. -/
def getSeen (s : List (List Bool)) (r c : Nat) : Bool := (s.getD r []).getD c false

/-- `seen[r][c] = True`. -/
def setSeen (s : List (List Bool)) (r c : Nat) : List (List Bool) :=
  s.set r ((s.getD r []).set c true)

/-- One dequeue step of the flood fill: try all 8 neighbours of `(rr, cc)`,
enqueueing (and collecting) each in-bounds, non-empty, unseen, connected one.
The state is `(seen, queue, comp)`. -/
def bfsExpand (grid : Grid) (R C : Nat) (ER EC : Finset Nat) (rr cc : Nat)
    (st : List (List Bool) × List (Nat × Nat) × List (Nat × Nat)) :
    List (List Bool) × List (Nat × Nat) × List (Nat × Nat) :=
  dirs8.foldl (fun st d =>
    let nri := (rr : Int) + d.1
    let nci := (cc : Int) + d.2
    if 0 ≤ nri ∧ nri < (R : Int) ∧ 0 ≤ nci ∧ nci < (C : Int) then
      let nr := nri.toNat
      let nc := nci.toNat
      if getCell grid nr nc = 1 && !getSeen st.1 nr nc &&
          is_connected ER EC rr cc nr nc then
        (setSeen st.1 nr nc, st.2.1 ++ [(nr, nc)], st.2.2 ++ [(nr, nc)])
      else st
    else st) st

/-- The `while q` loop of the flood fill, with fuel.  Each enqueue marks a
previously unseen cell and every iteration dequeues one cell, so the loop
runs at most `R * C` iterations; `grid_to_tables` calls it with that fuel,
which therefore never runs out. -/
def bfsLoop (grid : Grid) (R C : Nat) (ER EC : Finset Nat) :
    Nat → List (Nat × Nat) → List (List Bool) → List (Nat × Nat) →
    List (List Bool) × List (Nat × Nat)
  | 0, _, seen, comp => (seen, comp)
  | _ + 1, [], seen, comp => (seen, comp)
  | fuel + 1, (rr, cc) :: q, seen, comp =>
    let st := bfsExpand grid R C ER EC rr cc (seen, q, comp)
    bfsLoop grid R C ER EC fuel st.2.1 st.1 st.2.2

/-- The outer `for r ... for c ...` component loop (lines 320-337). -/
def compsLoop (grid : Grid) (R C : Nat) (ER EC : Finset Nat) :
    List (Nat × Nat) → List (List Bool) → List (List (Nat × Nat)) →
    List (List (Nat × Nat))
  | [], _, comps => comps
  | (r, c) :: rest, seen, comps =>
    if getCell grid r c = 1 && !getSeen seen r c then
      let res := bfsLoop grid R C ER EC (R * C) [(r, c)] (setSeen seen r c) [(r, c)]
      compsLoop grid R C ER EC rest res.1 (comps ++ [res.2])
    else compsLoop grid R C ER EC rest seen comps

/-- The connected components of the non-empty grid, honouring
`is_connected`. -/
def componentsOf (grid : Grid) (R C : Nat) (ER EC : Finset Nat) : List (List (Nat × Nat)) :=
  compsLoop grid R C ER EC
    ((List.range R).flatMap fun r => (List.range C).map fun c => (r, c))
    (List.replicate R (List.replicate C false)) []

/-- The component-only grid built by `rectangles_for_component`. -/
def componentGrid (comp : List (Nat × Nat)) (R C : Nat) : Grid :=
  (List.range R).map fun r => (List.range C).map fun c => if (r, c) ∈ comp then 1 else 0

/-- `table_detection.rectangles_for_component`. -/
def rectangles_for_component (comp : List (Nat × Nat)) (shape : Nat × Nat) : List Rect :=
  carve_rectangles (componentGrid comp shape.1 shape.2)

/-- The table dict `{"rects": ..., "bbox": ..., "mask": ...}`; the Python
`mask` set is modelled as a duplicate-free list (the flood fill adds each
cell at most once). -/
structure PyTable where
  rects : List Rect
  bbox : Rect
  mask : List (Nat × Nat)
deriving DecidableEq, Repr

/-- Assembly of one table from one component (lines 339-354). -/
def tableOfComp (grid : Grid) (r0 c0 r1 c1 : Nat) (comp : List (Nat × Nat)) : PyTable :=
  let rectsLocal := rectangles_for_component comp (grid.length, (grid.headD []).length)
  let rectsSheet := rectsLocal.map fun t => (r0 + t.1, c0 + t.2.1, r0 + t.2.2.1, c0 + t.2.2.2)
  let minr := listMin (comp.map Prod.fst)
  let maxr := listMax (comp.map Prod.fst)
  let minc := listMin (comp.map Prod.snd)
  let maxc := listMax (comp.map Prod.snd)
  let bbox0 : Rect := (r0 + minr, c0 + minc, r0 + maxr, c0 + maxc)
  let mask := comp.filterMap fun p =>
    if r0 ≤ r0 + p.1 ∧ r0 + p.1 ≤ r1 ∧ c0 ≤ c0 + p.2 ∧ c0 + p.2 ≤ c1 then
      some (r0 + p.1, c0 + p.2)
    else none
  let bbox : Rect := (max bbox0.1 r0, max bbox0.2.1 c0, min bbox0.2.2.1 r1, min bbox0.2.2.2 c1)
  { rects := rectsSheet, bbox := bbox, mask := mask }

/-- `table_detection.grid_to_tables` (`opts` lives inside `Ws`). -/
def grid_to_tables (ws : Ws) (area : Rect) (hiddenPolicy : String) : List PyTable :=
  let g5 := build_nonempty_grid ws area hiddenPolicy
  let grid := g5.1
  let r0 := g5.2.1
  let c0 := g5.2.2.1
  let r1 := g5.2.2.2.1
  let c1 := g5.2.2.2.2
  let R := grid.length
  let C := (grid.headD []).length
  let ml := build_merged_lookup ws (some area)
  let ER := emptyRowsOf ws ml r0 c0 R C
  let EC := emptyColsOf ws ml r0 c0 R C
  let comps := componentsOf grid R C ER EC
  let tables := comps.map (tableOfComp grid r0 c0 r1 c1)
  pySort (fun a b =>
    decide (a.bbox.1 < b.bbox.1 ∨ (a.bbox.1 = b.bbox.1 ∧ a.bbox.2.1 ≤ b.bbox.2.1))) tables

/-! ### External text helpers and options

`normalize_numeric_text`, `md_escape`, `numeric_like` (`cell_utils`) and the
Unicode tables behind `str.isalnum`, `unicodedata.normalize("NFKC", ...)` and
`str.casefold` are external to the core; they are abstracted as a context of
pure functions.  The `opts` dict keys read by the classifier/extraction code
are collected in `Opts`: keys accessed with `opts[...]` are plain fields,
keys accessed with `opts.get(key, default)` are `Option` fields with the
default applied at the use site, exactly as in the source. -/

/-- A Python exception value. -/
inductive PyErr where
  /-- `NameError` (an unresolved global name). -/
  | nameError : PyErr
  /-- any other exception raised by a detection helper. -/
  | userError : PyErr
deriving DecidableEq, Repr

/-- External pure text helpers (with `opts` already applied where they take
it). -/
structure Ctx where
  /-- `normalize_numeric_text(·, opts)`. -/
  normNum : String → String
  /-- `md_escape(·, opts["markdown_escape_level"])`. -/
  mdEscape : String → String
  /-- `cell_utils.numeric_like`. -/
  numericLike : String → Bool
  /-- Python `str.isalnum` on one character (full Unicode table). -/
  isAlnum : Char → Bool
  /-- `unicodedata.normalize("NFKC", ·)`. -/
  nfkc : String → String
  /-- `str.casefold`. -/
  casefold : String → String

/-- The `mermaid_columns` name→role mapping (values may be `None`). -/
structure Mapping where
  roleFrom : Option String
  roleTo : Option String
  roleLabel : Option String
  roleGroup : Option String
  roleNote : Option String
deriving DecidableEq, Repr

/-- The column-index map produced by flow-table detection (Python dict with
keys `from, to, label, group, note`; a missing/None entry is `none`). -/
structure Colmap where
  cFrom : Option Nat
  cTo : Option Nat
  cLabel : Option Nat
  cGroup : Option Nat
  cNote : Option Nat
deriving DecidableEq, Repr

/-- The `opts` keys consumed by the embedded functions. -/
structure Opts where
  /-- `opts["max_cells_per_table"]`. -/
  maxCellsPerTable : Nat
  /-- `opts["hyperlink_mode"]`. -/
  hyperlinkMode : String
  /-- `opts.get("merge_policy")`. -/
  mergePolicy : Option String := none
  /-- `opts.get("dispatch_skip_code_and_mermaid_on_fallback", True)`. -/
  skipFallback : Option Bool := none
  /-- `opts.get("mermaid_enabled", False)`. -/
  mermaidEnabled : Option Bool := none
  /-- `opts.get("mermaid_detect_mode", "shapes")`. -/
  detectMode : Option String := none
  /-- `opts.get("mermaid_keep_source_table", True)`. -/
  keepSourceTable : Option Bool := none
  /-- `opts.get("header_detection", True)`. -/
  headerDetection : Option Bool := none
  /-- `opts.get("align_detection", True)`. -/
  alignDetection : Option Bool := none
  /-- `opts.get("numbers_right_threshold", 0.8)` (a float in Python,
  modelled as a rational). -/
  numbersRightThreshold : Option ℚ := none
  /-- `opts.get("mermaid_columns", {...})`. -/
  mermaidColumns : Option Mapping := none
  /-- `opts.get("mermaid_diagram_type", "flowchart")`. -/
  diagramType : Option String := none
  /-- `opts.get("mermaid_direction", "TD")`. -/
  direction : Option String := none
  /-- `opts.get("mermaid_node_id_policy", "auto")`. -/
  nodeIdPolicy : Option String := none
  /-- `opts.get("mermaid_dedupe_edges", True)`. -/
  dedupeEdges : Option Bool := none
  /-- `opts.get("mermaid_group_column_behavior", "subgraph")`. -/
  groupBehavior : Option String := none

/-- Python `str.lower()` (ASCII case mapping; the keyword matching below
only involves ASCII). -/
def pyLower (s : String) : String := String.mk (s.toList.map Char.toLower)

/-- Python `sub in s` substring containment. -/
def strContains (s sub : String) : Bool := decide (List.IsInfix sub.toList s.toList)

/-- `"  " * k`-style string repetition. -/
def strRepeat (s : String) (n : Nat) : String := String.join (List.replicate n s)

/-- Lexicographic `<` on code-point lists (Python string comparison). -/
def chLt : List Char → List Char → Bool
  | [], [] => false
  | [], _ :: _ => true
  | _ :: _, [] => false
  | a :: as, b :: bs => if a < b then true else if b < a then false else chLt as bs

/-- Python string `≤` (lexicographic on code points). -/
def strLe (a b : String) : Bool := ! chLt b.toList a.toList

/-! ### `table_formatting.is_source_code` / code blocks (lines 11-174) -/

/-- The `code_keywords` list, verbatim (including the duplicated
`namespace`). -/
def code_keywords : List String :=
  ["public", "private", "protected", "class", "interface", "import", "package",
   "static", "final", "void", "return", "if", "else", "for", "while", "switch",
   "case", "try", "catch", "throw", "throws", "extends", "implements",
   "def", "function", "var", "let", "const", "async", "await",
   "namespace", "using", "namespace", "struct", "enum"]

/-- The `code_symbols` list (`\x7b`/`\x7d` are the brace characters). -/
def code_symbols : List String := ["\x7b", "\x7d", ";", "//", "/*", "*/"]

/-- `re.search(r"@[a-zA-Z_][a-zA-Z0-9_]*", text)`: since the starred part is
optional this holds iff some `@` is immediately followed by an ASCII letter
or underscore. -/
def scanAnnot : List Char → Bool
  | [] => false
  | '@' :: ch :: rest =>
    if ('a' ≤ ch ∧ ch ≤ 'z') ∨ ('A' ≤ ch ∧ ch ≤ 'Z') ∨ ch = '_' then true
    else scanAnnot (ch :: rest)
  | _ :: rest => scanAnnot rest

/-- `table_formatting.is_source_code`. -/
def is_source_code (ctx : Ctx) (text : String) : Bool :=
  if text = "" ∨ pyStrip text = "" then false
  else
    let textLower := pyLower text
    let textStripped := pyStrip text
    let hasAnnot := strContains text "@" && scanAnnot text.toList
    let hasKeyword := code_keywords.any fun kw => strContains textLower kw
    let hasSymbol := code_symbols.any fun sym => strContains text sym
    if textStripped.toList.headD ' ' = '@' ∧ 1 < textStripped.length ∧
        ctx.isAlnum (textStripped.toList.getD 1 ' ') then true
    else if hasAnnot && (hasKeyword || hasSymbol) then true
    else if hasKeyword && hasSymbol then true
    else if 2 ≤ (code_symbols.filter fun sym => strContains text sym).length then true
    else if hasKeyword && (hasSymbol || hasAnnot) then true
    else false

/-- `table_formatting.detect_code_language`. -/
def detect_code_language (lines : List String) : String :=
  if lines = [] then ""
  else
    let combined := pyLower (String.intercalate " " lines)
    if ["public class", "private class", "import java", "@override",
        "@annotation"].any (fun kw => strContains combined kw) then "java"
    else if (["def ", "import ", "from ", "if __name__", "class "].any fun kw =>
        strContains combined kw) && strContains combined ":" then "python"
    else if ["function ", "const ", "let ", "var ", "=>", "export ",
        "import "].any (fun kw => strContains combined kw) then "javascript"
    else if ["namespace ", "using ", "public class",
        "[attribute"].any (fun kw => strContains combined kw) then "csharp"
    else if ["#include", "int main", "printf",
        "cout"].any (fun kw => strContains combined kw) then "c"
    else ""

/-- `row_text`: the first cell of the row with visible text, stripped. -/
def codeRowText (row : List String) : String :=
  match row.find? (fun val => truthyStrip val) with
  | some val => pyStrip val
  | none => ""

/-- The shared row fold of `build_code_block_from_rows` and (verbatim the
same loop in) `table_formatting.is_code_block`: accumulates `code_lines` and
the `is_code` flag. -/
def buildCodeState (ctx : Ctx) : List (List String) → List String → Bool →
    List String × Bool
  | [], acc, isCb => (acc, isCb)
  | row :: rest, acc, isCb =>
    if row = [] then
      buildCodeState ctx rest (if isCb then acc ++ [""] else acc) isCb
    else
      let rowText := codeRowText row
      if rowText != "" && is_source_code ctx rowText then
        buildCodeState ctx rest (acc ++ [rowText]) true
      else if isCb && rowText != "" then
        buildCodeState ctx rest (acc ++ [rowText]) isCb
      else if isCb && rowText == "" then
        buildCodeState ctx rest (acc ++ [""]) isCb
      else buildCodeState ctx rest acc isCb

/-- `table_formatting.build_code_block_from_rows`. -/
def build_code_block_from_rows (ctx : Ctx) (md_rows : List (List String)) : Option String :=
  if md_rows = [] then none
  else
    let st := buildCodeState ctx md_rows [] false
    if st.2 && st.1 != [] then
      some ("```" ++ detect_code_language st.1 ++ "\n" ++
        String.intercalate "\n" st.1 ++ "\n```")
    else none

/-- `table_formatting.is_code_block`.  NOTE: this function lives in
`table_formatting.py` and is *not* imported by `mermaid_generator.py`, whose
heuristic branch nevertheless refers to the name (see `is_flow_table`
below). -/
def is_code_block (ctx : Ctx) (md_rows : List (List String)) : Bool :=
  if md_rows = [] then false
  else
    let st := buildCodeState ctx md_rows [] false
    st.2 && st.1 != []

/-! ### `table_formatting.make_markdown_table` (lines 337-389) -/

/-- `table_formatting.detect_right_align` (Python float division modelled
over ℚ). -/
def detect_right_align (ctx : Ctx) (colVals : List String) (threshold : ℚ) : Bool :=
  if colVals = [] then false
  else
    let nonEmpty := colVals.filter fun v => pyStrip v != ""
    if nonEmpty = [] then false
    else
      let numericCount := (nonEmpty.filter fun v => ctx.numericLike v).length
      decide (threshold ≤ (numericCount : ℚ) / (nonEmpty.length : ℚ))

/-- `table_formatting.make_markdown_table`. -/
def make_markdown_table (ctx : Ctx) (md_rows : List (List String))
    (headerDetection alignDetect : Bool) (alignThreshold : ℚ) : String :=
  if md_rows = [] then ""
  else
    let cols := (md_rows.headD []).length
    let nonEmptyCols := (List.range cols).filter fun c =>
      md_rows.any fun row => pyStrip (row.getD c "") != ""
    if nonEmptyCols = [] then ""
    else
      let mdRows2 := md_rows.map fun row => nonEmptyCols.map fun c => row.getD c ""
      let headerOpt :=
        if headerDetection && (mdRows2.headD []).any (fun cell => pyStrip cell != "") then
          some (mdRows2.headD [])
        else none
      let data := match headerOpt with
        | some _ => mdRows2.tail
        | none => mdRows2
      let cols2 := match headerOpt with
        | some h => h.length
        | none => (mdRows2.headD []).length
      let aligns :=
        if alignDetect then
          (List.range cols2).map fun c =>
            if detect_right_align ctx
                (data.filterMap fun row => if c < row.length then some (row.getD c "") else none)
                alignThreshold then "---:" else "---"
        else List.replicate cols2 "---"
      let hdrLines := match headerOpt with
        | some h => ["| " ++ String.intercalate " | " h ++ " |",
                     "| " ++ String.intercalate " | " aligns ++ " |"]
        | none => []
      let bodyRows := match headerOpt with
        | some _ => data
        | none => mdRows2
      let bodyLines := bodyRows.map fun row =>
        let row := if row.length < cols2 then row ++ List.replicate (cols2 - row.length) "" else row
        "| " ++ String.intercalate " | " row ++ " |"
      String.intercalate "\n" (hdrLines ++ bodyLines)

/-! ### `table_formatting.format_table_as_text_or_nested` (lines 177-311)

The module-level call `build_code_block_from_rows(md_rows)` at line 269 is
passed in as `codeDetect` so that a detector that raises (spec §7's
"detection-internal failure") can be expressed; the pure instantiation
`pureCodeDetect` recovers the literal source behaviour. -/

/-- Merged-cell handling plus `normalize_numeric_text` for one cell of the
used-column scan of `format_table_as_text_or_nested`. -/
def fmtCellText (ctx : Ctx) (ws : Ws) (opts : Opts)
    (ml : Nat × Nat → Option (Nat × Nat)) (R C : Nat) : String :=
  let text := match ml (R, C) with
    | some tl =>
      if (R, C) = tl then ws.disp tl.1 tl.2
      else if opts.mergePolicy = some "top_left_only" then ""
      else ws.disp tl.1 tl.2
    | none => ws.disp R C
  ctx.normNum text

/-- The `candidate_cols` set: columns of the bbox owning at least one mask
cell (iterated in ascending order, as `sorted(used_cols)` later
canonicalizes anyway). -/
def fmtCandidateCols (tbl : PyTable) : List Nat :=
  (List.range' tbl.bbox.2.1 (tbl.bbox.2.2.2 + 1 - tbl.bbox.2.1)).filter fun C =>
    (List.range' tbl.bbox.1 (tbl.bbox.2.2.1 + 1 - tbl.bbox.1)).any fun R =>
      decide ((R, C) ∈ tbl.mask)

/-- The `used_cols` computation of `format_table_as_text_or_nested`
(lines 193-229): candidate columns that contain some visible value. -/
def fmtUsedCols (ctx : Ctx) (ws : Ws) (tbl : PyTable) (opts : Opts)
    (ml : Nat × Nat → Option (Nat × Nat)) : List Nat :=
  (fmtCandidateCols tbl).filter fun C =>
    (List.range' tbl.bbox.1 (tbl.bbox.2.2.1 + 1 - tbl.bbox.1)).any fun R =>
      decide ((R, C) ∈ tbl.mask) && truthyStrip (fmtCellText ctx ws opts ml R C)

/-- The nested-format row loop (lines 274-305): returns the accumulated
lines and the `use_nested` flag (`false` means the loop `break`ed). -/
def nestedGo : List (List String) → List String → List String × Bool
  | [], acc => (acc, true)
  | row :: rest, acc =>
    if row = [] then nestedGo rest (acc ++ [""])
    else
      let ne := (row.enum.filter fun p => truthyStrip p.2).map Prod.fst
      if ne.length = 0 then nestedGo rest (acc ++ [""])
      else if ne.length = 1 then
        if ne.headD 0 = 0 then nestedGo rest (acc ++ [row.getD 0 ""])
        else nestedGo rest (acc ++ [strRepeat "  " (ne.headD 0) ++ row.getD (ne.headD 0) ""])
      else
        if 0 < ne.headD 0 ∧ (ne.enum.all fun p => p.2 = ne.headD 0 + p.1) then
          nestedGo rest (acc ++ [strRepeat "  " (ne.headD 0) ++ row.getD (ne.headD 0) ""])
        else (acc, false)

/-- `table_formatting.format_table_as_text_or_nested`. -/
def format_table_as_text_or_nested (ctx : Ctx)
    (codeDetect : List (List String) → Except PyErr (Option String))
    (ws : Ws) (tbl : PyTable) (md_rows : List (List String)) (opts : Opts)
    (ml : Nat × Nat → Option (Nat × Nat)) : Except PyErr (String × Option String) :=
  if md_rows = [] then .ok ("empty", some "")
  else
    let used_cols := fmtUsedCols ctx ws tbl opts ml
    if used_cols = [] then .ok ("empty", some "")
    else
      let first_row := md_rows.headD []
      let nonEmptyFirst := (first_row.enum.filter fun p => truthyStrip p.2).map Prod.fst
      let textBranch : Option String :=
        if nonEmptyFirst.length = 1 then
          let idx := nonEmptyFirst.headD 0
          if idx < used_cols.length then
            let actualCol := used_cols.getD idx 0
            if ! ws.hasBorder tbl.bbox.1 actualCol then
              let allOther := used_cols.all fun C =>
                decide (C = actualCol) ||
                !decide ((tbl.bbox.1, C) ∈ tbl.mask) ||
                (!truthyStrip (ctx.normNum (ws.disp tbl.bbox.1 C)) &&
                 !ws.hasBorder tbl.bbox.1 C)
              if allOther then some (first_row.getD idx "") else none
            else none
          else none
        else none
      match textBranch with
      | some tv => .ok ("text", some tv)
      | none =>
        match codeDetect md_rows with
        | .error e => .error e
        | .ok codeBlock =>
          if codeBlock.getD "" != "" then .ok ("code", some (codeBlock.getD ""))
          else
            let nested := nestedGo md_rows []
            if nested.2 && nested.1 != [] then
              .ok ("nested", some (String.intercalate "\n" nested.1))
            else .ok ("table", none)

/-- The literal source behaviour: `build_code_block_from_rows` never raises
on lists of strings, so it is a pure detector. -/
def pureCodeDetect (ctx : Ctx) : List (List String) → Except PyErr (Option String) :=
  fun rows => .ok (build_code_block_from_rows ctx rows)

/-! ### `mermaid_generator` (lines 17-51, 395-557) -/

/-- Accumulator pass splitting a character list at whitespace runs. -/
def wsWordsAux : List Char → List Char → List String
  | [], acc => if acc.isEmpty then [] else [String.mk acc.reverse]
  | c :: cs, acc =>
    if c.isWhitespace then
      if acc.isEmpty then wsWordsAux cs [] else String.mk acc.reverse :: wsWordsAux cs []
    else wsWordsAux cs (c :: acc)

/-- Python `str.split()` with no separator: whitespace runs split, empties
dropped. -/
def wsWords (s : String) : List String := wsWordsAux s.toList []

/-- `_v14_normalize_header_name`: NFKC, casefold, collapse whitespace runs
(that is, rebuild the string as `" ".join(s.split())`). -/
def _v14_normalize_header_name (ctx : Ctx) (s : String) : String :=
  String.intercalate " " (wsWords (ctx.casefold (ctx.nfkc s)))

/-- The character filter of `_v14_sanitize_node_id`: ASCII alphanumerics and
underscore are kept, everything else becomes `_`. -/
def sanitizeChar (ch : Char) : Char :=
  if ('a' ≤ ch ∧ ch ≤ 'z') ∨ ('A' ≤ ch ∧ ch ≤ 'Z') ∨ ('0' ≤ ch ∧ ch ≤ '9') ∨ ch = '_' then ch
  else '_'

/-- `re.sub(r"_+", "_", s)`: collapse runs of underscores (drop an
underscore whose predecessor is an underscore). -/
def collapseAux : Option Char → List Char → List Char
  | _, [] => []
  | prev, ch :: rest =>
    if ch = '_' ∧ prev = some '_' then collapseAux prev rest
    else ch :: collapseAux (some ch) rest

/-- `mermaid_generator._v14_sanitize_node_id`.  (`s[0].isdigit()` is the
ASCII digit test here because after the character filter every character is
ASCII.) -/
def _v14_sanitize_node_id (ctx : Ctx) (name : String) : String :=
  let s := String.mk ((ctx.nfkc name).toList.map sanitizeChar)
  let s := if s = "" then "_" else s
  let s := if (s.toList.headD '_').isDigit then "_" ++ s else s
  String.mk (collapseAux none s.toList)

/-- `_v14_resolve_columns_by_name` (lines 36-51): match normalized header
cells against the normalized role names; the first occurrence wins
(duplicates only trigger a log warning). -/
def _v14_resolve_columns_by_name (ctx : Ctx) (header : List String) (mapping : Mapping) :
    Option Colmap :=
  let norm : Option String → Option String := fun v =>
    match v with
    | some s => if s != "" then some (_v14_normalize_header_name ctx s) else none
    | none => none
  let nF := norm mapping.roleFrom
  let nT := norm mapping.roleTo
  let nL := norm mapping.roleLabel
  let nG := norm mapping.roleGroup
  let nN := norm mapping.roleNote
  let step : Colmap → Nat × String → Colmap := fun cm p =>
    let key := _v14_normalize_header_name ctx p.2
    let cm := if nF = some key ∧ cm.cFrom = none then { cm with cFrom := some p.1 } else cm
    let cm := if nT = some key ∧ cm.cTo = none then { cm with cTo := some p.1 } else cm
    let cm := if nL = some key ∧ cm.cLabel = none then { cm with cLabel := some p.1 } else cm
    let cm := if nG = some key ∧ cm.cGroup = none then { cm with cGroup := some p.1 } else cm
    let cm := if nN = some key ∧ cm.cNote = none then { cm with cNote := some p.1 } else cm
    cm
  let cm := header.enum.foldl step ⟨none, none, none, none, none⟩
  if cm.cFrom = none ∨ cm.cTo = none then none else some cm

/-- The default `mermaid_columns` mapping
`{"from":"From","to":"To","label":"Label","group":None,"note":None}`. -/
def defaultMermaidColumns : Mapping := ⟨some "From", some "To", some "Label", none, none⟩

/-- `mermaid_generator.is_flow_table`.  In heuristic mode (and any other
mode different from `none`/`column_headers` that reaches line 422) the code
evaluates `is_code_block(md_rows)`; that name is defined in
`table_formatting.py` and never imported into `mermaid_generator.py`, so the
call raises `NameError` and the heuristic threshold code below line 422 is
unreachable. -/
def is_flow_table (ctx : Ctx) (md_rows : List (List String)) (opts : Opts) :
    Except PyErr (Bool × Option Colmap) :=
  let detect_mode := opts.detectMode.getD "shapes"
  if detect_mode = "none" then .ok (false, none)
  else if md_rows = [] ∨ md_rows.headD [] = [] then .ok (false, none)
  else if detect_mode = "column_headers" then
    if ! (opts.headerDetection.getD true) then .ok (false, none)
    else
      let header := md_rows.headD []
      if header.all fun cell => !truthyStrip cell then .ok (false, none)
      else
        match _v14_resolve_columns_by_name ctx header
            (opts.mermaidColumns.getD defaultMermaidColumns) with
        | some cm => .ok (true, some cm)
        | none => .ok (false, none)
  else .error PyErr.nameError

/-- The `while nid in nodes.values(): nid = f"{base}_{i}"; i += 1` loop of
`node_id`, with fuel.  With fuel `vals.length + 1` the candidates tried are
`vals.length + 1` pairwise distinct strings, so (as proved below) a free one
is always reached before the fuel runs out. -/
def freshIdAux (base : String) (vals : List String) : Nat → Nat → String
  | 0, i => base ++ "_" ++ toString i
  | fuel + 1, i =>
    let cand := base ++ "_" ++ toString i
    if cand ∈ vals then freshIdAux base vals fuel (i + 1) else cand

/-- `node_id` (nested in `build_mermaid`) applied to an already sanitized
base: disambiguate against the current `nodes.values()`.  (For both the
`auto` and the not-yet-implemented `explicit` policy the code sanitizes the
display name.) -/
def nodeIdFresh (vals : List String) (nid : String) : String :=
  if nid ∈ vals then freshIdAux nid vals (vals.length + 1) 2 else nid

/-- `get_val` (nested in `build_mermaid`). -/
def get_val (row : List String) (idx : Option Nat) : String :=
  match idx with
  | none => ""
  | some i => if i < row.length then row.getD i "" else ""

/-- Lookup in the insertion-ordered `nodes` dict. -/
def assocGet (l : List (String × String)) (k : String) : Option String :=
  (l.find? fun p => p.1 == k).map Prod.snd

/-- `nodes[k] = v` on the insertion-ordered dict. -/
def assocSet (l : List (String × String)) (k v : String) : List (String × String) :=
  if l.any fun p => p.1 == k then l.map fun p => if p.1 == k then (k, v) else p
  else l ++ [(k, v)]

/-- `groups.setdefault(g, set()).update(ids)` (group values are sets of node
ids, modelled as duplicate-free lists). -/
def addGroup (groups : List (String × List String)) (g : String) (ids : List String) :
    List (String × List String) :=
  let addAll : List String → List String := fun s =>
    ids.foldl (fun s i => if i ∈ s then s else s ++ [i]) s
  if groups.any fun p => p.1 == g then
    groups.map fun p => if p.1 == g then (p.1, addAll p.2) else p
  else groups ++ [(g, addAll [])]

/-- The accumulated `nodes` / `edges` / `groups` of `build_mermaid`
(`nodes` insertion-ordered display-name → id; `edges` a set of
`(from_id, to_id, label)`; `groups` name → set of ids). -/
structure MerAcc where
  nodes : List (String × String)
  edges : List (String × String × String)
  groups : List (String × List String)
deriving DecidableEq, Repr

/-- `nodes.get(x) or node_id(x)` (nested in `build_mermaid`): reuse the
existing (truthy) id of a display name, or mint a fresh disambiguated
one. -/
def nodeBindId (ctx : Ctx) (nodes : List (String × String)) (name : String) : String :=
  match assocGet nodes name with
  | some v =>
    if v ≠ "" then v
    else nodeIdFresh (nodes.map Prod.snd) (_v14_sanitize_node_id ctx name)
  | none => nodeIdFresh (nodes.map Prod.snd) (_v14_sanitize_node_id ctx name)

/-- The `for row in data_rows` body of `build_mermaid` (lines 498-514). -/
def merAccRow (ctx : Ctx) (opts : Opts) (cm : Colmap) (acc : MerAcc) (row : List String) :
    MerAcc :=
  let f := get_val row cm.cFrom
  let t := get_val row cm.cTo
  if pyStrip f = "" ∨ pyStrip t = "" then acc
  else
    let fid := nodeBindId ctx acc.nodes f
    let nodes1 := assocSet acc.nodes f fid
    let tid := nodeBindId ctx nodes1 t
    let nodes2 := assocSet nodes1 t tid
    let label := get_val row cm.cLabel
    let key := (fid, tid, pyStrip label)
    if opts.dedupeEdges.getD true ∧ key ∈ acc.edges then
      { acc with nodes := nodes2 }
    else
      let edges2 := if key ∈ acc.edges then acc.edges else acc.edges ++ [key]
      let g := get_val row cm.cGroup
      let groups2 :=
        if g ≠ "" ∧ opts.groupBehavior.getD "subgraph" = "subgraph" then
          addGroup acc.groups g [fid, tid]
        else acc.groups
      { nodes := nodes2, edges := edges2, groups := groups2 }

/-- The node/edge/group accumulation of `build_mermaid` over the data rows
(`md_rows[1:] if len(md_rows) > 1 else []`). -/
def merAccOf (ctx : Ctx) (md_rows : List (List String)) (opts : Opts) (cm : Colmap) : MerAcc :=
  let dataRows := if 1 < md_rows.length then md_rows.tail else []
  dataRows.foldl (merAccRow ctx opts cm) ⟨[], [], []⟩

/-- Lexicographic string-triple order for `sorted(edges)`. -/
def edgeLe (a b : String × String × String) : Bool :=
  if a.1 ≠ b.1 then strLe a.1 b.1
  else if a.2.1 ≠ b.2.1 then strLe a.2.1 b.2.1
  else strLe a.2.2 b.2.2

/-- `mermaid_generator.build_mermaid` (`sorted(...)` canonicalizes the
Python set/dict iteration orders). -/
def build_mermaid (ctx : Ctx) (md_rows : List (List String)) (opts : Opts) (cm : Colmap) :
    String :=
  let direction := opts.direction.getD "TD"
  let groupBehavior := opts.groupBehavior.getD "subgraph"
  let acc := merAccOf ctx md_rows opts cm
  -- every mermaid_diagram_type branch emits `flowchart {direction}`
  -- (sequence/state only log a warning and fall back)
  let headLines := ["```mermaid", "flowchart " ++ direction]
  let subLines :=
    if groupBehavior = "subgraph" then
      (pySort strLe (acc.groups.map Prod.fst)).flatMap fun gname =>
        let ids := (((acc.groups.find? fun p => p.1 == gname).map Prod.snd).getD [])
        ["  subgraph " ++ gname] ++
        ((pySort strLe ids).map fun nid =>
          let dispName := (((acc.nodes.find? fun p => p.2 == nid).map Prod.fst).getD "None")
          "    " ++ nid ++ "[\"" ++ dispName ++ "\"]") ++
        ["  end"]
    else []
  let grouped := acc.groups.flatMap Prod.snd
  let nodeLines := (pySort (fun a b => strLe a.1 b.1) acc.nodes).filterMap fun p =>
    if p.2 ∈ grouped then none
    else some ("  " ++ p.2 ++ "[\"" ++ p.1 ++ "\"]")
  let edgeLines := (pySort edgeLe acc.edges).map fun e =>
    if e.2.2 ≠ "" then "  " ++ e.1 ++ " -->|" ++ e.2.2 ++ "| " ++ e.2.1
    else "  " ++ e.1 ++ " --> " ++ e.2.1
  String.intercalate "\n" (headLines ++ subLines ++ nodeLines ++ edgeLines ++ ["```"])

/-! ### `table_extraction.detect_table_title` (lines 15-67) -/

/-- The innermost check of `detect_table_title` once a merged range with
top-left `(r, c)` is found: span and position checks, then the cell text.
`spanCols` is `min(rng.max_col, area_c1) - c + 1` (clipped variant when a
print area is given).  Returns the `return` value of the Python function,
`none` meaning "fall through to the next range / cell". -/
def titleHit (ws : Ws) (r c spanCols minRow : Nat) (excludeTo : Nat) :
    Option (String × List Nat) :=
  if 3 ≤ spanCols ∧ r ≤ minRow + 2 then
    let text := ws.disp r c
    if truthyStrip text then some (pyStrip text, List.range' c (excludeTo + 1 - c))
    else none
  else none

/-- `table_extraction.detect_table_title`; returns
`(table_title, exclude_cols)`. -/
def detect_table_title (ws : Ws) (tbl : PyTable) (ml : Nat × Nat → Option (Nat × Nat))
    (printArea : Option Rect) : Option String × List Nat :=
  let b := tbl.bbox
  let minRow := match printArea with | some a => max b.1 a.1 | none => b.1
  let minCol := match printArea with | some a => max b.2.1 a.2.1 | none => b.2.1
  let maxRow := match printArea with | some a => min b.2.2.1 a.2.2.1 | none => b.2.2.1
  let maxCol := match printArea with | some a => min b.2.2.2 a.2.2.2 | none => b.2.2.2
  let rcs := (List.range' minRow (min (minRow + 3) (maxRow + 1) - minRow)).flatMap fun r =>
    (List.range' minCol (min (minCol + 10) (maxCol + 1) - minCol)).map fun c => (r, c)
  let hit := rcs.findSome? fun rc =>
    if rc ∉ tbl.mask then none
    else if (match printArea with
      | some a => decide (rc.1 < a.1 ∨ rc.1 > a.2.2.1 ∨ rc.2 < a.2.1 ∨ rc.2 > a.2.2.2)
      | none => false) then none
    else match ml rc with
      | some tl =>
        if tl = rc then
          ws.mergedRanges.findSome? fun rng =>
            if rng.1 = rc.1 ∧ rng.2.1 = rc.2 then
              match printArea with
              | some a =>
                if rc.1 < a.1 ∨ rc.2 < a.2.1 then none
                else titleHit ws rc.1 rc.2 (min rng.2.2.2 a.2.2.2 + 1 - rc.2) minRow
                  (min rng.2.2.2 a.2.2.2)
              | none => titleHit ws rc.1 rc.2 (rng.2.2.2 + 1 - rng.2.1) minRow rng.2.2.2
            else none
        else none
      | none => none
  match hit with
  | some res => (some res.1, res.2)
  | none => (none, [])

/-! ### `table_extraction.extract_table` (lines 69-265) -/

/-- The result tuple of `extract_table`.  The function returns the 4-tuple
`(md_rows, note_refs, truncated, table_title)` at lines 155 and 265, but the
3-tuple `(md_rows, note_refs, True)` on the cell-cap path at line 205. -/
inductive ExtractResult where
  | quad (mdRows : List (List String)) (noteRefs : List (Nat × String))
      (truncated : Bool) (title : Option String)
  | triple (mdRows : List (List String)) (noteRefs : List (Nat × String))
      (truncated : Bool)
deriving DecidableEq, Repr

/-- Merged-cell handling for one cell of `extract_table`: the produced raw
text together with the cell position subsequently used for
`hyperlink_info` (the top-left cell in the merged branches that reassign
`cell`, the original one otherwise). -/
def extCellTextPos (ws : Ws) (opts : Opts) (ml : Nat × Nat → Option (Nat × Nat))
    (R C : Nat) : String × Nat × Nat :=
  match ml (R, C) with
  | some tl =>
    if (R, C) = tl then (ws.disp tl.1 tl.2, tl.1, tl.2)
    else if opts.mergePolicy = some "top_left_only" then ("", R, C)
    else (ws.disp tl.1 tl.2, tl.1, tl.2)
  | none => (ws.disp R C, R, C)

/-- The `used_cols` data test of `extract_table` (lines 111-151): merged
handling, numeric normalization, then hyperlink display fallback. -/
def extHasData (ctx : Ctx) (ws : Ws) (opts : Opts) (ml : Nat × Nat → Option (Nat × Nat))
    (R C : Nat) : Bool :=
  let p := extCellTextPos ws opts ml R C
  let text := ctx.normNum p.1
  let text := match ws.hyperlink p.2.1 p.2.2 with
    | some hl =>
      let dsp := if text ≠ "" then text else hl.display.getD ""
      if truthyStrip dsp then dsp else text
    | none => text
  truthyStrip text

/-- The `row_is_empty` test of `extract_table` (lines 166-195): raw display
values only (no numeric normalization, no hyperlink fallback). -/
def extRowTruthy (ws : Ws) (opts : Opts) (ml : Nat × Nat → Option (Nat × Nat))
    (mask : List (Nat × Nat)) (printArea : Option Rect) (R C : Nat) : Bool :=
  decide ((R, C) ∈ mask) &&
  !(match printArea with
    | some a => decide (R < a.1 ∨ R > a.2.2.1 ∨ C < a.2.1 ∨ C > a.2.2.2)
    | none => false) &&
  (match ml (R, C) with
   | some tl =>
     if (R, C) = tl then truthyStrip (ws.disp tl.1 tl.2)
     else if opts.mergePolicy ≠ some "top_left_only" then truthyStrip (ws.disp tl.1 tl.2)
     else false
   | none => truthyStrip (ws.disp R C))

/-- The hyperlink rendering block of `extract_table` (lines 236-260):
returns the updated text and note list. -/
def extHyper (ws : Ws) (opts : Opts) (fstart : Nat) (pos : Nat × Nat) (text : String)
    (noteRefs : List (Nat × String)) : String × List (Nat × String) :=
  match ws.hyperlink pos.1 pos.2 with
  | none => (text, noteRefs)
  | some hl =>
    let dsp := if text ≠ "" then text else hl.display.getD ""
    if hl.target.getD "" ≠ "" then
      let link := hl.target.getD ""
      let text :=
        if opts.hyperlinkMode = "inline" ∨ opts.hyperlinkMode = "both" then
          "[" ++ dsp ++ "](" ++ link ++ ")"
        else if opts.hyperlinkMode = "inline_plain" then dsp ++ " (" ++ link ++ ")"
        else text
      if opts.hyperlinkMode = "footnote" ∨ opts.hyperlinkMode = "both" then
        let n := fstart + noteRefs.length
        (text ++ "[^" ++ toString n ++ "]", noteRefs ++ [(n, link)])
      else (text, noteRefs)
    else if hl.location.getD "" ≠ "" then
      let loc := hl.location.getD ""
      if opts.hyperlinkMode = "inline" ∨ opts.hyperlinkMode = "both" then
        ("[" ++ dsp ++ "](" ++ loc ++ ")", noteRefs)
      else if opts.hyperlinkMode = "inline_plain" then (dsp ++ " (→" ++ loc ++ ")", noteRefs)
      else if opts.hyperlinkMode = "footnote" ∨ opts.hyperlinkMode = "both" then
        let n := fstart + noteRefs.length
        (dsp ++ "[^" ++ toString n ++ "]", noteRefs ++ [(n, loc)])
      else (text, noteRefs)
    else (text, noteRefs)

/-- The inner `for C in used_cols` value loop of one row (lines 201-263):
either the early 3-tuple return when the processed-cell counter exceeds the
cap, or the finished `(row_vals, note_refs, count)`. -/
def extCellsGo (ctx : Ctx) (ws : Ws) (opts : Opts) (ml : Nat × Nat → Option (Nat × Nat))
    (mask : List (Nat × Nat)) (printArea : Option Rect) (fstart : Nat)
    (mdRowsAcc : List (List String)) (R : Nat) :
    List Nat → List String → List (Nat × String) → Nat →
    Sum ExtractResult (List String × List (Nat × String) × Nat)
  | [], rowVals, noteRefs, count => .inr (rowVals, noteRefs, count)
  | C :: cols, rowVals, noteRefs, count =>
    let count := count + 1
    if opts.maxCellsPerTable < count then .inl (ExtractResult.triple mdRowsAcc noteRefs true)
    else if (R, C) ∉ mask then
      extCellsGo ctx ws opts ml mask printArea fstart mdRowsAcc R cols (rowVals ++ [""]) noteRefs count
    else if (match printArea with
      | some a => decide (R < a.1 ∨ R > a.2.2.1 ∨ C < a.2.1 ∨ C > a.2.2.2)
      | none => false) then
      extCellsGo ctx ws opts ml mask printArea fstart mdRowsAcc R cols (rowVals ++ [""]) noteRefs count
    else
      let p := extCellTextPos ws opts ml R C
      let text := ctx.normNum p.1
      let hr := extHyper ws opts fstart p.2 text noteRefs
      let text := ctx.mdEscape hr.1
      extCellsGo ctx ws opts ml mask printArea fstart mdRowsAcc R cols (rowVals ++ [text]) hr.2 count

/-- The outer `for R in range(min_row, max_row + 1)` loop of
`extract_table`. -/
def extRowsGo (ctx : Ctx) (ws : Ws) (opts : Opts) (ml : Nat × Nat → Option (Nat × Nat))
    (mask : List (Nat × Nat)) (printArea : Option Rect) (fstart : Nat)
    (usedCols : List Nat) (title : Option String) :
    List Nat → List (List String) → List (Nat × String) → Nat → ExtractResult
  | [], mdRows, noteRefs, _ => ExtractResult.quad mdRows noteRefs false title
  | R :: rows, mdRows, noteRefs, count =>
    if (match printArea with
      | some a => decide (R < a.1 ∨ R > a.2.2.1)
      | none => false) then
      extRowsGo ctx ws opts ml mask printArea fstart usedCols title rows mdRows noteRefs count
    else if !(usedCols.any fun C => extRowTruthy ws opts ml mask printArea R C) then
      extRowsGo ctx ws opts ml mask printArea fstart usedCols title rows mdRows noteRefs count
    else
      match extCellsGo ctx ws opts ml mask printArea fstart mdRows R usedCols [] noteRefs count with
      | .inl res => res
      | .inr fin =>
        extRowsGo ctx ws opts ml mask printArea fstart usedCols title rows
          (mdRows ++ [fin.1]) fin.2.1 fin.2.2

/-- `table_extraction.extract_table` (the unused `footnotes` parameter is
dropped; `footnote_index_start` is `fstart`). -/
def extract_table (ctx : Ctx) (ws : Ws) (tbl : PyTable) (opts : Opts) (fstart : Nat)
    (ml : Nat × Nat → Option (Nat × Nat)) (printArea : Option Rect) : ExtractResult :=
  let b := tbl.bbox
  let mask := match printArea with
    | some a => tbl.mask.filter fun p =>
        decide (a.1 ≤ p.1 ∧ p.1 ≤ a.2.2.1 ∧ a.2.1 ≤ p.2 ∧ p.2 ≤ a.2.2.2)
    | none => tbl.mask
  let minRow := match printArea with | some a => max b.1 a.1 | none => b.1
  let minCol := match printArea with | some a => max b.2.1 a.2.1 | none => b.2.1
  let maxRow := match printArea with | some a => min b.2.2.1 a.2.2.1 | none => b.2.2.1
  let maxCol := match printArea with | some a => min b.2.2.2 a.2.2.2 | none => b.2.2.2
  -- `updated_table` carries only bbox and mask
  let tt := detect_table_title ws ⟨[], (minRow, minCol, maxRow, maxCol), mask⟩ ml printArea
  let rowsRange := List.range' minRow (maxRow + 1 - minRow)
  let colsRange := List.range' minCol (maxCol + 1 - minCol)
  let candidateCols := colsRange.filter fun C =>
    decide (C ∉ tt.2) && rowsRange.any fun R => decide ((R, C) ∈ mask)
  let usedCols := candidateCols.filter fun C =>
    rowsRange.any fun R => decide ((R, C) ∈ mask) && extHasData ctx ws opts ml R C
  if usedCols = [] then ExtractResult.quad [] [] false tt.1
  else extRowsGo ctx ws opts ml mask printArea fstart usedCols tt.1 rowsRange [] [] 0

/-! ### `table_extraction.dispatch_table_output` (lines 267-330)

The two call sites of the module-level `build_code_block_from_rows` (step 1
here and the re-check inside `format_table_as_text_or_nested`) resolve the
same global name, so both receive the same `codeDetect`.  Step 1 sits in a
`try/except`; the call inside `format_table_as_text_or_nested` does not. -/

/-- Step 2 of the dispatcher: the Mermaid attempt, `none` meaning "fall
through to step 3" (including every exception caught by the surrounding
`try`, such as the heuristic mode's `NameError`). -/
def dispatchMermaid (ctx : Ctx) (md_rows : List (List String)) (opts : Opts)
    (codeFailed skipOnFallback : Bool) : Option (String × Option String) :=
  if codeFailed && skipOnFallback then none
  else if opts.mermaidEnabled.getD false then
    let mode := opts.detectMode.getD "shapes"
    if mode = "column_headers" ∨ mode = "heuristic" then
      match is_flow_table ctx md_rows opts with
      | .error _ => none
      | .ok (ok, cmOpt) =>
        if ok then
          match cmOpt with
          | some cm =>
            let mer := build_mermaid ctx md_rows opts cm
            if opts.keepSourceTable.getD true then
              some ("mermaid", some (mer ++ "\n" ++
                make_markdown_table ctx md_rows (opts.headerDetection.getD true)
                  (opts.alignDetection.getD true)
                  (opts.numbersRightThreshold.getD ((4 : ℚ) / 5))))
            else some ("mermaid", some mer)
          | none => none
        else none
    else none
  else none

/-- Steps 3-5 of the dispatcher: delegate to
`format_table_as_text_or_nested`, rebuild the markdown table for the
`table` outcome (and for any unrecognized outcome), pass the rest through. -/
def dispatchTail (ctx : Ctx) (codeDetect : List (List String) → Except PyErr (Option String))
    (ws : Ws) (tbl : PyTable) (md_rows : List (List String)) (opts : Opts)
    (ml : Nat × Nat → Option (Nat × Nat)) : Except PyErr (String × Option String) :=
  match format_table_as_text_or_nested ctx codeDetect ws tbl md_rows opts ml with
  | .error e => .error e
  | .ok fo =>
    if fo.1 = "table" then
      .ok ("table", some (make_markdown_table ctx md_rows (opts.headerDetection.getD true)
        (opts.alignDetection.getD true) (opts.numbersRightThreshold.getD ((4 : ℚ) / 5))))
    else if fo.1 = "text" ∨ fo.1 = "nested" ∨ fo.1 = "code" ∨ fo.1 = "empty" then .ok fo
    else
      .ok ("table", some (make_markdown_table ctx md_rows (opts.headerDetection.getD true)
        (opts.alignDetection.getD true) (opts.numbersRightThreshold.getD ((4 : ℚ) / 5))))

/-- `table_extraction.dispatch_table_output` (the unused `xlsx_path`
parameter is dropped). -/
def dispatch_table_output (ctx : Ctx)
    (codeDetect : List (List String) → Except PyErr (Option String))
    (ws : Ws) (tbl : PyTable) (md_rows : List (List String)) (opts : Opts)
    (ml : Nat × Nat → Option (Nat × Nat)) : Except PyErr (String × Option String) :=
  let skipOnFallback := opts.skipFallback.getD true
  match codeDetect md_rows with
  | .ok cb =>
    if cb.getD "" ≠ "" then .ok ("code", cb)
    else
      match dispatchMermaid ctx md_rows opts false skipOnFallback with
      | some res => .ok res
      | none => dispatchTail ctx codeDetect ws tbl md_rows opts ml
  | .error _ =>
    match dispatchMermaid ctx md_rows opts true skipOnFallback with
    | some res => .ok res
    | none => dispatchTail ctx codeDetect ws tbl md_rows opts ml

/-! ### Statement-level vocabulary -/

/-- Cells covered by some rectangle of a list. -/
def coveredBy (rects : List Rect) (r c : Nat) : Prop := ∃ t ∈ rects, inRect t r c

instance (rects : List Rect) (r c : Nat) : Decidable (coveredBy rects r c) := by
  unfold coveredBy; infer_instance

/-- Two rectangles share no cell. -/
def rectDisjoint (a b : Rect) : Prop := ∀ r c, ¬(inRect a r c ∧ inRect b r c)

/-- Every cell of the rectangle holds `1` in the grid. -/
def rectAllOnes (g : Grid) (t : Rect) : Prop := ∀ r c, inRect t r c → getCell g r c = 1

/-- The spec's (§4.4 / claim C4) description of the diagonal rule: the edge
between diagonal neighbours `(r1, c1)` and `(r2, c2)` is traversed iff at
least one of the two L-shaped detour paths is unblocked, where a horizontal
step is blocked iff either of the two column indices lies in `EmptyCols` and
a vertical step is blocked iff either of the two row indices lies in
`EmptyRows`.  (Both L-paths between two fixed diagonal cells use the same
column pair and the same row pair.)  Stated from the spec's words, to be
compared against the source's `is_connected`. -/
def claimDiagonalTraversal (empty_rows empty_cols : Finset Nat) (r1 c1 r2 c2 : Nat) : Prop :=
  let hStepOk := ¬(c1 ∈ empty_cols ∨ c2 ∈ empty_cols)
  let vStepOk := ¬(r1 ∈ empty_rows ∨ r2 ∈ empty_rows)
  (hStepOk ∧ vStepOk) ∨ (vStepOk ∧ hStepOk)

instance (er ec : Finset Nat) (r1 c1 r2 c2 : Nat) :
    Decidable (claimDiagonalTraversal er ec r1 c1 r2 c2) := by
  unfold claimDiagonalTraversal; infer_instance

/-- The identifier alphabet `[A-Za-z0-9_]` of sanitized node ids. -/
def isIdentChar (ch : Char) : Prop :=
  ('a' ≤ ch ∧ ch ≤ 'z') ∨ ('A' ≤ ch ∧ ch ≤ 'Z') ∨ ('0' ≤ ch ∧ ch ≤ '9') ∨ ch = '_'

instance (ch : Char) : Decidable (isIdentChar ch) := by
  unfold isIdentChar; infer_instance

/-- The digit list of `n` in base 10, most significant first (the reference
function used to reason about `Nat.toString`). -/
def natRep (n : Nat) : List Char :=
  if h : n / 10 = 0 then [Nat.digitChar (n % 10)]
  else natRep (n / 10) ++ [Nat.digitChar (n % 10)]
decreasing_by
  exact Nat.div_lt_self (Nat.pos_of_ne_zero fun h0 => h (by simp [h0])) (by omega)

/-- Value of an ASCII digit character. -/
def digitVal (ch : Char) : Nat := ch.toNat - '0'.toNat

/-- Reads a digit list back as a number. -/
def numOfRep (l : List Char) : Nat := l.foldl (fun acc ch => acc * 10 + digitVal ch) 0

/-- The claim's (C9) well-formedness of a diagram node identifier: non-empty,
drawn from `[A-Za-z0-9_]`, not beginning with a digit. -/
def goodNodeId (s : String) : Prop :=
  s ≠ "" ∧ (∀ c ∈ s.toList, isIdentChar c) ∧ ¬(s.toList.headD '_').isDigit

instance (s : String) : Decidable (goodNodeId s) := by
  unfold goodNodeId; infer_instance

/-- Shape of a grid: `rows` rows, each of length `cols`. -/
def gridShape (g : Grid) (rows cols : Nat) : Prop :=
  g.length = rows ∧ ∀ row ∈ g, row.length = cols

/-- The cell-setting fold of the merged-influence pass (the `for R ... for C`
loop body of lines 66-74), named for use in unfolding lemmas. -/
def mergeSetStep (area : Rect) (rows cols : Nat) (g : Grid) (p : Nat × Nat) : Grid :=
  if p.1 < area.1 ∨ p.1 > area.2.2.1 ∨ p.2 < area.2.1 ∨ p.2 > area.2.2.2 then g
  else if p.1 - area.1 < rows ∧ p.2 - area.2.1 < cols then
    setCellOne g (p.1 - area.1) (p.2 - area.2.1)
  else g

/-- Membership of a column in an inclusive column interval. -/
def inIv (p : Nat × Nat) (c : Nat) : Prop := p.1 ≤ c ∧ c ≤ p.2

instance (p : Nat × Nat) (c : Nat) : Decidable (inIv p c) := by
  unfold inIv; infer_instance

/-- Membership of a column in some interval of a list. -/
def inIvs (l : List (Nat × Nat)) (c : Nat) : Prop := ∃ p ∈ l, inIv p c

instance (l : List (Nat × Nat)) (c : Nat) : Decidable (inIvs l c) := by
  unfold inIvs; infer_instance

/-- The column intervals of the rectangles alive at `row` (the multiset the
sweep's `active` list tracks after the events of `row` are applied). -/
def aliveIvs (rects : List Rect) (row : Nat) : List (Nat × Nat) :=
  (rects.filter fun t => decide (t.1 ≤ row ∧ row ≤ t.2.2.1)).map colIv

/-- The column intervals of the rectangles alive just before `row` (what the
`active` list holds when the sweep reaches `row`, before its events). -/
def aliveIvsBefore (rects : List Rect) (row : Nat) : List (Nat × Nat) :=
  (rects.filter fun t => decide (t.1 < row ∧ row ≤ t.2.2.1 + 1)).map colIv

/-- The merged spans the sweep computes at `row`. -/
def spansAt (rects : List Rect) (row : Nat) : List (Nat × Nat) :=
  merge_intervals (aliveIvs rects row)

/-- The histogram invariant of `enumerate_histogram_rectangles`: after the
first `r` rows, each column's height counts consecutive 1-runs ending just
above row `r`, so the topmost `H[c]` cells of rows `< r` in column `c` are
all 1. -/
def heightsOK (g : Grid) (r : Nat) (H : List Nat) : Prop :=
  H.length = (g.headD []).length ∧
  ∀ c, H.getD c 0 ≤ r ∧ ∀ i, r - H.getD c 0 ≤ i → i < r → getCell g i c = 1

/-- The monotonic-stack invariant of the per-row scan at position `c`: each
pending entry `(i, hh)` spans columns `i .. c-1`, all of height `≥ hh`. -/
def stackOK (HH : List Nat) (c : Nat) (st : List (Nat × Nat)) : Prop :=
  ∀ p ∈ st, p.1 ≤ c ∧ ∀ j, p.1 ≤ j → j < c → p.2 ≤ HH.getD j 0

/-- A nonempty all-ones rectangle of a grid (what the carve loop selects). -/
def rectGood (g : Grid) (t : Rect) : Prop :=
  t.1 ≤ t.2.2.1 ∧ t.2.1 ≤ t.2.2.2 ∧ rectAllOnes g t

/-- The base (pre-merge-influence) grid of `build_nonempty_grid`. -/
def baseGrid (ws : Ws) (area : Rect) (hiddenPolicy : String) : Grid :=
  (List.range (area.2.2.1 - area.1 + 1)).map fun rr =>
    (List.range (area.2.2.2 - area.2.1 + 1)).map fun cc =>
      let R := area.1 + rr
      let C := area.2.1 + cc
      if hiddenPolicy = "exclude" ∧ (R ∈ ws.hiddenRows ∨ C ∈ ws.hiddenCols) then 0
      else if ws.cellEmpty R C then 0 else 1

/-!
## Theorems
-/

theorem insLe_perm {α : Type} (le : α → α → Bool) (x : α) (l : List α) :
    (insLe le x l).Perm (x :: l) := by
  induction l with
  | nil => simp [insLe]
  | cons y ys ih =>
    by_cases h : le x y = true
    · simp [insLe, h]
    · simp only [insLe, h, if_neg, Bool.false_eq_true, not_false_iff]
      exact (ih.cons y).trans (List.Perm.swap x y ys)

theorem pySort_perm {α : Type} (le : α → α → Bool) (l : List α) :
    (pySort le l).Perm l := by
  induction l with
  | nil => simp [pySort]
  | cons x xs ih => exact (insLe_perm le x (pySort le xs)).trans (ih.cons x)

/-- C4 counterexample: with `EmptyRows = {1}`, `EmptyCols = ∅`, the flood
fill's guard `is_connected` lets the edge from the current cell `(0,0)` to
its diagonal neighbour `(1,1)` be traversed (its horizontal-then-vertical
check only consults the current cell's row), while the claim's reading —
vertical steps blocked when *either* row index is empty — declares both
L-paths blocked. -/
theorem C4_counterexample :
    is_connected ({1} : Finset Nat) (∅ : Finset Nat) 0 0 1 1 = true ∧
    ¬ claimDiagonalTraversal ({1} : Finset Nat) (∅ : Finset Nat) 0 0 1 1 := by
  decide

/-- C4 (amended): for diagonally adjacent cells, `is_connected` traverses
the edge from the current cell `(r1, c1)` to the neighbour `(r2, c2)` iff
the current cell's row and column are non-empty and at least one of the
neighbour's row/column is non-empty — i.e. the h-then-v path checks only
`r1` (not `r2`) in `EmptyRows` and the v-then-h path checks only `c1` (not
`c2`) in `EmptyCols`; a true empty row+column corner at the neighbour still
blocks both paths. -/
theorem C4_diagonal_rule (ER EC : Finset Nat) (r1 c1 r2 c2 : Nat)
    (hr : ((r2 : Int) - (r1 : Int)).natAbs = 1)
    (hc : ((c2 : Int) - (c1 : Int)).natAbs = 1) :
    is_connected ER EC r1 c1 r2 c2 = true ↔
      (r1 ∉ ER ∧ c1 ∉ EC ∧ (c2 ∉ EC ∨ r2 ∉ ER)) := by
  have h1 : r1 ≠ r2 := by omega
  have h2 : c1 ≠ c2 := by omega
  rw [is_connected, if_neg h1, if_neg h2, hr, hc, if_pos (And.intro rfl rfl)]
  simp only [Bool.or_eq_true, Bool.and_eq_true, Bool.not_eq_true', decide_eq_false_iff_not,
    not_or]
  constructor
  · rintro (⟨⟨hc1, hc2⟩, hr1⟩ | ⟨⟨hr1, hr2⟩, hc1⟩)
    · exact ⟨hr1, hc1, Or.inl hc2⟩
    · exact ⟨hr1, hc1, Or.inr hr2⟩
  · rintro ⟨hr1, hc1, hc2 | hr2⟩
    · exact Or.inl ⟨⟨hc1, hc2⟩, hr1⟩
    · exact Or.inr ⟨⟨hr1, hr2⟩, hc1⟩

/-- Witness for `C4_diagonal_rule` at a concrete diagonal pair. -/
theorem C4_witness :
    is_connected ({2} : Finset Nat) ({5} : Finset Nat) 0 0 1 1 = true ↔
      (0 ∉ ({2} : Finset Nat) ∧ 0 ∉ ({5} : Finset Nat) ∧
        (1 ∉ ({5} : Finset Nat) ∨ 1 ∉ ({2} : Finset Nat))) :=
  C4_diagonal_rule {2} {5} 0 0 1 1 (by decide) (by decide)

/-! ### Grid cell lemmas (for C7/C8) -/

theorem getD_set {α : Type} (l : List α) (i : Nat) (a : α) (j : Nat) (d : α) :
    (l.set i a).getD j d = if i = j ∧ i < l.length then a else l.getD j d := by
  rw [List.getD_eq_getElem?_getD, List.getElem?_set, List.getD_eq_getElem?_getD]
  by_cases hij : i = j
  · subst hij
    by_cases hl : i < l.length
    · simp [hl]
    · simp [hl, List.getElem?_eq_none (show l.length ≤ i by omega)]
  · simp [hij]

theorem getCell_setCellOne (g : Grid) (a b r c : Nat) :
    getCell (setCellOne g a b) r c =
      if a = r ∧ b = c ∧ a < g.length ∧ b < (g.getD a []).length then 1
      else getCell g r c := by
  unfold setCellOne getCell
  rw [getD_set]
  by_cases har : a = r ∧ a < g.length
  · rw [if_pos har, getD_set]
    obtain ⟨har1, har2⟩ := har
    subst har1
    by_cases hbc : b = c ∧ b < (g.getD a []).length
    · rw [if_pos hbc, if_pos ⟨rfl, hbc.1, har2, hbc.2⟩]
    · rw [if_neg hbc, if_neg (by tauto)]
  · rw [if_neg har, if_neg (by tauto)]

theorem one_preserved_setCellOne (g : Grid) (a b r c : Nat)
    (h : getCell g r c = 1) : getCell (setCellOne g a b) r c = 1 := by
  rw [getCell_setCellOne]; split <;> simp [h]

theorem getD_eq_getElem_of_lt {g : Grid} {a : Nat} (hal : a < g.length) :
    g.getD a [] = g[a] := by
  rw [List.getD_eq_getElem?_getD, List.getElem?_eq_getElem hal]; rfl

theorem gridShape_setCellOne {g : Grid} {rows cols : Nat} (h : gridShape g rows cols)
    (a b : Nat) : gridShape (setCellOne g a b) rows cols := by
  obtain ⟨hlen, hrows⟩ := h
  by_cases hal : a < g.length
  · refine ⟨by simp [setCellOne, hlen], fun row hrow => ?_⟩
    rcases List.mem_or_eq_of_mem_set hrow with hmem | heq
    · exact hrows row hmem
    · subst heq
      rw [List.length_set, getD_eq_getElem_of_lt hal]
      exact hrows _ (List.getElem_mem hal)
  · unfold setCellOne
    rw [List.set_eq_of_length_le (by omega)]
    exact ⟨hlen, hrows⟩


theorem mem_rectCellList (a b c d r s : Nat) :
    (r, s) ∈ rectCellList a b c d ↔ a ≤ r ∧ r ≤ c ∧ b ≤ s ∧ s ≤ d := by
  simp only [rectCellList, List.mem_flatMap, List.mem_map, List.mem_range'_1, Prod.mk.injEq]
  constructor
  · rintro ⟨R, ⟨h1, h2⟩, C, ⟨h3, h4⟩, h5, h6⟩
    omega
  · rintro ⟨h1, h2, h3, h4⟩
    exact ⟨r, by omega, s, by omega, rfl, rfl⟩

theorem mergeInfluence_eq (ws : Ws) (area : Rect) (rows cols : Nat) (g : Grid) (blk : Rect) :
    mergeInfluence ws area rows cols g blk =
      if (rectCellList blk.1 blk.2.1 blk.2.2.1 blk.2.2.2).any (fun p =>
          !decide (p.1 < area.1 ∨ p.1 > area.2.2.1 ∨ p.2 < area.2.1 ∨ p.2 > area.2.2.2) &&
          !ws.cellEmpty p.1 p.2) then
        (rectCellList blk.1 blk.2.1 blk.2.2.1 blk.2.2.2).foldl (mergeSetStep area rows cols) g
      else g := by
  rfl

theorem one_preserved_mergeSetFold (area : Rect) (rows cols : Nat) :
    ∀ (cells : List (Nat × Nat)) (g : Grid) (r c : Nat), getCell g r c = 1 →
      getCell (cells.foldl (mergeSetStep area rows cols) g) r c = 1 := by
  intro cells
  induction cells with
  | nil => intro g r c h; exact h
  | cons p rest ih =>
    intro g r c h
    refine ih _ r c ?_
    unfold mergeSetStep
    split
    · exact h
    · split
      · exact one_preserved_setCellOne _ _ _ _ _ h
      · exact h

theorem one_preserved_mergeInfluence (ws : Ws) (area : Rect) (rows cols : Nat)
    (g : Grid) (blk : Rect) (r c : Nat) (h : getCell g r c = 1) :
    getCell (mergeInfluence ws area rows cols g blk) r c = 1 := by
  rw [mergeInfluence_eq]
  split
  · exact one_preserved_mergeSetFold area rows cols _ g r c h
  · exact h

theorem one_preserved_mergeFold (ws : Ws) (area : Rect) (rows cols : Nat) :
    ∀ (blks : List Rect) (g : Grid) (r c : Nat), getCell g r c = 1 →
      getCell (blks.foldl (mergeInfluence ws area rows cols) g) r c = 1 := by
  intro blks
  induction blks with
  | nil => intro g r c h; exact h
  | cons blk rest ih =>
    intro g r c h
    exact ih _ r c (one_preserved_mergeInfluence ws area rows cols g blk r c h)

theorem gridShape_mergeSetFold (area : Rect) (rows cols : Nat) :
    ∀ (cells : List (Nat × Nat)) (g : Grid), gridShape g rows cols →
      gridShape (cells.foldl (mergeSetStep area rows cols) g) rows cols := by
  intro cells
  induction cells with
  | nil => intro g h; exact h
  | cons p rest ih =>
    intro g h
    refine ih _ ?_
    unfold mergeSetStep
    split
    · exact h
    · split
      · exact gridShape_setCellOne h _ _
      · exact h

theorem gridShape_mergeInfluence (ws : Ws) (area : Rect) (rows cols : Nat)
    (g : Grid) (blk : Rect) (h : gridShape g rows cols) :
    gridShape (mergeInfluence ws area rows cols g blk) rows cols := by
  rw [mergeInfluence_eq]
  split
  · exact gridShape_mergeSetFold area rows cols _ g h
  · exact h

theorem gridShape_mergeFold (ws : Ws) (area : Rect) (rows cols : Nat) :
    ∀ (blks : List Rect) (g : Grid), gridShape g rows cols →
      gridShape (blks.foldl (mergeInfluence ws area rows cols) g) rows cols := by
  intro blks
  induction blks with
  | nil => intro g h; exact h
  | cons blk rest ih =>
    intro g h
    exact ih _ (gridShape_mergeInfluence ws area rows cols g blk h)

theorem mergeSetFold_sets (area : Rect) (rows cols : Nat) :
    ∀ (cells : List (Nat × Nat)) (g : Grid) (p : Nat × Nat), p ∈ cells →
      gridShape g rows cols →
      ¬(p.1 < area.1 ∨ p.1 > area.2.2.1 ∨ p.2 < area.2.1 ∨ p.2 > area.2.2.2) →
      p.1 - area.1 < rows → p.2 - area.2.1 < cols →
      getCell (cells.foldl (mergeSetStep area rows cols) g) (p.1 - area.1) (p.2 - area.2.1) = 1 := by
  intro cells
  induction cells with
  | nil => intro g p hp _ _ _ _; exact absurd hp (List.not_mem_nil p)
  | cons q rest ih =>
    intro g p hp hshape harea hrow hcol
    rcases List.mem_cons.mp hp with heq | hmem
    · subst heq
      refine one_preserved_mergeSetFold area rows cols rest _ _ _ ?_
      unfold mergeSetStep
      rw [if_neg harea, if_pos (And.intro hrow hcol), getCell_setCellOne]
      have hgl : p.1 - area.1 < g.length := by rw [hshape.1]; exact hrow
      have hrl : (g.getD (p.1 - area.1) []).length = cols := by
        rw [getD_eq_getElem_of_lt hgl]
        exact hshape.2 _ (List.getElem_mem hgl)
      rw [if_pos (And.intro rfl (And.intro rfl (And.intro hgl (by rw [hrl]; exact hcol))))]
    · refine ih _ p hmem ?_ harea hrow hcol
      unfold mergeSetStep
      split
      · exact hshape
      · split
        · exact gridShape_setCellOne hshape _ _
        · exact hshape

theorem build_nonempty_grid_eq (ws : Ws) (r0 c0 r1 c1 : Nat) (hp : String) :
    build_nonempty_grid ws (r0, c0, r1, c1) hp =
      ((mergedCoordsOf ws (r0, c0, r1, c1)).foldl
        (mergeInfluence ws (r0, c0, r1, c1) (r1 - r0 + 1) (c1 - c0 + 1))
        (baseGrid ws (r0, c0, r1, c1) hp), r0, c0, r1, c1) := rfl

theorem gridShape_baseGrid (ws : Ws) (r0 c0 r1 c1 : Nat) (hp : String) :
    gridShape (baseGrid ws (r0, c0, r1, c1) hp) (r1 - r0 + 1) (c1 - c0 + 1) := by
  constructor
  · simp [baseGrid]
  · intro row hrow
    simp only [baseGrid, List.mem_map, List.mem_range] at hrow
    obtain ⟨rr, _, hrr⟩ := hrow
    simp [← hrr]

theorem mergedCoordsOf_skip (ws : Ws) (area : Rect) (L₁ L₂ : List Rect) (b : Rect)
    (h : b.1 < area.1 ∨ b.2.1 < area.2.1 ∨ area.2.2.1 < b.1 ∨ area.2.2.2 < b.2.1) :
    mergedCoordsOf { ws with mergedRanges := L₁ ++ b :: L₂ } area =
      mergedCoordsOf { ws with mergedRanges := L₁ ++ L₂ } area := by
  unfold mergedCoordsOf
  show (L₁ ++ b :: L₂).filterMap _ = (L₁ ++ L₂).filterMap _
  rw [List.filterMap_append, List.filterMap_append, List.filterMap_cons]
  by_cases h1 : b.2.2.1 < area.1 ∨ b.1 > area.2.2.1 ∨ b.2.2.2 < area.2.1 ∨ b.2.1 > area.2.2.2
  · simp [h1]
  · have h2 : b.1 < area.1 ∨ b.2.1 < area.2.1 := by
      push_neg at h1
      omega
    simp [h1, h2]

/-- C7: in `build_nonempty_grid`, a merge block whose top-left cell lies
outside the area is skipped entirely (removing it from the range list leaves
the produced grid unchanged), while a block that intersects the area with
its top-left inside the area marks every cell of its in-area clip `1` as
soon as any such cell is non-empty. -/
theorem C7_merge_influence :
    (∀ (ws : Ws) (area : Rect) (hp : String) (L₁ L₂ : List Rect) (b : Rect),
      b.1 < area.1 ∨ b.2.1 < area.2.1 ∨ area.2.2.1 < b.1 ∨ area.2.2.2 < b.2.1 →
      build_nonempty_grid { ws with mergedRanges := L₁ ++ b :: L₂ } area hp =
        build_nonempty_grid { ws with mergedRanges := L₁ ++ L₂ } area hp) ∧
    (∀ (ws : Ws) (area : Rect) (hp : String) (blk : Rect), blk ∈ ws.mergedRanges →
      ¬(blk.2.2.1 < area.1 ∨ blk.1 > area.2.2.1 ∨ blk.2.2.2 < area.2.1 ∨ blk.2.1 > area.2.2.2) →
      ¬(blk.1 < area.1 ∨ blk.2.1 < area.2.1) →
      (∃ p ∈ rectCellList (max area.1 blk.1) (max area.2.1 blk.2.1)
          (min area.2.2.1 blk.2.2.1) (min area.2.2.2 blk.2.2.2),
          ws.cellEmpty p.1 p.2 = false) →
      ∀ p ∈ rectCellList (max area.1 blk.1) (max area.2.1 blk.2.1)
          (min area.2.2.1 blk.2.2.1) (min area.2.2.2 blk.2.2.2),
        getCell (build_nonempty_grid ws area hp).1 (p.1 - area.1) (p.2 - area.2.1) = 1) := by
  constructor
  · rintro ws ⟨r0, c0, r1, c1⟩ hp L₁ L₂ b h
    rw [build_nonempty_grid_eq, build_nonempty_grid_eq,
      mergedCoordsOf_skip ws (r0, c0, r1, c1) L₁ L₂ b h]
    rfl
  · rintro ws ⟨r0, c0, r1, c1⟩ hp blk hmem h1 h2 ⟨p0, hp0mem, hp0⟩ p hpmem
    dsimp only at h1 h2 hp0mem hpmem
    have hclipmem : (max r0 blk.1, max c0 blk.2.1, min r1 blk.2.2.1, min c1 blk.2.2.2) ∈
        mergedCoordsOf ws (r0, c0, r1, c1) :=
      List.mem_filterMap.mpr ⟨blk, hmem, by rw [if_neg h1, if_neg h2]⟩
    obtain ⟨s, t, hst⟩ := List.append_of_mem hclipmem
    rw [build_nonempty_grid_eq]
    show getCell ((mergedCoordsOf ws (r0, c0, r1, c1)).foldl _ _) _ _ = 1
    rw [hst, List.foldl_append, List.foldl_cons]
    have hshape1 : gridShape ((List.foldl (mergeInfluence ws (r0, c0, r1, c1)
        (r1 - r0 + 1) (c1 - c0 + 1)) (baseGrid ws (r0, c0, r1, c1) hp) s))
        (r1 - r0 + 1) (c1 - c0 + 1) :=
      gridShape_mergeFold _ _ _ _ s _ (gridShape_baseGrid ws r0 c0 r1 c1 hp)
    have hp0r := (mem_rectCellList _ _ _ _ _ _).mp (by exact hp0mem)
    have hpr := (mem_rectCellList _ _ _ _ _ _).mp (by exact hpmem)
    refine one_preserved_mergeFold _ _ _ _ t _ _ _ ?_
    rw [mergeInfluence_eq, if_pos ?_]
    · refine mergeSetFold_sets _ _ _ _ _ p ?_ hshape1 ?_ ?_ ?_
      · show p ∈ rectCellList (max r0 blk.1) (max c0 blk.2.1) (min r1 blk.2.2.1)
          (min c1 blk.2.2.2)
        exact hpmem
      · show ¬(p.1 < r0 ∨ p.1 > r1 ∨ p.2 < c0 ∨ p.2 > c1)
        omega
      · show p.1 - r0 < r1 - r0 + 1
        omega
      · show p.2 - c0 < c1 - c0 + 1
        omega
    · refine List.any_eq_true.mpr ⟨p0, ?_, ?_⟩
      · show p0 ∈ rectCellList (max r0 blk.1) (max c0 blk.2.1) (min r1 blk.2.2.1)
          (min c1 blk.2.2.2)
        exact hp0mem
      · have : ¬(p0.1 < r0 ∨ p0.1 > r1 ∨ p0.2 < c0 ∨ p0.2 > c1) := by omega
        simp [this, hp0]

/-- Witness for `C7_merge_influence` on a 2×2 area with one merged block. -/
theorem C7_witness :
    getCell (build_nonempty_grid
      (⟨fun r c => !decide (r = 1 ∧ c = 1), fun _ _ => "", fun _ _ => true,
        fun _ _ => false, fun _ _ => none, [(1, 1, 2, 2)], ∅, ∅⟩ : Ws)
      (1, 1, 2, 2) "ignore").1 (2 - 1) (2 - 1) = 1 ∧
    build_nonempty_grid
      ({ (⟨fun r c => !decide (r = 1 ∧ c = 1), fun _ _ => "", fun _ _ => true,
          fun _ _ => false, fun _ _ => none, [(1, 1, 2, 2)], ∅, ∅⟩ : Ws) with
        mergedRanges := [] ++ (3, 1, 3, 1) :: [] }) (1, 1, 2, 2) "ignore" =
    build_nonempty_grid
      ({ (⟨fun r c => !decide (r = 1 ∧ c = 1), fun _ _ => "", fun _ _ => true,
          fun _ _ => false, fun _ _ => none, [(1, 1, 2, 2)], ∅, ∅⟩ : Ws) with
        mergedRanges := [] ++ [] }) (1, 1, 2, 2) "ignore" := by
  constructor
  · exact C7_merge_influence.2 _ (1, 1, 2, 2) "ignore" (1, 1, 2, 2)
      (by decide) (by decide) (by decide)
      ⟨(1, 1), by decide, by decide⟩ (2, 2) (by decide)
  · exact C7_merge_influence.1 _ (1, 1, 2, 2) "ignore" [] [] (3, 1, 3, 1) (by decide)

/-! ### Component bound lemmas (for C8) -/

theorem foldl_min_le_acc : ∀ (ys : List Nat) (acc : Nat), ys.foldl min acc ≤ acc := by
  intro ys
  induction ys with
  | nil => intro acc; exact Nat.le_refl acc
  | cons y ys ih =>
    intro acc
    exact Nat.le_trans (ih (min acc y)) (Nat.min_le_left acc y)

theorem foldl_min_le_mem : ∀ (ys : List Nat) (acc x : Nat), x ∈ ys → ys.foldl min acc ≤ x := by
  intro ys
  induction ys with
  | nil => intro acc x hx; exact absurd hx (List.not_mem_nil x)
  | cons y ys ih =>
    intro acc x hx
    rcases List.mem_cons.mp hx with heq | hmem
    · subst heq
      exact Nat.le_trans (foldl_min_le_acc ys (min acc x)) (Nat.min_le_right acc x)
    · exact ih (min acc y) x hmem

theorem listMin_le {l : List Nat} {x : Nat} (h : x ∈ l) : listMin l ≤ x := by
  match l, h with
  | y :: ys, h =>
    rcases List.mem_cons.mp h with heq | hmem
    · subst heq; exact foldl_min_le_acc ys x
    · exact foldl_min_le_mem ys y x hmem

theorem acc_le_foldl_max : ∀ (ys : List Nat) (acc : Nat), acc ≤ ys.foldl max acc := by
  intro ys
  induction ys with
  | nil => intro acc; exact Nat.le_refl acc
  | cons y ys ih =>
    intro acc
    exact Nat.le_trans (Nat.le_max_left acc y) (ih (max acc y))

theorem mem_le_foldl_max : ∀ (ys : List Nat) (acc x : Nat), x ∈ ys → x ≤ ys.foldl max acc := by
  intro ys
  induction ys with
  | nil => intro acc x hx; exact absurd hx (List.not_mem_nil x)
  | cons y ys ih =>
    intro acc x hx
    rcases List.mem_cons.mp hx with heq | hmem
    · subst heq
      exact Nat.le_trans (Nat.le_max_right acc x) (acc_le_foldl_max ys (max acc x))
    · exact ih (max acc y) x hmem

theorem le_listMax {l : List Nat} {x : Nat} (h : x ∈ l) : x ≤ listMax l := by
  match l, h with
  | y :: ys, h =>
    rcases List.mem_cons.mp h with heq | hmem
    · subst heq; exact acc_le_foldl_max ys x
    · exact mem_le_foldl_max ys y x hmem

theorem tableOfComp_mask (grid : Grid) (r0 c0 r1 c1 : Nat) (comp : List (Nat × Nat)) :
    (tableOfComp grid r0 c0 r1 c1 comp).mask = comp.filterMap fun p =>
      if r0 ≤ r0 + p.1 ∧ r0 + p.1 ≤ r1 ∧ c0 ≤ c0 + p.2 ∧ c0 + p.2 ≤ c1 then
        some (r0 + p.1, c0 + p.2)
      else none := rfl

theorem tableOfComp_bbox (grid : Grid) (r0 c0 r1 c1 : Nat) (comp : List (Nat × Nat)) :
    (tableOfComp grid r0 c0 r1 c1 comp).bbox =
      (max (r0 + listMin (comp.map Prod.fst)) r0, max (c0 + listMin (comp.map Prod.snd)) c0,
       min (r0 + listMax (comp.map Prod.fst)) r1, min (c0 + listMax (comp.map Prod.snd)) c1) :=
  rfl

/-- C8: every cell of a table's `mask` lies inside its `bbox`, and the mask
stays inside the originating (unioned) area. -/
theorem C8_mask_in_bbox_and_area (ws : Ws) (area : Rect) (hpol : String) :
    ∀ t ∈ grid_to_tables ws area hpol, ∀ p ∈ t.mask,
      inRect t.bbox p.1 p.2 ∧ inRect area p.1 p.2 := by
  obtain ⟨r0, c0, r1, c1⟩ := area
  intro t ht p hp
  have ht2 : t ∈ (componentsOf (build_nonempty_grid ws (r0, c0, r1, c1) hpol).1
      (build_nonempty_grid ws (r0, c0, r1, c1) hpol).1.length
      ((build_nonempty_grid ws (r0, c0, r1, c1) hpol).1.headD []).length
      (emptyRowsOf ws (build_merged_lookup ws (some (r0, c0, r1, c1))) r0 c0
        (build_nonempty_grid ws (r0, c0, r1, c1) hpol).1.length
        ((build_nonempty_grid ws (r0, c0, r1, c1) hpol).1.headD []).length)
      (emptyColsOf ws (build_merged_lookup ws (some (r0, c0, r1, c1))) r0 c0
        (build_nonempty_grid ws (r0, c0, r1, c1) hpol).1.length
        ((build_nonempty_grid ws (r0, c0, r1, c1) hpol).1.headD []).length)).map
        (tableOfComp (build_nonempty_grid ws (r0, c0, r1, c1) hpol).1 r0 c0 r1 c1) :=
    (List.Perm.mem_iff (pySort_perm _ _)).mp ht
  obtain ⟨comp, hcomp, hteq⟩ := List.mem_map.mp ht2
  subst hteq
  rw [tableOfComp_mask] at hp
  obtain ⟨q, hq, hfq⟩ := List.mem_filterMap.mp hp
  by_cases hcond : r0 ≤ r0 + q.1 ∧ r0 + q.1 ≤ r1 ∧ c0 ≤ c0 + q.2 ∧ c0 + q.2 ≤ c1
  · rw [if_pos hcond] at hfq
    obtain hfq := Option.some.inj hfq
    subst hfq
    have hminr := listMin_le (List.mem_map_of_mem Prod.fst hq)
    have hmaxr := le_listMax (List.mem_map_of_mem Prod.fst hq)
    have hminc := listMin_le (List.mem_map_of_mem Prod.snd hq)
    have hmaxc := le_listMax (List.mem_map_of_mem Prod.snd hq)
    constructor
    · rw [tableOfComp_bbox]
      refine ⟨?_, ?_, ?_, ?_⟩ <;> simp only [inRect] <;> omega
    · exact ⟨hcond.1, hcond.2.1, hcond.2.2.1, hcond.2.2.2⟩
  · rw [if_neg hcond] at hfq
    exact absurd hfq (Option.noConfusion)

/-- Witness for `C8_mask_in_bbox_and_area` on a one-cell sheet. -/
theorem C8_witness :
    inRect (PyTable.mk [(1, 1, 1, 1)] (1, 1, 1, 1) [(1, 1)]).bbox 1 1 ∧
    inRect (1, 1, 1, 1) 1 1 :=
  C8_mask_in_bbox_and_area
    (⟨fun r c => !decide (r = 1 ∧ c = 1), fun _ _ => "", fun _ _ => true,
      fun _ _ => false, fun _ _ => none, [], ∅, ∅⟩ : Ws)
    (1, 1, 1, 1) "ignore" ⟨[(1, 1, 1, 1)], (1, 1, 1, 1), [(1, 1)]⟩
    (by decide) (1, 1) (by decide)

/-- C10: refuted — on the processed-cell-cap path (`table_extraction.py`
line 205, `return md_rows, note_refs, True`) `extract_table` returns a
3-tuple, not the claimed 4-tuple: with `max_cells_per_table = 1` and a 1×2
table whose two cells hold data, the second cell trips the cap and the
result is `ExtractResult.triple` — there is no fourth (title) component on
this path at all. -/
theorem C10_truncation_returns_triple :
    extract_table
      (⟨id, id, fun _ => false, fun _ => false, id, id⟩ : Ctx)
      (⟨fun r c => !decide ((r, c) = ((1 : Nat), (1 : Nat)) ∨ (r, c) = (1, 2)),
        fun r c => if (r, c) = ((1 : Nat), (1 : Nat)) then "x"
          else if (r, c) = (1, 2) then "y" else "",
        fun _ _ => true, fun _ _ => false, fun _ _ => none, [], ∅, ∅⟩ : Ws)
      ⟨[(1, 1, 1, 2)], (1, 1, 1, 2), [(1, 1), (1, 2)]⟩
      ({ maxCellsPerTable := 1, hyperlinkMode := "inline" } : Opts) 1
      (fun _ => none) none =
    ExtractResult.triple [] [] true := by decide

/-- C6: refuted — the heuristic branch of `is_flow_table` is unreachable as
described: `mermaid_generator.py` line 422 references `is_code_block`
without ever importing it, so for every non-degenerate `md_rows` the branch
raises `NameError` before any of the claimed threshold tests
(`mermaid_heuristic_min_rows` / `arrow_ratio` / `len_median_ratio`) can
run. -/
theorem C6_heuristic_raises_nameError (ctx : Ctx) (md_rows : List (List String))
    (opts : Opts) (hmode : opts.detectMode = some "heuristic")
    (h1 : md_rows ≠ []) (h2 : md_rows.headD [] ≠ []) :
    is_flow_table ctx md_rows opts = .error PyErr.nameError := by
  have h2' : ¬ md_rows.head?.getD [] = [] := by
    simpa [List.headD_eq_head?_getD] using h2
  simp [is_flow_table, hmode, h1, h2']

/-- Witness for `C6_heuristic_raises_nameError` at a concrete flow table. -/
theorem C6_witness :
    is_flow_table (⟨id, id, fun _ => false, fun _ => false, id, id⟩ : Ctx)
      [["From", "To"], ["a", "b"]]
      ({ maxCellsPerTable := 0, hyperlinkMode := "inline",
         detectMode := some "heuristic" } : Opts) =
    .error PyErr.nameError :=
  C6_heuristic_raises_nameError
    (⟨id, id, fun _ => false, fun _ => false, id, id⟩ : Ctx)
    [["From", "To"], ["a", "b"]]
    ({ maxCellsPerTable := 0, hyperlinkMode := "inline",
       detectMode := some "heuristic" } : Opts)
    (by decide) (by decide) (by decide)

/-- C5: refuted — an exception from code detection is *not* confined to the
dispatch boundary: `dispatch_table_output`'s own call to
`build_code_block_from_rows` sits in a `try/except` (and, as claimed, the
fallback skips diagram detection), but classification then enters
`format_table_as_text_or_nested`, whose re-detection call
(`table_formatting.py` line 269) is unguarded, so the same detector raises
again and the exception propagates to `dispatch_table_output`'s caller:
with a detector that always raises, dispatch returns `.error` instead of a
classification. -/
theorem C5_detector_exception_propagates :
    dispatch_table_output (⟨id, id, fun _ => false, fun _ => false, id, id⟩ : Ctx)
      (fun _ => .error PyErr.userError)
      (⟨fun r c => !decide ((r, c) = ((1 : Nat), (1 : Nat)) ∨ (r, c) = (1, 2)),
        fun r c => if (r, c) = ((1 : Nat), (1 : Nat)) then "x"
          else if (r, c) = (1, 2) then "y" else "",
        fun _ _ => true, fun _ _ => false, fun _ _ => none, [], ∅, ∅⟩ : Ws)
      ⟨[(1, 1, 1, 2)], (1, 1, 1, 2), [(1, 1), (1, 2)]⟩
      [["x", "y"]]
      ({ maxCellsPerTable := 0, hyperlinkMode := "inline" } : Opts)
      (fun _ => none) =
    .error PyErr.userError := by rfl

theorem is_flow_table_nil (ctx : Ctx) (opts : Opts) :
    is_flow_table ctx [] opts = .ok (false, none) := by
  simp [is_flow_table]

theorem dispatchMermaid_nil (ctx : Ctx) (opts : Opts) (cf sf : Bool) :
    dispatchMermaid ctx [] opts cf sf = none := by
  simp [dispatchMermaid, is_flow_table_nil]

theorem mermaid_some_tag {ctx : Ctx} {md_rows : List (List String)} {opts : Opts}
    {cf sf : Bool} {res : String × Option String}
    (h : dispatchMermaid ctx md_rows opts cf sf = some res) : res.1 = "mermaid" := by
  unfold dispatchMermaid at h
  repeat' split at h
  all_goals (try simp_all)
  all_goals (obtain ⟨-, h2⟩ := h; exact (congrArg Prod.fst h2).symm)

theorem format_six (ctx : Ctx) (ws : Ws) (tbl : PyTable) (md_rows : List (List String))
    (opts : Opts) (ml : Nat × Nat → Option (Nat × Nat)) :
    ∃ tag pl,
      format_table_as_text_or_nested ctx (pureCodeDetect ctx) ws tbl md_rows opts ml =
        .ok (tag, pl) ∧
      tag ∈ (["empty", "text", "code", "nested", "table"] : List String) ∧
      (md_rows = [] → tag = "empty") ∧
      (tag = "empty" → md_rows = [] ∨ fmtUsedCols ctx ws tbl opts ml = []) := by
  by_cases h0 : md_rows = []
  · refine ⟨"empty", some "", ?_, by decide, fun _ => rfl, fun _ => .inl h0⟩
    simp [format_table_as_text_or_nested, h0]
  · by_cases h1 : fmtUsedCols ctx ws tbl opts ml = []
    · refine ⟨"empty", some "", ?_, by decide, fun h => absurd h h0, fun _ => .inr h1⟩
      simp [format_table_as_text_or_nested, h0, h1]
    · unfold format_table_as_text_or_nested
      rw [if_neg h0]
      dsimp only
      rw [if_neg h1]
      split
      · exact ⟨"text", _, rfl, by decide, fun h => absurd h h0, fun h => absurd h (by decide)⟩
      · dsimp only [pureCodeDetect]
        split
        · exact ⟨"code", _, rfl, by decide, fun h => absurd h h0, fun h => absurd h (by decide)⟩
        · split
          · exact ⟨"nested", _, rfl, by decide, fun h => absurd h h0,
              fun h => absurd h (by decide)⟩
          · exact ⟨"table", none, rfl, by decide, fun h => absurd h h0,
              fun h => absurd h (by decide)⟩

/-- C3 (amended): with the literal (never-raising) code detector, the
classifier `dispatch_table_output` ∘ `format_table_as_text_or_nested`
always succeeds with exactly one of the six tags
`code / mermaid / text / nested / table / empty` ("diagram" is the spec's
name for the `mermaid` tag); an empty row-set always classifies as
`empty`; and `empty` arises *only* from an empty row-set or from a row-set
whose used columns hold no data.  The claim's converse — used columns with
no data always yield `empty` — is refuted by `C3_counterexample`: the code
and diagram steps run *before* the emptiness check, so a code- or
flow-looking row-set is classified as `code`/`mermaid` even when the
worksheet's used columns are empty. -/
theorem C3_classification (ctx : Ctx) (ws : Ws) (tbl : PyTable)
    (md_rows : List (List String)) (opts : Opts) (ml : Nat × Nat → Option (Nat × Nat)) :
    ∃ tag pl,
      dispatch_table_output ctx (pureCodeDetect ctx) ws tbl md_rows opts ml = .ok (tag, pl) ∧
      tag ∈ (["code", "mermaid", "text", "nested", "table", "empty"] : List String) ∧
      (md_rows = [] → tag = "empty") ∧
      (tag = "empty" → md_rows = [] ∨ fmtUsedCols ctx ws tbl opts ml = []) := by
  unfold dispatch_table_output
  dsimp only [pureCodeDetect]
  by_cases hcb : (build_code_block_from_rows ctx md_rows).getD "" ≠ ""
  · refine ⟨"code", build_code_block_from_rows ctx md_rows, ?_, by decide, ?_,
      fun h => absurd h (by decide)⟩
    · rw [if_pos hcb]
    · intro h0
      subst h0
      exact absurd rfl hcb
  · rw [if_neg hcb]
    cases hm : dispatchMermaid ctx md_rows opts false (opts.skipFallback.getD true) with
    | some res =>
      obtain ⟨a, b⟩ := res
      have ha : a = "mermaid" := mermaid_some_tag hm
      subst ha
      refine ⟨"mermaid", b, rfl, by decide, ?_, fun h => absurd h (by decide)⟩
      intro h0
      subst h0
      rw [dispatchMermaid_nil] at hm
      exact absurd hm (by simp)
    | none =>
      obtain ⟨tag, pl, hfo, htag5, hemp1, hemp2⟩ := format_six ctx ws tbl md_rows opts ml
      unfold dispatchTail
      dsimp only [pureCodeDetect]
      rw [hfo]
      by_cases ht : tag = "table"
      · refine ⟨"table",
          some (make_markdown_table ctx md_rows (opts.headerDetection.getD true)
            (opts.alignDetection.getD true) (opts.numbersRightThreshold.getD ((4 : ℚ) / 5))),
          ?_, by decide, ?_, fun h => absurd h (by decide)⟩
        · dsimp only
          rw [if_pos ht]
        · intro h0
          exact absurd (hemp1 h0) (ht ▸ fun h => by simp at h)
      · have htne : tag = "text" ∨ tag = "nested" ∨ tag = "code" ∨ tag = "empty" := by
          simp only [List.mem_cons, List.not_mem_nil, or_false] at htag5
          rcases htag5 with h | h | h | h | h
          · exact .inr (.inr (.inr h))
          · exact .inl h
          · exact .inr (.inr (.inl h))
          · exact .inr (.inl h)
          · exact absurd h ht
        refine ⟨tag, pl, ?_, ?_, hemp1, hemp2⟩
        · dsimp only
          rw [if_neg ht, if_pos htne]
        · simp only [List.mem_cons, List.not_mem_nil, or_false] at htag5 ⊢
          rcases htag5 with h | h | h | h | h
          · exact .inr (.inr (.inr (.inr (.inr h))))
          · exact .inr (.inr (.inl h))
          · exact .inl h
          · exact .inr (.inr (.inr (.inl h)))
          · exact .inr (.inr (.inr (.inr (.inl h))))

/-- C3 counterexample (the claim's "used columns contain no data → empty"):
on an all-empty worksheet (so the used-column scan finds no data) a flow
shaped row-set is classified `mermaid`, not `empty`, because the diagram
step precedes the emptiness check. -/
theorem C3_counterexample :
    fmtUsedCols (⟨id, id, fun _ => false, Char.isAlphanum, id, pyLower⟩ : Ctx)
      (⟨fun _ _ => true, fun _ _ => "", fun _ _ => true, fun _ _ => false,
        fun _ _ => none, [], ∅, ∅⟩ : Ws)
      ⟨[], (1, 1, 1, 2), [(1, 1), (1, 2)]⟩
      ({ maxCellsPerTable := 0, hyperlinkMode := "inline", mermaidEnabled := some true,
         detectMode := some "column_headers" } : Opts) (fun _ => none) = [] ∧
    Except.map Prod.fst
      (dispatch_table_output (⟨id, id, fun _ => false, Char.isAlphanum, id, pyLower⟩ : Ctx)
        (pureCodeDetect (⟨id, id, fun _ => false, Char.isAlphanum, id, pyLower⟩ : Ctx))
        (⟨fun _ _ => true, fun _ _ => "", fun _ _ => true, fun _ _ => false,
          fun _ _ => none, [], ∅, ∅⟩ : Ws)
        ⟨[], (1, 1, 1, 2), [(1, 1), (1, 2)]⟩
        [["From", "To"], ["a", "b"]]
        ({ maxCellsPerTable := 0, hyperlinkMode := "inline", mermaidEnabled := some true,
           detectMode := some "column_headers" } : Opts)
        (fun _ => none)) = .ok "mermaid" := ⟨rfl, rfl⟩

theorem natRep_ne_nil (n : Nat) : natRep n ≠ [] := by
  rw [natRep]
  split <;> simp

theorem digitVal_digitChar {d : Nat} (h : d < 10) : digitVal (Nat.digitChar d) = d := by
  interval_cases d <;> rfl

theorem numOfRep_append (l : List Char) (c : Char) :
    numOfRep (l ++ [c]) = numOfRep l * 10 + digitVal c := by
  simp [numOfRep, List.foldl_append]

theorem numOfRep_natRep (n : Nat) : numOfRep (natRep n) = n := by
  induction n using Nat.strong_induction_on with
  | _ n ih =>
    rw [natRep]
    split
    · next h =>
      have hn : n % 10 = n := by omega
      have h10 : n < 10 := by omega
      have hs : numOfRep [Nat.digitChar (n % 10)] = digitVal (Nat.digitChar (n % 10)) := by
        simp [numOfRep]
      rw [hs, hn, digitVal_digitChar h10]
    · next h =>
      rw [numOfRep_append, ih (n / 10) (Nat.div_lt_self (by omega) (by omega)),
        digitVal_digitChar (Nat.mod_lt n (by omega) : n % 10 < 10)]
      omega

theorem natRep_injective {a b : Nat} (h : natRep a = natRep b) : a = b := by
  have := congrArg numOfRep h
  rwa [numOfRep_natRep, numOfRep_natRep] at this

theorem toDigitsCore_eq_natRep :
    ∀ (fuel n : Nat) (ds : List Char), n < fuel →
      Nat.toDigitsCore 10 fuel n ds = natRep n ++ ds := by
  intro fuel
  induction fuel with
  | zero => intro n ds h; omega
  | succ f ih =>
    intro n ds h
    rw [Nat.toDigitsCore]
    by_cases h0 : n / 10 = 0
    · rw [if_pos h0, natRep, dif_pos h0]
      rfl
    · rw [if_neg h0, ih (n / 10) _ (by omega)]
      conv_rhs => rw [natRep]
      rw [dif_neg h0]
      simp

theorem toString_nat_eq (n : Nat) : toString n = String.mk (natRep n) := by
  show Nat.repr n = String.mk (natRep n)
  rw [Nat.repr, Nat.toDigits, toDigitsCore_eq_natRep (n + 1) n [] (Nat.lt_succ_self n)]
  simp [List.asString]

theorem toString_nat_injective {a b : Nat} (h : toString a = toString b) : a = b := by
  rw [toString_nat_eq, toString_nat_eq] at h
  exact natRep_injective (congrArg String.data h)

theorem natRep_digits (n : Nat) : ∀ c ∈ natRep n, c.isDigit = true := by
  induction n using Nat.strong_induction_on with
  | _ n ih =>
    intro c hc
    rw [natRep] at hc
    have hd : ∀ m : Nat, m < 10 → (Nat.digitChar m).isDigit = true := by decide
    split at hc
    · rcases List.mem_singleton.mp hc with rfl
      exact hd _ (Nat.mod_lt n (by omega))
    · rcases List.mem_append.mp hc with h1 | h1
      · next h0 => exact ih (n / 10) (Nat.div_lt_self (by omega) (by omega)) c h1
      · rcases List.mem_singleton.mp h1 with rfl
        exact hd _ (Nat.mod_lt n (by omega))

theorem strAppend_cancel_left {s a b : String} (h : s ++ a = s ++ b) : a = b := by
  have hd := congrArg String.data h
  rw [String.data_append, String.data_append] at hd
  exact String.ext (List.append_cancel_left hd)

theorem freshIdAux_shape (base : String) (vals : List String) :
    ∀ fuel i, ∃ j : Nat, freshIdAux base vals fuel i = base ++ "_" ++ toString j := by
  intro fuel
  induction fuel with
  | zero => intro i; exact ⟨i, rfl⟩
  | succ f ih =>
    intro i
    unfold freshIdAux
    by_cases h : (base ++ "_" ++ toString i) ∈ vals
    · simpa [h] using ih (i + 1)
    · exact ⟨i, by simp [h]⟩

theorem freshIdAux_not_mem (base : String) (vals : List String) :
    ∀ fuel i,
      ((Finset.Icc i (i + fuel)).filter
        fun j => (base ++ "_" ++ toString j) ∈ vals).card ≤ fuel →
      freshIdAux base vals fuel i ∉ vals := by
  intro fuel
  induction fuel with
  | zero =>
    intro i hcard hmem
    have hmem2 : base ++ "_" ++ toString i ∈ vals := hmem
    have hin : i ∈ (Finset.Icc i (i + 0)).filter
        (fun j => (base ++ "_" ++ toString j) ∈ vals) := by
      simp [hmem2]
    have := Finset.card_pos.mpr ⟨i, hin⟩
    omega
  | succ f ih =>
    intro i hcard
    unfold freshIdAux
    by_cases h : (base ++ "_" ++ toString i) ∈ vals
    · simp only [h, if_true]
      apply ih (i + 1)
      have hiA : i ∈ (Finset.Icc i (i + (f + 1))).filter
          (fun j => (base ++ "_" ++ toString j) ∈ vals) := by
        simp [h]
      have hsub : ((Finset.Icc (i + 1) (i + 1 + f)).filter
            (fun j => (base ++ "_" ++ toString j) ∈ vals)) ⊆
          (((Finset.Icc i (i + (f + 1))).filter
            (fun j => (base ++ "_" ++ toString j) ∈ vals)).erase i) := by
        intro x hx
        simp only [Finset.mem_filter, Finset.mem_Icc] at hx
        simp only [Finset.mem_erase, Finset.mem_filter, Finset.mem_Icc]
        exact ⟨by omega, ⟨by omega, hx.2⟩⟩
      have hle := Finset.card_le_card hsub
      rw [Finset.card_erase_of_mem hiA] at hle
      omega
    · simp [h]

theorem cand_filter_card_le (base : String) (vals : List String) (S : Finset Nat) :
    (S.filter fun j => (base ++ "_" ++ toString j) ∈ vals).card ≤ vals.length :=
  le_trans
    (Finset.card_le_card_of_injOn (fun j => base ++ "_" ++ toString j)
      (fun j hj => by
        simp only [Finset.mem_filter] at hj
        exact List.mem_toFinset.mpr hj.2)
      (fun a _ b _ hab => toString_nat_injective (strAppend_cancel_left hab)))
    vals.toFinset_card_le

theorem nodeIdFresh_not_mem (vals : List String) (nid : String) :
    nodeIdFresh vals nid ∉ vals := by
  unfold nodeIdFresh
  by_cases h : nid ∈ vals
  · simp only [h, if_true]
    exact freshIdAux_not_mem nid vals (vals.length + 1) 2
      (le_trans (cand_filter_card_le nid vals _) (by omega))
  · simp [h]

theorem nodeIdFresh_shape (vals : List String) (nid : String) :
    nodeIdFresh vals nid = nid ∨
      ∃ j : Nat, nodeIdFresh vals nid = nid ++ "_" ++ toString j := by
  by_cases h : nid ∈ vals
  · right
    simpa [nodeIdFresh, h] using freshIdAux_shape nid vals (vals.length + 1) 2
  · left
    simp [nodeIdFresh, h]

theorem collapseAux_subset (l : List Char) :
    ∀ (prev : Option Char), ∀ c ∈ collapseAux prev l, c ∈ l := by
  induction l with
  | nil => simp [collapseAux]
  | cons ch rest ih =>
    intro prev c hc
    rw [collapseAux] at hc
    split at hc
    · exact List.mem_cons_of_mem _ (ih _ c hc)
    · rcases List.mem_cons.mp hc with rfl | h
      · exact List.mem_cons_self _ _
      · exact List.mem_cons_of_mem _ (ih _ c h)

theorem collapseAux_none_cons (c : Char) (l : List Char) :
    collapseAux none (c :: l) = c :: collapseAux (some c) l := by
  simp [collapseAux]

theorem sanitizeChar_ident (c : Char) : isIdentChar (sanitizeChar c) := by
  unfold sanitizeChar
  split
  · next h => exact h
  · right; right; right; rfl

theorem mk_ne_empty {l : List Char} (h : l ≠ []) : String.mk l ≠ "" :=
  fun he => h (congrArg String.data he)

theorem good_of_collapse (l : List Char) (hne : l ≠ []) (hid : ∀ c ∈ l, isIdentChar c)
    (hd : ¬(l.headD '_').isDigit = true) :
    goodNodeId (String.mk (collapseAux none l)) := by
  obtain ⟨c, rest, rfl⟩ := List.exists_cons_of_ne_nil hne
  rw [collapseAux_none_cons]
  refine ⟨mk_ne_empty (by simp), ?_, ?_⟩
  · intro x hx
    rcases List.mem_cons.mp hx with rfl | h
    · exact hid x (List.mem_cons_self _ _)
    · exact hid x (List.mem_cons_of_mem c (collapseAux_subset rest (some c) x h))
  · simpa using hd

theorem mapped_ident (cs : List Char) : ∀ c ∈ cs.map sanitizeChar, isIdentChar c := by
  intro c hc
  obtain ⟨a, -, rfl⟩ := List.mem_map.mp hc
  exact sanitizeChar_ident a

theorem sanitize_good (ctx : Ctx) (name : String) :
    goodNodeId (_v14_sanitize_node_id ctx name) := by
  unfold _v14_sanitize_node_id
  dsimp only
  by_cases h0 : String.mk ((ctx.nfkc name).toList.map sanitizeChar) = ""
  · rw [if_pos h0]
    decide
  · rw [if_neg h0]
    have hcs : (ctx.nfkc name).toList.map sanitizeChar ≠ [] := fun hh => h0 (by rw [hh])
    by_cases hdig :
        (((String.mk ((ctx.nfkc name).toList.map sanitizeChar)).toList.headD '_').isDigit) = true
    · rw [if_pos hdig]
      apply good_of_collapse
      · show '_' :: (ctx.nfkc name).toList.map sanitizeChar ≠ []
        simp
      · show ∀ c ∈ '_' :: (ctx.nfkc name).toList.map sanitizeChar, isIdentChar c
        intro c hc
        rcases List.mem_cons.mp hc with rfl | h
        · right; right; right; rfl
        · exact mapped_ident _ c h
      · show ¬((('_' :: (ctx.nfkc name).toList.map sanitizeChar).headD '_').isDigit = true)
        rw [List.headD_cons]
        decide
    · rw [if_neg hdig]
      exact good_of_collapse _ hcs (mapped_ident _) hdig

theorem good_append_suffix {s : String} (hs : goodNodeId s) (j : Nat) :
    goodNodeId (s ++ "_" ++ toString j) := by
  obtain ⟨hne, hid, hd⟩ := hs
  have hdata : (s ++ "_" ++ toString j).data = s.data ++ '_' :: natRep j := by
    rw [String.data_append, String.data_append, toString_nat_eq, List.append_assoc]
    rfl
  have hsne : s.data ≠ [] := fun h => hne (String.ext h)
  obtain ⟨c, rest, hcr⟩ := List.exists_cons_of_ne_nil hsne
  refine ⟨?_, ?_, ?_⟩
  · intro he
    have := congrArg String.data he
    rw [hdata, hcr] at this
    exact List.noConfusion this
  · intro x hx
    have hx' : x ∈ s.data ++ '_' :: natRep j := hdata ▸ hx
    rcases List.mem_append.mp hx' with h | h
    · exact hid x h
    · rcases List.mem_cons.mp h with rfl | h
      · right; right; right; rfl
      · have hdig := natRep_digits j x h
        have : '0' ≤ x ∧ x ≤ '9' := by
          simp only [Char.isDigit, Bool.and_eq_true, decide_eq_true_eq] at hdig
          exact ⟨hdig.1, hdig.2⟩
        exact .inr (.inr (.inl this))
  · show ¬((s ++ "_" ++ toString j).toList.headD '_').isDigit = true
    have : (s ++ "_" ++ toString j).toList = c :: (rest ++ '_' :: natRep j) := by
      show (s ++ "_" ++ toString j).data = _
      rw [hdata, hcr]
      rfl
    rw [this, List.headD_cons]
    have : s.toList.headD '_' = c := by
      show s.data.headD '_' = c
      rw [hcr, List.headD_cons]
    rwa [this] at hd

theorem good_nodeIdFresh {vals : List String} {nid : String} (h : goodNodeId nid) :
    goodNodeId (nodeIdFresh vals nid) := by
  rcases nodeIdFresh_shape vals nid with he | ⟨j, he⟩
  · rw [he]; exact h
  · rw [he]; exact good_append_suffix h j

theorem assocGet_some_mem {l : List (String × String)} {k v : String}
    (h : assocGet l k = some v) : (k, v) ∈ l := by
  unfold assocGet at h
  obtain ⟨p, hp, hpe⟩ := Option.map_eq_some'.mp h
  have hmem := List.mem_of_find?_eq_some hp
  have hpred : p.1 = k := by simpa using List.find?_some hp
  obtain ⟨p1, p2⟩ := p
  dsimp at hpred hpe
  subst hpred
  subst hpe
  exact hmem

theorem assocGet_none_keys {l : List (String × String)} {k : String}
    (h : assocGet l k = none) : ∀ p ∈ l, p.1 ≠ k := by
  unfold assocGet at h
  have hf := Option.map_eq_none'.mp h
  intro p hp
  simpa using List.find?_eq_none.mp hf p hp

theorem get_unique {l : List (String × String)} (k v : String)
    (h1 : (l.map Prod.fst).Nodup) (hg : assocGet l k = some v) :
    ∀ p ∈ l, p.1 = k → p.2 = v := by
  induction l with
  | nil => simp
  | cons a rest ih =>
    have h1c : (a.1 :: rest.map Prod.fst).Nodup := by
      rw [List.map_cons] at h1
      exact h1
    have h1' := List.nodup_cons.mp h1c
    intro p hp hpk
    by_cases hak : a.1 = k
    · have hv : v = a.2 := by
        unfold assocGet at hg
        rw [List.find?_cons_of_pos _ (by simpa using hak)] at hg
        simpa using hg.symm
      rcases List.mem_cons.mp hp with rfl | hpr
      · exact hv.symm
      · exfalso
        apply h1'.1
        have hm : p.1 ∈ rest.map Prod.fst := List.mem_map_of_mem Prod.fst hpr
        rwa [hpk, ← hak] at hm
    · have hg' : assocGet rest k = some v := by
        unfold assocGet at hg ⊢
        rwa [List.find?_cons_of_neg _ (by simpa using hak)] at hg
      rcases List.mem_cons.mp hp with rfl | hpr
      · exact absurd hpk hak
      · exact ih h1'.2 hg' p hpr hpk

theorem assocSet_get_self {l : List (String × String)} {k v : String}
    (h1 : (l.map Prod.fst).Nodup) (hg : assocGet l k = some v) :
    assocSet l k v = l := by
  unfold assocSet
  rw [if_pos]
  · refine (List.map_congr_left ?_).trans (List.map_id l)
    intro p hp
    by_cases hpk : p.1 = k
    · rw [if_pos (show (p.1 == k) = true by simpa using hpk)]
      obtain ⟨p1, p2⟩ := p
      dsimp at hpk
      subst hpk
      have h2 := get_unique p1 v h1 hg (p1, p2) hp rfl
      dsimp at h2
      rw [h2]
      rfl
    · rw [if_neg (show ¬(p.1 == k) = true by simpa using hpk)]
      rfl
  · exact List.any_eq_true.mpr ⟨(k, v), assocGet_some_mem hg, by simp⟩

theorem assocSet_of_none {l : List (String × String)} {k : String} (v : String)
    (h : assocGet l k = none) : assocSet l k v = l ++ [(k, v)] := by
  unfold assocSet
  rw [if_neg]
  intro hany
  obtain ⟨p, hp, hpk⟩ := List.any_eq_true.mp hany
  exact assocGet_none_keys h p hp (by simpa using hpk)

theorem nodeUpdate_inv (ctx : Ctx) (nodes : List (String × String)) (k : String)
    (h1 : (nodes.map Prod.fst).Nodup) (h2 : (nodes.map Prod.snd).Nodup)
    (h3 : ∀ p ∈ nodes, goodNodeId p.2) :
    ((assocSet nodes k (nodeBindId ctx nodes k)).map Prod.fst).Nodup ∧
    ((assocSet nodes k (nodeBindId ctx nodes k)).map Prod.snd).Nodup ∧
    ∀ p ∈ assocSet nodes k (nodeBindId ctx nodes k), goodNodeId p.2 := by
  unfold nodeBindId
  cases hg : assocGet nodes k with
  | some v =>
    have hgv : goodNodeId v := h3 _ (assocGet_some_mem hg)
    dsimp only
    rw [if_pos hgv.1, assocSet_get_self h1 hg]
    exact ⟨h1, h2, h3⟩
  | none =>
    dsimp only
    rw [assocSet_of_none _ hg]
    have hfresh := nodeIdFresh_not_mem (nodes.map Prod.snd) (_v14_sanitize_node_id ctx k)
    have hgood := @good_nodeIdFresh (nodes.map Prod.snd) (_v14_sanitize_node_id ctx k) (sanitize_good ctx k)
    refine ⟨?_, ?_, ?_⟩
    · rw [List.map_append]
      rw [List.nodup_append]
      refine ⟨h1, List.nodup_singleton _, ?_⟩
      intro a ha hb
      simp only [List.map_cons, List.map_nil, List.mem_singleton] at hb
      subst hb
      obtain ⟨p, hp, hpk⟩ := List.mem_map.mp ha
      exact assocGet_none_keys hg p hp hpk
    · rw [List.map_append, List.nodup_append]
      refine ⟨h2, List.nodup_singleton _, ?_⟩
      intro a ha hb
      simp only [List.map_cons, List.map_nil, List.mem_singleton] at hb
      subst hb
      exact hfresh ha
    · intro p hp
      rcases List.mem_append.mp hp with h | h
      · exact h3 p h
      · rcases List.mem_singleton.mp h with rfl
        exact hgood

theorem merAccRow_nodes (ctx : Ctx) (opts : Opts) (cm : Colmap) (acc : MerAcc)
    (row : List String) :
    (merAccRow ctx opts cm acc row).nodes =
      if pyStrip (get_val row cm.cFrom) = "" ∨ pyStrip (get_val row cm.cTo) = "" then
        acc.nodes
      else
        assocSet
          (assocSet acc.nodes (get_val row cm.cFrom)
            (nodeBindId ctx acc.nodes (get_val row cm.cFrom)))
          (get_val row cm.cTo)
          (nodeBindId ctx
            (assocSet acc.nodes (get_val row cm.cFrom)
              (nodeBindId ctx acc.nodes (get_val row cm.cFrom)))
            (get_val row cm.cTo)) := by
  unfold merAccRow
  dsimp only
  split
  · rfl
  · split <;> rfl

theorem merAcc_invariant (ctx : Ctx) (opts : Opts) (cm : Colmap) :
    ∀ (rows : List (List String)) (acc : MerAcc),
      (acc.nodes.map Prod.fst).Nodup →
      (acc.nodes.map Prod.snd).Nodup →
      (∀ p ∈ acc.nodes, goodNodeId p.2) →
      ((rows.foldl (merAccRow ctx opts cm) acc).nodes.map Prod.fst).Nodup ∧
      ((rows.foldl (merAccRow ctx opts cm) acc).nodes.map Prod.snd).Nodup ∧
      ∀ p ∈ (rows.foldl (merAccRow ctx opts cm) acc).nodes, goodNodeId p.2 := by
  intro rows
  induction rows with
  | nil => exact fun acc h1 h2 h3 => ⟨h1, h2, h3⟩
  | cons row rest ih =>
    intro acc h1 h2 h3
    rw [List.foldl_cons]
    have hnodes := merAccRow_nodes ctx opts cm acc row
    by_cases hskip :
        pyStrip (get_val row cm.cFrom) = "" ∨ pyStrip (get_val row cm.cTo) = ""
    · rw [if_pos hskip] at hnodes
      exact ih _ (hnodes ▸ h1) (hnodes ▸ h2) (hnodes ▸ h3)
    · rw [if_neg hskip] at hnodes
      obtain ⟨g1, g2, g3⟩ := nodeUpdate_inv ctx acc.nodes (get_val row cm.cFrom) h1 h2 h3
      obtain ⟨k1, k2, k3⟩ := nodeUpdate_inv ctx
        (assocSet acc.nodes (get_val row cm.cFrom)
          (nodeBindId ctx acc.nodes (get_val row cm.cFrom)))
        (get_val row cm.cTo) g1 g2 g3
      exact ih _ (hnodes ▸ k1) (hnodes ▸ k2) (hnodes ▸ k3)

/-- C9: sanitization (`_v14_sanitize_node_id`) always yields a non-empty
identifier over `[A-Za-z0-9_]` that does not begin with a digit, and the
node-id map accumulated by `build_mermaid` over a table's rows both keeps
every id in that shape and — thanks to the numeric-suffix disambiguation of
`node_id` — assigns pairwise distinct ids to the table's nodes. -/
theorem C9_sanitized_ids (ctx : Ctx) (md_rows : List (List String)) (opts : Opts)
    (cm : Colmap) :
    (∀ name, goodNodeId (_v14_sanitize_node_id ctx name)) ∧
    (∀ p ∈ (merAccOf ctx md_rows opts cm).nodes, goodNodeId p.2) ∧
    ((merAccOf ctx md_rows opts cm).nodes.map Prod.snd).Nodup := by
  have hinv := merAcc_invariant ctx opts cm
    (if 1 < md_rows.length then md_rows.tail else []) ⟨[], [], []⟩
    (by simp) (by simp) (by simp)
  exact ⟨sanitize_good ctx, hinv.2.2, hinv.2.1⟩

theorem mem_insLe {α : Type} (le : α → α → Bool) (x a : α) (l : List α) :
    a ∈ insLe le x l ↔ a = x ∨ a ∈ l :=
  (List.Perm.mem_iff (insLe_perm le x l)).trans List.mem_cons

theorem insLe_pairwise {α : Type} (le : α → α → Bool)
    (htot : ∀ a b, le a b = true ∨ le b a = true)
    (htrans : ∀ a b c, le a b = true → le b c = true → le a c = true)
    (x : α) (l : List α) (h : l.Pairwise (le · · = true)) :
    (insLe le x l).Pairwise (le · · = true) := by
  induction l with
  | nil => simp [insLe]
  | cons y ys ih =>
    rw [List.pairwise_cons] at h
    by_cases hxy : le x y = true
    · rw [insLe, if_pos hxy]
      refine List.pairwise_cons.mpr ⟨?_, List.pairwise_cons.mpr h⟩
      intro b hb
      rcases List.mem_cons.mp hb with rfl | hb2
      · exact hxy
      · exact htrans x y b hxy (h.1 b hb2)
    · rw [insLe, if_neg hxy]
      have hyx : le y x = true := (htot x y).resolve_left hxy
      refine List.pairwise_cons.mpr ⟨?_, ih h.2⟩
      intro b hb
      rcases (mem_insLe le x b ys).mp hb with rfl | hb2
      · exact hyx
      · exact h.1 b hb2

theorem pySort_pairwise {α : Type} (le : α → α → Bool)
    (htot : ∀ a b, le a b = true ∨ le b a = true)
    (htrans : ∀ a b c, le a b = true → le b c = true → le a c = true)
    (l : List α) : (pySort le l).Pairwise (le · · = true) := by
  induction l with
  | nil => simp [pySort]
  | cons x xs ih => exact insLe_pairwise le htot htrans x (pySort le xs) ih

theorem ivLe_total : ∀ a b : Nat × Nat, ivLe a b = true ∨ ivLe b a = true := by
  intro a b
  simp only [ivLe, decide_eq_true_eq]
  omega

theorem ivLe_trans : ∀ a b c : Nat × Nat,
    ivLe a b = true → ivLe b c = true → ivLe a c = true := by
  intro a b c
  simp only [ivLe, decide_eq_true_eq]
  omega

theorem ivLe_antisymm {a b : Nat × Nat} (h1 : ivLe a b = true) (h2 : ivLe b a = true) :
    a = b := by
  simp only [ivLe, decide_eq_true_eq] at h1 h2
  obtain ⟨x, y⟩ := a
  obtain ⟨z, w⟩ := b
  simp only [Prod.mk.injEq]
  dsimp at h1 h2
  omega

theorem pySort_eq_of_perm (iv iv2 : List (Nat × Nat)) (h : iv.Perm iv2) :
    pySort ivLe iv = pySort ivLe iv2 := by
  have hs1 := pySort_pairwise ivLe ivLe_total ivLe_trans iv
  have hs2 := pySort_pairwise ivLe ivLe_total ivLe_trans iv2
  have hperm : (pySort ivLe iv).Perm (pySort ivLe iv2) :=
    (pySort_perm ivLe iv).trans (h.trans (pySort_perm ivLe iv2).symm)
  exact @List.eq_of_perm_of_sorted _ (ivLe · · = true)
    ⟨fun a b h1 h2 => ivLe_antisymm h1 h2⟩ _ _ hperm hs1 hs2

theorem merge_intervals_congr (iv iv2 : List (Nat × Nat)) (h : iv.Perm iv2) :
    merge_intervals iv = merge_intervals iv2 := by
  unfold merge_intervals
  rw [pySort_eq_of_perm iv iv2 h]

theorem inIvs_append (l1 l2 : List (Nat × Nat)) (c : Nat) :
    inIvs (l1 ++ l2) c ↔ inIvs l1 c ∨ inIvs l2 c := by
  unfold inIvs
  constructor
  · rintro ⟨p, hp, hin⟩
    rcases List.mem_append.mp hp with h | h
    · exact .inl ⟨p, h, hin⟩
    · exact .inr ⟨p, h, hin⟩
  · rintro (⟨p, hp, hin⟩ | ⟨p, hp, hin⟩)
    · exact ⟨p, List.mem_append.mpr (.inl hp), hin⟩
    · exact ⟨p, List.mem_append.mpr (.inr hp), hin⟩

theorem inIvs_cons (p : Nat × Nat) (l : List (Nat × Nat)) (c : Nat) :
    inIvs (p :: l) c ↔ inIv p c ∨ inIvs l c := by
  unfold inIvs
  constructor
  · rintro ⟨q, hq, hin⟩
    rcases List.mem_cons.mp hq with rfl | h
    · exact .inl hin
    · exact .inr ⟨q, h, hin⟩
  · rintro (h | ⟨q, hq, hin⟩)
    · exact ⟨p, List.mem_cons_self _ _, h⟩
    · exact ⟨q, List.mem_cons_of_mem _ hq, hin⟩

theorem mergeGo_cov (rest : List (Nat × Nat)) :
    ∀ (cur : Nat × Nat) (acc : List (Nat × Nat)),
      (∀ p ∈ rest, cur.1 ≤ p.1) →
      rest.Pairwise (fun a b => a.1 ≤ b.1) →
      ∀ c, inIvs (mergeGo cur acc rest) c ↔ inIvs acc c ∨ inIv cur c ∨ inIvs rest c := by
  induction rest with
  | nil =>
    intro cur acc _ _ c
    rw [mergeGo, inIvs_append, inIvs_cons]
  | cons se rest ih =>
    intro cur acc hcur hsort c
    obtain ⟨s, e⟩ := se
    rw [mergeGo]
    have hsort' := (List.pairwise_cons.mp hsort).2
    have hhead := (List.pairwise_cons.mp hsort).1
    have hs1 : cur.1 ≤ s := hcur (s, e) (List.mem_cons_self _ _)
    rw [inIvs_cons]
    by_cases hm : s ≤ cur.2
    · rw [if_pos hm]
      have hc1 : ∀ p ∈ rest, (cur.1, max cur.2 e).1 ≤ p.1 := by
        intro p hp
        exact hcur p (List.mem_cons_of_mem _ hp)
      rw [ih (cur.1, max cur.2 e) acc hc1 hsort' c]
      have hmid : inIv (cur.1, max cur.2 e) c ↔ inIv cur c ∨ inIv (s, e) c := by
        unfold inIv
        dsimp
        omega
      rw [hmid]
      tauto
    · rw [if_neg hm]
      have hc1 : ∀ p ∈ rest, (s, e).1 ≤ p.1 := fun p hp => hhead p hp
      rw [ih (s, e) (acc ++ [cur]) hc1 hsort' c, inIvs_append, inIvs_cons]
      have hnil : ¬ inIvs ([] : List (Nat × Nat)) c := by simp [inIvs]
      tauto

theorem mergeGo_pairwise (rest : List (Nat × Nat)) :
    ∀ (cur : Nat × Nat) (acc : List (Nat × Nat)),
      (∀ p ∈ rest, cur.1 ≤ p.1) →
      rest.Pairwise (fun a b => a.1 ≤ b.1) →
      acc.Pairwise (fun p q => p.2 < q.1) →
      (∀ p ∈ acc, p.2 < cur.1) →
      (mergeGo cur acc rest).Pairwise (fun p q => p.2 < q.1) := by
  induction rest with
  | nil =>
    intro cur acc _ _ j1 j2
    rw [mergeGo]
    rw [List.pairwise_append]
    refine ⟨j1, List.pairwise_singleton _ _, ?_⟩
    intro p hp q hq
    rcases List.mem_singleton.mp hq with rfl
    exact j2 p hp
  | cons se rest ih =>
    intro cur acc hcur hsort j1 j2
    obtain ⟨s, e⟩ := se
    rw [mergeGo]
    have hsort' := (List.pairwise_cons.mp hsort).2
    have hhead := (List.pairwise_cons.mp hsort).1
    have hs1 : cur.1 ≤ s := hcur (s, e) (List.mem_cons_self _ _)
    by_cases hm : s ≤ cur.2
    · rw [if_pos hm]
      refine ih (cur.1, max cur.2 e) acc
        (fun p hp => hcur p (List.mem_cons_of_mem _ hp)) hsort' j1 ?_
      intro p hp
      exact j2 p hp
    · rw [if_neg hm]
      refine ih (s, e) (acc ++ [cur])
        (fun p hp => hhead p hp) hsort' ?_ ?_
      · rw [List.pairwise_append]
        refine ⟨j1, List.pairwise_singleton _ _, ?_⟩
        intro p hp q hq
        rcases List.mem_singleton.mp hq with rfl
        exact j2 p hp
      · intro p hp
        rcases List.mem_append.mp hp with h | h
        · have := j2 p h
          dsimp
          omega
        · rcases List.mem_singleton.mp h with rfl
          dsimp
          omega

theorem ivLe_fst_le {a b : Nat × Nat} (h : ivLe a b = true) : a.1 ≤ b.1 := by
  simp only [ivLe, decide_eq_true_eq] at h
  omega

theorem inIvs_perm {l l2 : List (Nat × Nat)} (h : l.Perm l2) (c : Nat) :
    inIvs l c ↔ inIvs l2 c := by
  unfold inIvs
  constructor <;> rintro ⟨p, hp, hi⟩
  · exact ⟨p, h.mem_iff.mp hp, hi⟩
  · exact ⟨p, h.mem_iff.mpr hp, hi⟩

theorem merge_intervals_cov (iv : List (Nat × Nat)) (c : Nat) :
    inIvs (merge_intervals iv) c ↔ inIvs iv c := by
  unfold merge_intervals
  have hs := pySort_pairwise ivLe ivLe_total ivLe_trans iv
  have hperm := pySort_perm ivLe iv
  cases hsp : pySort ivLe iv with
  | nil =>
    rw [hsp] at hperm
    have hnil : iv = [] := hperm.symm.eq_nil
    subst hnil
    simp [inIvs]
  | cons x xs =>
    rw [hsp] at hs hperm
    have hcur : ∀ p ∈ xs, x.1 ≤ p.1 := fun p hp =>
      ivLe_fst_le ((List.pairwise_cons.mp hs).1 p hp)
    have hsrt : xs.Pairwise (fun a b => a.1 ≤ b.1) :=
      ((List.pairwise_cons.mp hs).2).imp fun h => ivLe_fst_le h
    rw [mergeGo_cov xs x [] hcur hsrt c]
    have h2 := (inIvs_cons x xs c).symm.trans (inIvs_perm hperm c)
    have h1 : ¬ inIvs ([] : List (Nat × Nat)) c := by simp [inIvs]
    tauto

theorem merge_intervals_pairwise (iv : List (Nat × Nat)) :
    (merge_intervals iv).Pairwise (fun p q => p.2 < q.1) := by
  unfold merge_intervals
  have hs := pySort_pairwise ivLe ivLe_total ivLe_trans iv
  cases hsp : pySort ivLe iv with
  | nil => exact List.Pairwise.nil
  | cons x xs =>
    rw [hsp] at hs
    have hcur : ∀ p ∈ xs, x.1 ≤ p.1 := fun p hp =>
      ivLe_fst_le ((List.pairwise_cons.mp hs).1 p hp)
    have hsrt : xs.Pairwise (fun a b => a.1 ≤ b.1) :=
      ((List.pairwise_cons.mp hs).2).imp fun h => ivLe_fst_le h
    exact mergeGo_pairwise xs x [] hcur hsrt List.Pairwise.nil (by simp)

theorem beq_prod_eq (a b : Nat × Nat) :
    (@BEq.beq _ instBEqProd a b) = (@BEq.beq _ instBEqOfDecidableEq a b) := by
  obtain ⟨a1, a2⟩ := a
  obtain ⟨b1, b2⟩ := b
  show (a1 == b1 && a2 == b2) = decide ((a1, a2) = (b1, b2))
  by_cases h1 : a1 = b1 <;> by_cases h2 : a2 = b2 <;> simp [h1, h2]

theorem erase_inst_eq (l : List (Nat × Nat)) (a : Nat × Nat) :
    @List.erase _ instBEqProd l a = @List.erase _ instBEqOfDecidableEq l a := by
  induction l with
  | nil => rfl
  | cons b rest ih =>
    show (match @BEq.beq _ instBEqProd b a with
      | true => rest | false => b :: @List.erase _ instBEqProd rest a) = _
    rw [beq_prod_eq, ih]
    rfl

theorem perm_cons_erase_p {a : Nat × Nat} {l : List (Nat × Nat)} (h : a ∈ l) :
    l.Perm (a :: l.erase a) := by
  have h2 := List.perm_cons_erase h
  rwa [← erase_inst_eq] at h2

theorem perm_erase_p {l1 l2 : List (Nat × Nat)} (a : Nat × Nat) (h : l1.Perm l2) :
    (l1.erase a).Perm (l2.erase a) := by
  have h2 := h.erase a
  rwa [← erase_inst_eq, ← erase_inst_eq] at h2

theorem perm_erase_append {a : Nat × Nat} {l1 l2 : List (Nat × Nat)} (h : a ∈ l2) :
    ((l1 ++ l2).erase a).Perm (l1 ++ l2.erase a) := by
  by_cases h1 : a ∈ l1
  · rw [List.erase_append_left _ h1]
    refine (List.Perm.append_left _ (perm_cons_erase_p h)).trans ?_
    refine List.Perm.trans ?_ (List.Perm.append_right _ (perm_cons_erase_p h1).symm)
    refine List.perm_middle.trans ?_
    rw [List.cons_append]
  · rw [List.erase_append_right _ h1]

theorem aliveIvsBefore_cons (t : Rect) (rest : List Rect) (row : Nat) :
    aliveIvsBefore (t :: rest) row =
      if t.1 < row ∧ row ≤ t.2.2.1 + 1 then colIv t :: aliveIvsBefore rest row
      else aliveIvsBefore rest row := by
  unfold aliveIvsBefore
  rw [List.filter_cons]
  by_cases h : t.1 < row ∧ row ≤ t.2.2.1 + 1
  · rw [if_pos h, if_pos (by simpa using h), List.map_cons]
  · rw [if_neg h, if_neg (by simpa using h)]

theorem aliveIvs_cons (t : Rect) (rest : List Rect) (row : Nat) :
    aliveIvs (t :: rest) row =
      if t.1 ≤ row ∧ row ≤ t.2.2.1 then colIv t :: aliveIvs rest row
      else aliveIvs rest row := by
  unfold aliveIvs
  rw [List.filter_cons]
  by_cases h : t.1 ≤ row ∧ row ≤ t.2.2.1
  · rw [if_pos h, if_pos (by simpa using h), List.map_cons]
  · rw [if_neg h, if_neg (by simpa using h)]

theorem perm_shift {A B : List (Nat × Nat)} (a : Nat × Nat) :
    (A ++ a :: B).Perm ((A ++ [a]) ++ B) := by
  rw [List.append_assoc]
  exact List.Perm.refl _ |>.trans (by rw [List.singleton_append])

theorem applyEvents_perm_aux (row : Nat) :
    ∀ (todo : List Rect) (act A : List (Nat × Nat)),
      (∀ t ∈ todo, t.1 ≤ t.2.2.1) →
      act.Perm (A ++ aliveIvsBefore todo row) →
      (applyEvents todo row act).Perm (A ++ aliveIvs todo row) := by
  intro todo
  induction todo with
  | nil =>
    intro act A _ h
    simpa [applyEvents, aliveIvs, aliveIvsBefore] using h
  | cons t rest ih =>
    intro act A hwf h
    have hwt : t.1 ≤ t.2.2.1 := hwf t (List.mem_cons_self _ _)
    have hstep : applyEvents (t :: rest) row act = applyEvents rest row
        (let act1 := if t.1 = row then act ++ [colIv t] else act
         if t.2.2.1 + 1 = row then act1.erase (colIv t) else act1) := rfl
    rw [hstep, aliveIvsBefore_cons] at *
    by_cases hadd : t.1 = row
    · have hnorem : ¬ (t.2.2.1 + 1 = row) := by omega
      have hnb : ¬ (t.1 < row ∧ row ≤ t.2.2.1 + 1) := by omega
      rw [if_neg hnb] at h
      have hact1 : (act ++ [colIv t]).Perm ((A ++ [colIv t]) ++ aliveIvsBefore rest row) := by
        refine (List.Perm.append_right _ h).trans ?_
        rw [List.append_assoc, List.append_assoc]
        exact List.Perm.append_left _ List.perm_append_comm
      have hres := ih _ (A ++ [colIv t]) (fun x hx => hwf x (List.mem_cons_of_mem _ hx)) hact1
      simp only [if_pos hadd, if_neg hnorem]
      rw [aliveIvs_cons, if_pos (by omega)]
      refine hres.trans ?_
      rw [List.append_assoc, List.singleton_append]
    · by_cases hrem : t.2.2.1 + 1 = row
      · have hb : t.1 < row ∧ row ≤ t.2.2.1 + 1 := by omega
        rw [if_pos hb] at h
        have herase : (act.erase (colIv t)).Perm (A ++ aliveIvsBefore rest row) := by
          refine (perm_erase_p (colIv t) h).trans ?_
          have h2 := @perm_erase_append (colIv t) A (colIv t :: aliveIvsBefore rest row)
            (List.mem_cons_self _ _)
          rwa [List.erase_cons_head] at h2
        have hres := ih _ A (fun x hx => hwf x (List.mem_cons_of_mem _ hx)) herase
        simp only [if_neg hadd, if_pos hrem]
        rw [aliveIvs_cons, if_neg (by omega)]
        exact hres
      · simp only [if_neg hadd, if_neg hrem]
        rw [aliveIvs_cons]
        by_cases hbefore : t.1 < row ∧ row ≤ t.2.2.1 + 1
        · rw [if_pos hbefore] at h
          rw [if_pos (by omega)]
          have hact1 : act.Perm ((A ++ [colIv t]) ++ aliveIvsBefore rest row) := by
            refine h.trans ?_
            rw [List.append_assoc, List.singleton_append]
          have hres := ih _ (A ++ [colIv t])
            (fun x hx => hwf x (List.mem_cons_of_mem _ hx)) hact1
          refine hres.trans ?_
          rw [List.append_assoc, List.singleton_append]
        · rw [if_neg hbefore] at h
          rw [if_neg (by omega)]
          exact ih _ A (fun x hx => hwf x (List.mem_cons_of_mem _ hx)) h

theorem aliveIvs_eq_before_succ (rects : List Rect) (row : Nat) :
    aliveIvs rects row = aliveIvsBefore rects (row + 1) := by
  unfold aliveIvs aliveIvsBefore
  congr 1
  apply List.filter_congr
  intro t _
  simp only [decide_eq_decide]
  omega

theorem aliveIvsBefore_min (rects : List Rect) :
    aliveIvsBefore rects (listMin (rects.map fun t => t.1)) = [] := by
  unfold aliveIvsBefore
  rw [List.filter_eq_nil_iff.mpr, List.map_nil]
  intro t ht
  have hmin := listMin_le (List.mem_map_of_mem (fun t : Rect => t.1) ht)
  dsimp only at hmin
  simp only [decide_eq_true_eq]
  omega

theorem aliveIvs_past_max (rects : List Rect) (row : Nat)
    (h : listMax (rects.map fun t => t.2.2.1) < row) : aliveIvs rects row = [] := by
  unfold aliveIvs
  rw [List.filter_eq_nil_iff.mpr, List.map_nil]
  intro t ht
  have hmax := le_listMax (List.mem_map_of_mem (fun t : Rect => t.2.2.1) ht)
  dsimp only at hmax
  simp only [decide_eq_true_eq]
  omega

theorem inIvs_alive (rects : List Rect) (row c : Nat) :
    inIvs (aliveIvs rects row) c ↔ coveredBy rects row c := by
  unfold inIvs aliveIvs coveredBy inIv inRect colIv
  constructor
  · rintro ⟨q, hq, h1, h2⟩
    obtain ⟨t, ht, rfl⟩ := List.mem_map.mp hq
    obtain ⟨htm, htc⟩ := List.mem_filter.mp ht
    simp only [decide_eq_true_eq] at htc
    exact ⟨t, htm, htc.1, htc.2, h1, h2⟩
  · rintro ⟨t, ht, h1, h2, h3, h4⟩
    exact ⟨(t.2.1, t.2.2.2), List.mem_map_of_mem _
      (List.mem_filter.mpr ⟨ht, by simp only [decide_eq_true_eq]; exact ⟨h1, h2⟩⟩),
      h3, h4⟩

theorem coveredBy_append (l1 l2 : List Rect) (r c : Nat) :
    coveredBy (l1 ++ l2) r c ↔ coveredBy l1 r c ∨ coveredBy l2 r c := by
  unfold coveredBy
  constructor
  · rintro ⟨t, ht, hin⟩
    rcases List.mem_append.mp ht with h | h
    · exact .inl ⟨t, h, hin⟩
    · exact .inr ⟨t, h, hin⟩
  · rintro (⟨t, ht, hin⟩ | ⟨t, ht, hin⟩)
    · exact ⟨t, List.mem_append.mpr (.inl ht), hin⟩
    · exact ⟨t, List.mem_append.mpr (.inr ht), hin⟩

theorem coveredBy_spans (S : List (Nat × Nat)) (p q r c : Nat) :
    coveredBy (S.map fun iv => (p, iv.1, q, iv.2)) r c ↔
      p ≤ r ∧ r ≤ q ∧ inIvs S c := by
  unfold coveredBy inRect inIvs inIv
  constructor
  · rintro ⟨t, ht, h1, h2, h3, h4⟩
    obtain ⟨iv, hiv, rfl⟩ := List.mem_map.mp ht
    exact ⟨h1, h2, iv, hiv, h3, h4⟩
  · rintro ⟨h1, h2, iv, hiv, h3, h4⟩
    exact ⟨(p, iv.1, q, iv.2), List.mem_map_of_mem _ hiv, h1, h2, h3, h4⟩

theorem sweep_main (rects : List Rect) (hwf : ∀ t ∈ rects, t.1 ≤ t.2.2.1) :
    ∀ (n row₀ : Nat) (active : List (Nat × Nat)) (p : Nat) (out : List Rect),
      p < row₀ →
      active.Perm (aliveIvsBefore rects row₀) →
      (∀ r', p ≤ r' → r' < row₀ → spansAt rects r' = spansAt rects p) →
      (∀ r c, coveredBy out r c ↔ (r < p ∧ inIvs (spansAt rects r) c)) →
      out.Pairwise rectDisjoint →
      (∀ t ∈ out, t.2.2.1 < p) →
      spansAt rects (row₀ + n - 1) = [] →
      (∀ r c, coveredBy (sweepLoop rects (List.range' row₀ n) active (some p)
          (spansAt rects p) out) r c ↔ (r < row₀ + n ∧ inIvs (spansAt rects r) c)) ∧
      (sweepLoop rects (List.range' row₀ n) active (some p)
          (spansAt rects p) out).Pairwise rectDisjoint := by
  intro n
  induction n with
  | zero =>
    intro row₀ active p out hplt hact hconst hout hdis hhi hend
    rw [List.range']
    refine ⟨?_, hdis⟩
    intro r c
    rw [sweepLoop, hout r c]
    constructor
    · rintro ⟨h1, h2⟩
      exact ⟨by omega, h2⟩
    · rintro ⟨h1, h2⟩
      refine ⟨?_, h2⟩
      by_contra hge
      have hr1 : p ≤ r := by omega
      have hr2 : r < row₀ := by omega
      have h3 := hconst r hr1 hr2
      have h4 := hconst (row₀ - 1) (by omega) (by omega)
      rw [show row₀ + 0 - 1 = row₀ - 1 by omega] at hend
      rw [h3, ← h4, hend] at h2
      obtain ⟨q, hq, -⟩ := h2
      exact absurd hq (List.not_mem_nil q)
  | succ m ih =>
    intro row₀ active p out hplt hact hconst hout hdis hhi hend
    have hrows : List.range' row₀ (m + 1) = row₀ :: List.range' (row₀ + 1) m := rfl
    rw [hrows, sweepLoop]
    have hact' : (applyEvents rects row₀ active).Perm (aliveIvs rects row₀) := by
      have h0 := applyEvents_perm_aux row₀ rects active [] hwf (by simpa using hact)
      simpa using h0
    have hspans : merge_intervals (applyEvents rects row₀ active) = spansAt rects row₀ :=
      merge_intervals_congr _ _ hact'
    rw [hspans]
    have hactnext : (applyEvents rects row₀ active).Perm (aliveIvsBefore rects (row₀ + 1)) := by
      rw [← aliveIvs_eq_before_succ]
      exact hact'
    have hendnext : spansAt rects (row₀ + 1 + m - 1) = [] := by
      rw [show row₀ + 1 + m - 1 = row₀ + (m + 1) - 1 by omega]
      exact hend
    by_cases hchange : spansAt rects row₀ = spansAt rects p
    · rw [if_neg (by simpa using hchange)]
      have hconst' : ∀ r', p ≤ r' → r' < row₀ + 1 → spansAt rects r' = spansAt rects p := by
        intro r' h1 h2
        rcases Nat.lt_or_ge r' row₀ with h3 | h3
        · exact hconst r' h1 h3
        · have : r' = row₀ := by omega
          rw [this, hchange]
      have hres := ih (row₀ + 1) (applyEvents rects row₀ active) p out
        (by omega) hactnext hconst' hout hdis hhi hendnext
      refine ⟨?_, hres.2⟩
      intro r c
      rw [hres.1 r c]
      constructor
      · rintro ⟨h1, h2⟩
        exact ⟨by omega, h2⟩
      · rintro ⟨h1, h2⟩
        exact ⟨by omega, h2⟩
    · rw [if_pos (by simpa using hchange)]
      have hrow0_pos : 1 ≤ row₀ := by omega
      have hout' : ∀ r c,
          coveredBy (out ++ (spansAt rects p).map fun iv => (p, iv.1, row₀ - 1, iv.2)) r c ↔
            (r < row₀ ∧ inIvs (spansAt rects r) c) := by
        intro r c
        rw [coveredBy_append, hout r c, coveredBy_spans]
        constructor
        · rintro (⟨h1, h2⟩ | ⟨h1, h2, h3⟩)
          · exact ⟨by omega, h2⟩
          · have hc := hconst r h1 (by omega)
            rw [hc]
            exact ⟨by omega, h3⟩
        · rintro ⟨h1, h2⟩
          rcases Nat.lt_or_ge r p with h3 | h3
          · exact .inl ⟨h3, h2⟩
          · refine .inr ⟨h3, by omega, ?_⟩
            rw [← hconst r h3 (by omega)]
            exact h2
      have hdis' : (out ++ (spansAt rects p).map
          fun iv => (p, iv.1, row₀ - 1, iv.2)).Pairwise rectDisjoint := by
        rw [List.pairwise_append]
        refine ⟨hdis, ?_, ?_⟩
        · refine List.Pairwise.map _ ?_ (merge_intervals_pairwise (aliveIvs rects p))
          intro a b hab
          rintro r c ⟨⟨-, -, h3, h4⟩, ⟨-, -, h5, -⟩⟩
          dsimp at h3 h4 h5
          omega
        · intro t ht u hu
          obtain ⟨iv, hiv, rfl⟩ := List.mem_map.mp hu
          rintro r c ⟨⟨-, h2, -, -⟩, ⟨h5, -, -, -⟩⟩
          have := hhi t ht
          dsimp at h5
          omega
      have hhi' : ∀ t ∈ out ++ (spansAt rects p).map
          fun iv => (p, iv.1, row₀ - 1, iv.2), t.2.2.1 < row₀ := by
        intro t ht
        rcases List.mem_append.mp ht with h | h
        · have := hhi t h
          omega
        · obtain ⟨iv, hiv, rfl⟩ := List.mem_map.mp h
          dsimp
          omega
      have hconst' : ∀ r', row₀ ≤ r' → r' < row₀ + 1 → spansAt rects r' = spansAt rects row₀ := by
        intro r' h1 h2
        have : r' = row₀ := by omega
        rw [this]
      have hres := ih (row₀ + 1) (applyEvents rects row₀ active) row₀ _
        (by omega) hactnext hconst' hout' hdis' hhi' hendnext
      refine ⟨?_, hres.2⟩
      intro r c
      rw [hres.1 r c]
      constructor
      · rintro ⟨h1, h2⟩
        exact ⟨by omega, h2⟩
      · rintro ⟨h1, h2⟩
        exact ⟨by omega, h2⟩

theorem aliveIvs_lt_min (rects : List Rect) (r : Nat)
    (h : r < listMin (rects.map fun t => t.1)) : aliveIvs rects r = [] := by
  unfold aliveIvs
  rw [List.filter_eq_nil_iff.mpr, List.map_nil]
  intro t ht
  have hmin := listMin_le (List.mem_map_of_mem (fun t : Rect => t.1) ht)
  dsimp only at hmin
  simp only [decide_eq_true_eq]
  omega

theorem merge_intervals_nil : merge_intervals [] = [] := rfl

/-- C2 (amended): for rectangle lists whose members are row-wise well formed
(`r0 ≤ r1`, as all in-repository callers produce), the cell-set union of
`union_rects` equals the input's cell-set union, the output rectangles are
pairwise disjoint, and the empty input yields `[]`.  Row-degenerate
rectangles (`r1 + 1 < r0`) leave their "rem" event before their "add" event,
permanently corrupting the sweep's `active` list, so the unqualified claim
is refuted by `C2_counterexample`. -/
theorem C2_union_rects (rects : List Rect) (hwf : ∀ t ∈ rects, t.1 ≤ t.2.2.1) :
    (∀ r c, coveredBy (union_rects rects) r c ↔ coveredBy rects r c) ∧
    (union_rects rects).Pairwise rectDisjoint ∧
    union_rects ([] : List Rect) = [] := by
  refine ⟨?_, ?_, rfl⟩ <;> ·
    by_cases hnil : rects = []
    · subst hnil
      first
        | · intro r c
            unfold union_rects coveredBy
            simp
        | exact List.Pairwise.nil
    · have hu : union_rects rects = sweepLoop rects
          (List.range' (listMin (rects.map fun t => t.1))
            (listMax (rects.map fun t => t.2.2.1) + 2 - listMin (rects.map fun t => t.1)))
          [] none [] [] := by
        unfold union_rects
        rw [if_neg hnil]
      rw [hu]
      set minR := listMin (rects.map fun t => t.1) with hminR
      set maxR := listMax (rects.map fun t => t.2.2.1) with hmaxR
      obtain ⟨t0, rest0, hrects⟩ := List.exists_cons_of_ne_nil hnil
      have hminmax : minR ≤ maxR := by
        have hm0 : t0 ∈ rects := by rw [hrects]; exact List.mem_cons_self _ _
        have h1 : minR ≤ t0.1 := by
          rw [hminR]
          have := listMin_le (List.mem_map_of_mem (fun t : Rect => t.1) hm0)
          dsimp only at this
          exact this
        have h2 : t0.2.2.1 ≤ maxR := by
          rw [hmaxR]
          have := le_listMax (List.mem_map_of_mem (fun t : Rect => t.2.2.1) hm0)
          dsimp only at this
          exact this
        have h3 := hwf t0 hm0
        omega
      have hn : maxR + 2 - minR = 1 + (maxR + 1 - minR) := by omega
      rw [hn]
      have hrange : List.range' minR (1 + (maxR + 1 - minR)) =
          minR :: List.range' (minR + 1) (maxR + 1 - minR) := by
        rw [Nat.add_comm 1 (maxR + 1 - minR)]
        rfl
      rw [hrange, sweepLoop]
      have hact0 : (List.nil : List (Nat × Nat)).Perm (aliveIvsBefore rects minR) := by
        rw [aliveIvsBefore_min]
      have hact' : (applyEvents rects minR []).Perm (aliveIvs rects minR) := by
        have h0 := applyEvents_perm_aux minR rects [] [] hwf (by simpa using hact0)
        simpa using h0
      have hspans : merge_intervals (applyEvents rects minR []) = spansAt rects minR :=
        merge_intervals_congr _ _ hact'
      rw [hspans]
      have hmain := sweep_main rects hwf (maxR + 1 - minR) (minR + 1)
        (applyEvents rects minR []) minR []
        (by omega)
        (by rw [← aliveIvs_eq_before_succ]; exact hact')
        (by intro r' h1 h2; have : r' = minR := by omega
            rw [this])
        (by intro r c
            unfold coveredBy
            simp only [List.not_mem_nil, false_and, exists_false, false_iff, not_and]
            intro hr
            rw [show spansAt rects r = [] by
              unfold spansAt
              rw [aliveIvs_lt_min rects r hr, merge_intervals_nil]]
            simp [inIvs])
        List.Pairwise.nil
        (by simp)
        (by rw [show minR + 1 + (maxR + 1 - minR) - 1 = maxR + 1 by omega]
            unfold spansAt
            rw [aliveIvs_past_max rects (maxR + 1) (by omega), merge_intervals_nil])
      first
        | · intro r c
            rw [hmain.1 r c]
            have hcov : inIvs (spansAt rects r) c ↔ coveredBy rects r c := by
              unfold spansAt
              rw [merge_intervals_cov, inIvs_alive]
            rw [hcov]
            constructor
            · rintro ⟨-, h2⟩
              exact h2
            · intro h2
              refine ⟨?_, h2⟩
              obtain ⟨t, ht, -, hr, -⟩ := h2
              have := le_listMax (List.mem_map_of_mem (fun t : Rect => t.2.2.1) ht)
              dsimp only at this
              omega
        | exact hmain.2

/-- C2 counterexample: with the row-degenerate rectangle `(5,0,3,4)` in the
input, its `rem` event (row 4) fires as a no-op before its `add` event
(row 5), so the stale interval never leaves `active`: the sentinel row then
sees unchanged spans, the last run never closes, and the output fails to
cover the input cell `(5, 0)` of the well-formed rectangle `(0,0,7,0)`. -/
theorem C2_counterexample :
    union_rects [(5, 0, 3, 4), (0, 0, 7, 0)] = [(0, 0, 4, 0)] ∧
    coveredBy [(5, 0, 3, 4), (0, 0, 7, 0)] 5 0 ∧
    ¬ coveredBy [(0, 0, 4, 0)] 5 0 := ⟨by decide, by decide, by decide⟩

/-- Witness for `C2_union_rects` on two overlapping rectangles. -/
theorem C2_witness :
    (∀ r c, coveredBy (union_rects [(0, 0, 1, 1), (1, 1, 2, 2)]) r c ↔
      coveredBy [(0, 0, 1, 1), (1, 1, 2, 2)] r c) ∧
    (union_rects [(0, 0, 1, 1), (1, 1, 2, 2)]).Pairwise rectDisjoint ∧
    union_rects ([] : List Rect) = [] :=
  C2_union_rects [(0, 0, 1, 1), (1, 1, 2, 2)] (by decide)

theorem mapIdx_getD {α : Type} (l : List α) (f : Nat → α → α) (i : Nat) (d : α) :
    (l.mapIdx f).getD i d = if h : i < l.length then f i (l.get ⟨i, h⟩) else d := by
  by_cases h : i < l.length
  · rw [dif_pos h]
    have hlen : i < (l.mapIdx f).length := by rw [List.length_mapIdx]; exact h
    rw [List.getD_eq_getElem _ _ hlen, List.getElem_mapIdx]
    rfl
  · rw [dif_neg h, List.getD_eq_default]
    rw [List.length_mapIdx]
    omega

theorem updateH_getD (H row : List Nat) (c : Nat) :
    (updateH H row).getD c 0 =
      if c < H.length then (if row.getD c 0 = 1 then H.getD c 0 + 1 else 0) else 0 := by
  unfold updateH
  rw [mapIdx_getD]
  by_cases h : c < H.length
  · rw [dif_pos h, if_pos h, List.getD_eq_getElem _ _ h]
    rfl
  · rw [dif_neg h, if_neg h]

theorem updateH_length (H row : List Nat) : (updateH H row).length = H.length :=
  List.length_mapIdx

theorem heightsOK_update (g : Grid) (r : Nat) (H : List Nat)
    (hH : heightsOK g r H) (hr : r < g.length) :
    heightsOK g (r + 1) (updateH H (g.getD r [])) := by
  obtain ⟨hlen, hprop⟩ := hH
  refine ⟨by rw [updateH_length]; exact hlen, ?_⟩
  intro c
  rw [updateH_getD]
  by_cases hc : c < H.length
  · rw [if_pos hc]
    by_cases hone : (g.getD r []).getD c 0 = 1
    · rw [if_pos hone]
      obtain ⟨hb, ho⟩ := hprop c
      refine ⟨by omega, ?_⟩
      intro i h1 h2
      rcases Nat.lt_or_ge i r with h3 | h3
      · exact ho i (by omega) h3
      · have : i = r := by omega
        subst this
        exact hone
    · rw [if_neg hone]
      exact ⟨by omega, fun i h1 h2 => absurd h1 (by omega)⟩
  · rw [if_neg hc]
    exact ⟨by omega, fun i h1 h2 => absurd h1 (by omega)⟩

theorem popPhase_spec (g : Grid) (r : Nat) (HH : List Nat) (c h : Nat)
    (hsem : ∀ j i, r + 1 - HH.getD j 0 ≤ i → i ≤ r → getCell g i j = 1) :
    ∀ (st : List (Nat × Nat)) (last : Nat) (rects : List Rect),
      stackOK HH c st → st.Pairwise (fun a b => b.2 < a.2) →
      last ≤ c → (∀ j, last ≤ j → j < c → h ≤ HH.getD j 0) →
      stackOK HH c (popPhase r c h st last rects).1 ∧
      (popPhase r c h st last rects).1.Pairwise (fun a b => b.2 < a.2) ∧
      (∀ b ∈ (popPhase r c h st last rects).1, b.2 ≤ h) ∧
      (popPhase r c h st last rects).2.1 ≤ c ∧
      (∀ j, (popPhase r c h st last rects).2.1 ≤ j → j < c → h ≤ HH.getD j 0) ∧
      (∀ t ∈ (popPhase r c h st last rects).2.2, t ∈ rects ∨ rectGood g t) := by
  intro st
  induction st with
  | nil =>
    intro last rects hok hpw hlc hlj
    exact ⟨fun p hp => absurd hp (List.not_mem_nil p), List.Pairwise.nil,
      fun b hb => absurd hb (List.not_mem_nil b), hlc, hlj, fun t ht => .inl ht⟩
  | cons top rest ih =>
    intro last rects hok hpw hlc hlj
    obtain ⟨i, hh⟩ := top
    rw [popPhase]
    by_cases hpop : h < hh
    · rw [if_pos hpop]
      dsimp only
      have hokt := hok (i, hh) (List.mem_cons_self _ _)
      dsimp only at hokt
      have hrec := ih i (if 0 < hh ∧ 0 < c - i then rects ++ [(r + 1 - hh, i, r, c - 1)] else rects)
        (fun p hp => hok p (List.mem_cons_of_mem _ hp))
        (List.pairwise_cons.mp hpw).2
        hokt.1
        (by
          intro j h1 h2
          have := hokt.2 j h1 h2
          omega)
      refine ⟨hrec.1, hrec.2.1, hrec.2.2.1, hrec.2.2.2.1, hrec.2.2.2.2.1, ?_⟩
      intro t ht
      rcases hrec.2.2.2.2.2 t ht with hmem | hgood
      · by_cases hguard : 0 < hh ∧ 0 < c - i
        · rw [if_pos hguard] at hmem
          rcases List.mem_append.mp hmem with h1 | h1
          · exact .inl h1
          · rcases List.mem_singleton.mp h1 with rfl
            obtain ⟨hg1, hg2⟩ := hguard
            refine .inr ⟨?_, ?_, ?_⟩
            · show r + 1 - hh ≤ r
              omega
            · show i ≤ c - 1
              omega
            · intro rr cc hin
              obtain ⟨hr1, hr2, hc1, hc2⟩ := hin
              have hr1' : r + 1 - hh ≤ rr := hr1
              have hr2' : rr ≤ r := hr2
              have hc1' : i ≤ cc := hc1
              have hc2' : cc ≤ c - 1 := hc2
              have hcol := hokt.2 cc (by omega) (by omega)
              exact hsem cc rr (by omega) (by omega)
        · rw [if_neg hguard] at hmem
          exact .inl hmem
      · exact .inr hgood
    · rw [if_neg hpop]
      dsimp only
      refine ⟨hok, hpw, ?_, hlc, hlj, fun t ht => .inl ht⟩
      intro b hb
      rcases List.mem_cons.mp hb with rfl | hb2
      · omega
      · have := (List.pairwise_cons.mp hpw).1 b hb2
        omega

theorem hscan_spec (g : Grid) (r : Nat) (HH : List Nat)
    (hsem : ∀ j i, r + 1 - HH.getD j 0 ≤ i → i ≤ r → getCell g i j = 1) :
    ∀ (hs : List Nat) (c : Nat) (st : List (Nat × Nat)) (rects : List Rect),
      hs = HH.drop c → stackOK HH c st → st.Pairwise (fun a b => b.2 < a.2) →
      ∀ t ∈ hscan r c hs st rects, t ∈ rects ∨ rectGood g t := by
  intro hs
  induction hs with
  | nil =>
    intro c st rects _ _ _ t ht
    rw [hscan] at ht
    exact .inl ht
  | cons h hs' ih =>
    intro c st rects hdrop hok hpw t ht
    have hc : HH.getD c 0 = h := by
      have h0 : HH[c]? = some h := by
        rw [← Nat.add_zero c, ← List.getElem?_drop HH c 0, ← hdrop]
        simp
      rw [List.getD_eq_getElem?_getD, h0]
      rfl
    have hdrop' : hs' = HH.drop (c + 1) := by
      rw [← List.tail_drop, ← hdrop]
      rfl
    have hps := popPhase_spec g r HH c h hsem st c rects hok hpw (le_refl c)
      (fun j h1 h2 => absurd h1 (by omega))
    have hunfold : hscan r c (h :: hs') st rects =
        hscan r (c + 1) hs'
          (match (popPhase r c h st c rects).1 with
           | [] => [((popPhase r c h st c rects).2.1, h)]
           | (i0, h0) :: tl =>
             if h0 < h then ((popPhase r c h st c rects).2.1, h) :: (i0, h0) :: tl
             else (i0, h0) :: tl)
          (popPhase r c h st c rects).2.2 := rfl
    rw [hunfold] at ht
    have hok2 : stackOK HH (c + 1)
        (match (popPhase r c h st c rects).1 with
         | [] => [((popPhase r c h st c rects).2.1, h)]
         | (i0, h0) :: tl =>
           if h0 < h then ((popPhase r c h st c rects).2.1, h) :: (i0, h0) :: tl
           else (i0, h0) :: tl) := by
      have hpush : ∀ j, (popPhase r c h st c rects).2.1 ≤ j → j < c + 1 → h ≤ HH.getD j 0 := by
        intro j h1 h2
        rcases Nat.lt_or_ge j c with h3 | h3
        · exact hps.2.2.2.2.1 j h1 h3
        · have : j = c := by omega
          subst this
          omega
      have hext : ∀ p ∈ (popPhase r c h st c rects).1,
          p.1 ≤ c + 1 ∧ ∀ j, p.1 ≤ j → j < c + 1 → p.2 ≤ HH.getD j 0 := by
        intro p hp
        have h1 := hps.1 p hp
        have h2 := hps.2.2.1 p hp
        refine ⟨by omega, ?_⟩
        intro j hj1 hj2
        rcases Nat.lt_or_ge j c with h3 | h3
        · exact h1.2 j hj1 h3
        · have : j = c := by omega
          subst this
          omega
      split
      · intro p hp
        rcases List.mem_singleton.mp hp with rfl
        exact ⟨by have := hps.2.2.2.1; omega, hpush⟩
      · next i0 h0 tl hcase =>
        by_cases hlt : h0 < h
        · rw [if_pos hlt]
          intro p hp
          rcases List.mem_cons.mp hp with rfl | hp2
          · exact ⟨by have := hps.2.2.2.1; omega, hpush⟩
          · exact hext p (hcase ▸ hp2)
        · rw [if_neg hlt]
          intro p hp
          exact hext p (hcase ▸ hp)
    have hpw2 : List.Pairwise (fun (a b : Nat × Nat) => b.2 < a.2)
        (match (popPhase r c h st c rects).1 with
         | [] => [((popPhase r c h st c rects).2.1, h)]
         | (i0, h0) :: tl =>
           if h0 < h then ((popPhase r c h st c rects).2.1, h) :: (i0, h0) :: tl
           else (i0, h0) :: tl) := by
      split
      · exact List.pairwise_singleton _ _
      · next i0 h0 tl hcase =>
        have hpwres := hcase ▸ hps.2.1
        by_cases hlt : h0 < h
        · rw [if_pos hlt]
          refine List.pairwise_cons.mpr ⟨?_, hpwres⟩
          intro b hb
          rcases List.mem_cons.mp hb with rfl | hb2
          · exact hlt
          · have := (List.pairwise_cons.mp hpwres).1 b hb2
            dsimp only
            omega
        · rw [if_neg hlt]
          exact hpwres
    rcases ih (c + 1) _ _ hdrop' hok2 hpw2 t ht with hmem | hgood
    · exact hps.2.2.2.2.2 t hmem
    · exact .inr hgood

theorem getD_append_sentinel (H : List Nat) (j : Nat) :
    (H ++ [0]).getD j 0 = if j < H.length then H.getD j 0 else 0 := by
  by_cases h : j < H.length
  · rw [if_pos h, List.getD_eq_getElem?_getD, List.getElem?_append_left h,
      ← List.getD_eq_getElem?_getD]
  · rw [if_neg h]
    by_cases h2 : j = H.length
    · subst h2
      rw [List.getD_eq_getElem?_getD, List.getElem?_append_right (le_refl _)]
      simp
    · rw [List.getD_eq_default]
      simp only [List.length_append, List.length_singleton]
      omega

theorem enumRows_spec (g : Grid) :
    ∀ (rows : List (List Nat)) (r : Nat) (H : List Nat) (rects : List Rect),
      rows = g.drop r → heightsOK g r H →
      ∀ t ∈ enumRows r rows H rects, t ∈ rects ∨ rectGood g t := by
  intro rows
  induction rows with
  | nil =>
    intro r H rects _ _ t ht
    rw [enumRows] at ht
    exact .inl ht
  | cons row rows' ih =>
    intro r H rects hdrop hH t ht
    have hrow : g.getD r [] = row := by
      have h0 : g[r]? = some row := by
        rw [← Nat.add_zero r, ← List.getElem?_drop g r 0, ← hdrop]
        simp
      rw [List.getD_eq_getElem?_getD, h0]
      rfl
    have hrlen : r < g.length := by
      by_contra hge
      have : g.drop r = [] := List.drop_eq_nil_of_le (by omega)
      rw [this] at hdrop
      exact List.noConfusion hdrop
    have hdrop' : rows' = g.drop (r + 1) := by
      rw [← List.tail_drop, ← hdrop]
      rfl
    have hH2 : heightsOK g (r + 1) (updateH H row) :=
      hrow ▸ heightsOK_update g r H hH hrlen
    rw [enumRows] at ht
    have hsem : ∀ j i, r + 1 - (updateH H row ++ [0]).getD j 0 ≤ i → i ≤ r →
        getCell g i j = 1 := by
      intro j i h1 h2
      rw [getD_append_sentinel] at h1
      by_cases hj : j < (updateH H row).length
      · rw [if_pos hj] at h1
        exact (hH2.2 j).2 i h1 (by omega)
      · rw [if_neg hj] at h1
        exact absurd h1 (by omega)
    rcases ih (r + 1) (updateH H row) _ hdrop' hH2 t ht with hmem | hgood
    · rcases hscan_spec g r (updateH H row ++ [0]) hsem (updateH H row ++ [0]) 0 [] rects
        (by rw [List.drop_zero]) (fun p hp => absurd hp (List.not_mem_nil p))
        List.Pairwise.nil t hmem with h1 | h2
      · exact .inl h1
      · exact .inr h2
    · exact .inr hgood

theorem enumerate_good (g : Grid) :
    ∀ t ∈ enumerate_histogram_rectangles g, rectGood g t := by
  intro t ht
  unfold enumerate_histogram_rectangles at ht
  by_cases hnil : g = [] ∨ g.headD [] = []
  · rw [if_pos hnil] at ht
    exact absurd ht (List.not_mem_nil t)
  · rw [if_neg hnil] at ht
    rcases enumRows_spec g g 0 (List.replicate (g.headD []).length 0) [] (by simp)
      (by
        refine ⟨by simp, ?_⟩
        intro c
        refine ⟨?_, fun i h1 h2 => absurd h2 (by omega)⟩
        by_cases hc : c < (g.headD []).length
        · rw [List.getD_eq_getElem _ _ (by simpa using hc)]
          simp
        · rw [List.getD_eq_default]
          simp only [List.length_replicate]
          omega)
      t ht with h1 | h2
    · exact absurd h1 (List.not_mem_nil t)
    · exact h2

theorem popPhase_mono (r c h : Nat) :
    ∀ (st : List (Nat × Nat)) (last : Nat) (rects : List Rect),
      ∀ x ∈ rects, x ∈ (popPhase r c h st last rects).2.2 := by
  intro st
  induction st with
  | nil => intro last rects x hx; exact hx
  | cons top rest ih =>
    intro last rects x hx
    obtain ⟨i, hh⟩ := top
    rw [popPhase]
    by_cases hpop : h < hh
    · rw [if_pos hpop]
      dsimp only
      refine ih i _ x ?_
      by_cases hguard : 0 < hh ∧ 0 < c - i
      · rw [if_pos hguard]
        exact List.mem_append.mpr (.inl hx)
      · rw [if_neg hguard]
        exact hx
    · rw [if_neg hpop]
      exact hx

theorem popPhase_result (r c h : Nat) :
    ∀ (st : List (Nat × Nat)) (last : Nat) (rects : List Rect),
      (∀ p ∈ st, p.1 < c) → st.Pairwise (fun a b => b.2 < a.2) →
      (popPhase r c h st last rects).2.2 ≠ [] ∨
      ((popPhase r c h st last rects).1 = st ∧
       (popPhase r c h st last rects).2.2 = rects ∧
       (popPhase r c h st last rects).2.1 = last ∧
       ∀ q ∈ st, q.2 ≤ h) := by
  intro st
  induction st with
  | nil =>
    intro last rects _ _
    exact .inr ⟨rfl, rfl, rfl, fun q hq => absurd hq (List.not_mem_nil q)⟩
  | cons top rest ih =>
    intro last rects hstrict hpw
    obtain ⟨i, hh⟩ := top
    rw [popPhase]
    by_cases hpop : h < hh
    · rw [if_pos hpop]
      dsimp only
      left
      have hguard : 0 < hh ∧ 0 < c - i := by
        have := hstrict (i, hh) (List.mem_cons_self _ _)
        dsimp only at this
        omega
      rw [if_pos hguard]
      have hx := popPhase_mono r c h rest i (rects ++ [(r + 1 - hh, i, r, c - 1)])
        (r + 1 - hh, i, r, c - 1) (List.mem_append.mpr (.inr (List.mem_singleton.mpr rfl)))
      intro hnil
      rw [hnil] at hx
      exact absurd hx (List.not_mem_nil _)
    · rw [if_neg hpop]
      right
      refine ⟨rfl, rfl, rfl, ?_⟩
      intro q hq
      rcases List.mem_cons.mp hq with rfl | hq2
      · omega
      · have := (List.pairwise_cons.mp hpw).1 q hq2
        omega

theorem hscan_mono (r : Nat) :
    ∀ (hs : List Nat) (c : Nat) (st : List (Nat × Nat)) (rects : List Rect),
      ∀ x ∈ rects, x ∈ hscan r c hs st rects := by
  intro hs
  induction hs with
  | nil => intro c st rects x hx; rw [hscan]; exact hx
  | cons h hs' ih =>
    intro c st rects x hx
    rw [hscan]
    exact ih (c + 1) _ _ x (popPhase_mono r c h st c rects x hx)

theorem hscan_ne (r : Nat) (HH : List Nat) (hlastHH : HH.getLast? = some 0) :
    ∀ (hs : List Nat) (c : Nat) (st : List (Nat × Nat)) (rects : List Rect),
      hs = HH.drop c →
      (∀ p ∈ st, p.1 < c) → st.Pairwise (fun a b => b.2 < a.2) →
      (rects ≠ [] ∨ (hs ≠ [] ∧ ((∃ p ∈ st, 0 < p.2) ∨ ∃ j, c ≤ j ∧ 0 < HH.getD j 0))) →
      hscan r c hs st rects ≠ [] := by
  intro hs
  induction hs with
  | nil =>
    intro c st rects _ _ _ hpend
    rw [hscan]
    rcases hpend with h1 | ⟨h2, -⟩
    · exact h1
    · exact absurd rfl h2
  | cons h hs' ih =>
    intro c st rects hdrop hstrict hpw hpend
    rcases hpend with hrne | ⟨-, hcases⟩
    · obtain ⟨x, hx⟩ := List.exists_mem_of_ne_nil _ hrne
      intro hnil
      have hmem := hscan_mono r (h :: hs') c st rects x hx
      rw [hnil] at hmem
      exact absurd hmem (List.not_mem_nil x)
    · have hc : HH.getD c 0 = h := by
        have h0 : HH[c]? = some h := by
          rw [← Nat.add_zero c, ← List.getElem?_drop HH c 0, ← hdrop]
          simp
        rw [List.getD_eq_getElem?_getD, h0]
        rfl
      have hdrop' : hs' = HH.drop (c + 1) := by
        rw [← List.tail_drop, ← hdrop]
        rfl
      have hzero : hs' = [] → h = 0 := by
        intro h0
        rw [h0] at hdrop
        have hcle : c < HH.length := by
          by_contra hge
          rw [List.drop_eq_nil_of_le (by omega)] at hdrop
          exact List.noConfusion hdrop
        have hlen : HH.length = c + 1 := by
          have hl := congrArg List.length hdrop
          simp only [List.length_cons, List.length_nil, List.length_drop] at hl
          omega
        have hgetc : HH[c]? = some h := by
          rw [← Nat.add_zero c, ← List.getElem?_drop HH c 0, ← hdrop]
          simp
        have hgl := hlastHH
        rw [List.getLast?_eq_getElem?, hlen, Nat.add_sub_cancel, hgetc] at hgl
        exact Option.some.inj hgl
      have hunfold : hscan r c (h :: hs') st rects =
          hscan r (c + 1) hs'
            (match (popPhase r c h st c rects).1 with
             | [] => [((popPhase r c h st c rects).2.1, h)]
             | (i0, h0) :: tl =>
               if h0 < h then ((popPhase r c h st c rects).2.1, h) :: (i0, h0) :: tl
               else (i0, h0) :: tl)
            (popPhase r c h st c rects).2.2 := rfl
      rw [hunfold]
      rcases popPhase_result r c h st c rects hstrict hpw with hemit | ⟨hst, hrects, hlast2, htop⟩
      · obtain ⟨x, hx⟩ := List.exists_mem_of_ne_nil _ hemit
        exact List.ne_nil_of_mem (hscan_mono r hs' (c + 1) _ _ x hx)
      · rw [hst, hrects, hlast2]
        have hkey : 0 < h ∨ ∃ j, c + 1 ≤ j ∧ 0 < HH.getD j 0 := by
          rcases hcases with ⟨p, hp, hppos⟩ | ⟨j, hj1, hj2⟩
          · left
            have := htop p hp
            omega
          · by_cases hjc : j = c
            · left
              rw [hjc, hc] at hj2
              exact hj2
            · right
              exact ⟨j, by omega, hj2⟩
        have hne' : hs' ≠ [] := by
          intro h0
          rcases hkey with hpos | ⟨j, hj1, hj2⟩
          · have := hzero h0
            omega
          · have hjlt : j < HH.length := by
              by_contra hge
              rw [List.getD_eq_default] at hj2
              · exact absurd hj2 (lt_irrefl 0)
              · omega
            have hlen : HH.length ≤ c + 1 := by
              have hl := congrArg List.length h0
              rw [hdrop'] at hl
              simp only [List.length_drop, List.length_nil] at hl
              omega
            omega
        have hpend2 : ∀ st2 : List (Nat × Nat), (0 < h → ∃ p ∈ st2, 0 < p.2) →
            (rects ≠ [] ∨ (hs' ≠ [] ∧
              ((∃ p ∈ st2, 0 < p.2) ∨ ∃ j, c + 1 ≤ j ∧ 0 < HH.getD j 0))) := by
          intro st2 hpos
          rcases hkey with hp | hf
          · exact Or.inr ⟨hne', Or.inl (hpos hp)⟩
          · exact Or.inr ⟨hne', Or.inr hf⟩
        cases st with
        | nil =>
          dsimp only
          refine ih (c + 1) _ rects hdrop' ?_ ?_ (hpend2 _ ?_)
          · intro p hp
            rw [List.mem_singleton] at hp
            rw [hp]
            exact Nat.lt_succ_self c
          · exact List.pairwise_singleton _ _
          · intro hpos
            exact ⟨(c, h), List.mem_singleton_self _, hpos⟩
        | cons q tl =>
          obtain ⟨i0, h0⟩ := q
          dsimp only
          by_cases hcond : h0 < h
          · rw [if_pos hcond]
            refine ih (c + 1) _ rects hdrop' ?_ ?_ (hpend2 _ ?_)
            · intro p hp
              rcases List.mem_cons.mp hp with rfl | hp'
              · exact Nat.lt_succ_self c
              · exact Nat.lt_succ_of_lt (hstrict p hp')
            · refine List.Pairwise.cons ?_ hpw
              intro b hb
              rcases List.mem_cons.mp hb with rfl | hb'
              · exact hcond
              · have hb2 : b.2 < h0 := (List.pairwise_cons.mp hpw).1 b hb'
                exact Nat.lt_trans hb2 hcond
            · intro hpos
              exact ⟨(c, h), List.mem_cons_self _ _, hpos⟩
          · rw [if_neg hcond]
            refine ih (c + 1) _ rects hdrop' ?_ hpw (hpend2 _ ?_)
            · intro p hp
              exact Nat.lt_succ_of_lt (hstrict p hp)
            · intro hpos
              exact ⟨(i0, h0), List.mem_cons_self _ _,
                Nat.lt_of_lt_of_le hpos (Nat.le_of_not_lt hcond)⟩

theorem enumRows_mono : ∀ (rows : List (List Nat)) (r : Nat) (H : List Nat)
    (rects : List Rect), ∀ x ∈ rects, x ∈ enumRows r rows H rects := by
  intro rows
  induction rows with
  | nil => intro r H rects x hx; exact hx
  | cons row rows' ih =>
    intro r H rects x hx
    rw [enumRows]
    exact ih (r + 1) _ _ x (hscan_mono r (updateH H row ++ [0]) 0 [] rects x hx)

theorem enumRows_ne (C : Nat) : ∀ (rows : List (List Nat)) (r : Nat)
    (H : List Nat) (rects : List Rect),
    H.length = C →
    (∀ row ∈ rows, row.length = C) →
    (∃ k c, (rows.getD k []).getD c 0 = 1) →
    enumRows r rows H rects ≠ [] := by
  intro rows
  induction rows with
  | nil =>
    intro r H rects _ _ ⟨k, c, hkc⟩
    simp [List.getD] at hkc
  | cons row rows' ih =>
    intro r H rects hHlen hrows ⟨k, c, hkc⟩
    rw [enumRows]
    cases k with
    | zero =>
      have hrow : row.getD c 0 = 1 := hkc
      have hclt : c < row.length := by
        by_contra hge
        rw [List.getD_eq_default _ _ (by omega)] at hrow
        exact absurd hrow (by omega)
      have hcC : c < C := by
        rw [← hrows row (List.mem_cons_self _ _)]
        exact hclt
      have hpos : 0 < (updateH H row).getD c 0 := by
        rw [updateH_getD, if_pos (by omega), if_pos hrow]
        omega
      have hlast : (updateH H row ++ [0]).getLast? = some (0 : Nat) := by simp
      have hne := hscan_ne r (updateH H row ++ [0]) hlast
        (updateH H row ++ [0]) 0 [] rects (List.drop_zero _).symm
        (fun p hp => absurd hp (List.not_mem_nil p))
        List.Pairwise.nil
        (Or.inr ⟨by simp, Or.inr ⟨c, Nat.zero_le c, by
          rw [getD_append_sentinel, if_pos (by rw [updateH_length]; omega)]
          exact hpos⟩⟩)
      obtain ⟨x, hx⟩ := List.exists_mem_of_ne_nil _ hne
      exact List.ne_nil_of_mem (enumRows_mono rows' (r + 1) _ _ x hx)
    | succ k' =>
      refine ih (r + 1) _ _ ?_ ?_ ⟨k', c, hkc⟩
      · rw [updateH_length]; exact hHlen
      · intro row' hrow'
        exact hrows row' (List.mem_cons_of_mem _ hrow')

theorem enumerate_ne (g : Grid)
    (hsq : ∀ row ∈ g, row.length = (g.headD []).length)
    (hone : anyOnes g = true) :
    enumerate_histogram_rectangles g ≠ [] := by
  rw [anyOnes, List.any_eq_true] at hone
  obtain ⟨row, hrow, hv⟩ := hone
  rw [List.any_eq_true] at hv
  obtain ⟨v, hvr, hv1⟩ := hv
  have hv1' : v = 1 := by simpa using hv1
  obtain ⟨k, hk, hgk⟩ := List.mem_iff_getElem.mp hrow
  obtain ⟨c, hc, hrc⟩ := List.mem_iff_getElem.mp hvr
  have hkc : (g.getD k []).getD c 0 = 1 := by
    rw [List.getD_eq_getElem _ _ hk, hgk, List.getD_eq_getElem _ _ hc, hrc, hv1']
  have hC : 0 < (g.headD []).length := by
    rw [← hsq row hrow]
    omega
  have hgne : g ≠ [] := List.ne_nil_of_mem hrow
  have hhne : g.headD [] ≠ [] := by
    intro h0
    rw [h0] at hC
    exact absurd hC (by simp)
  rw [enumerate_histogram_rectangles, if_neg (by push_neg; exact ⟨hgne, hhne⟩)]
  exact enumRows_ne (g.headD []).length g 0 _ [] (List.length_replicate _ _) hsq
    ⟨k, c, hkc⟩

theorem pickLargest_mem (cands : List Rect) (t : Rect)
    (h : pickLargest cands = some t) : t ∈ cands := by
  unfold pickLargest at h
  cases hs : pySort (fun a b => rectArea b ≤ rectArea a) cands with
  | nil => rw [hs] at h; exact absurd h (by simp)
  | cons x xs =>
    rw [hs] at h
    have hx : t = x := by simpa using h.symm
    rw [hx]
    exact (pySort_perm _ cands).mem_iff.mp (hs ▸ List.mem_cons_self x xs)

theorem pickLargest_ne (cands : List Rect) (hne : cands ≠ []) :
    ∃ t, pickLargest cands = some t := by
  unfold pickLargest
  cases hs : pySort (fun a b => rectArea b ≤ rectArea a) cands with
  | nil =>
    have := (pySort_perm (fun a b => rectArea b ≤ rectArea a) cands).length_eq
    rw [hs] at this
    cases cands with
    | nil => exact absurd rfl hne
    | cons y ys => exact absurd this.symm (by simp)
  | cons x xs => exact ⟨x, rfl⟩

theorem getD_eq_get {α : Type} (l : List α) (d : α) {n : Nat} (h : n < l.length) :
    l.getD n d = l.get ⟨n, h⟩ := by
  rw [List.getD_eq_getElem _ _ h]
  rfl

theorem getCell_zeroRect (g : Grid) (t : Rect) (r c : Nat) :
    getCell (zeroRect g t) r c =
      if t.1 ≤ r ∧ r ≤ t.2.2.1 ∧ t.2.1 ≤ c ∧ c ≤ t.2.2.2 then 0
      else getCell g r c := by
  unfold zeroRect getCell
  rw [mapIdx_getD]
  by_cases hr : r < g.length
  · rw [dif_pos hr]
    rw [mapIdx_getD, getD_eq_get g [] hr]
    by_cases hc : c < (g.get ⟨r, hr⟩).length
    · rw [dif_pos hc]
      rw [getD_eq_get _ 0 hc]
    · rw [dif_neg hc, List.getD_eq_default _ _ (Nat.le_of_not_lt hc), ite_self]
  · rw [dif_neg hr, List.getD_eq_default g [] (Nat.le_of_not_lt hr)]
    simp

theorem zeroRect_length (g : Grid) (t : Rect) : (zeroRect g t).length = g.length :=
  List.length_mapIdx

theorem zeroRect_row_len (g : Grid) (t : Rect) (i : Nat) (hi : i < g.length) :
    ((zeroRect g t).getD i []).length = (g.getD i []).length := by
  unfold zeroRect
  rw [mapIdx_getD, dif_pos hi, getD_eq_get g [] hi]
  exact List.length_mapIdx

theorem headD_eq_getD {α : Type} (l : List (List α)) : l.headD [] = l.getD 0 [] := by
  cases l <;> rfl

theorem zeroRect_sq (g : Grid) (t : Rect)
    (hsq : ∀ row ∈ g, row.length = (g.headD []).length) :
    ∀ row ∈ zeroRect g t, row.length = ((zeroRect g t).headD []).length := by
  intro row hrow
  obtain ⟨i, hi, hgi⟩ := List.mem_iff_getElem.mp hrow
  have hig : i < g.length := by
    rw [← zeroRect_length g t]
    exact hi
  have hrowD : (zeroRect g t).getD i [] = row := by
    rw [getD_eq_get _ _ hi]
    exact hgi
  have h0g : 0 < g.length := by omega
  have hmem : g.getD i [] ∈ g := by
    rw [getD_eq_get g [] hig]
    exact List.get_mem g i hig
  rw [← hrowD, zeroRect_row_len g t i hig, hsq _ hmem,
    headD_eq_getD, headD_eq_getD, zeroRect_row_len g t 0 h0g]

theorem gridWidth_mapIdx : ∀ (g : Grid) (f : Nat → List Nat → List Nat),
    (∀ i row, (f i row).length = row.length) →
    gridWidth (g.mapIdx f) = gridWidth g := by
  intro g
  induction g with
  | nil => intro f _; rfl
  | cons x xs ih =>
    intro f hf
    rw [List.mapIdx_cons]
    show max (f 0 x).length (gridWidth (xs.mapIdx fun i => f (i + 1))) =
      max x.length (gridWidth xs)
    rw [hf 0 x, ih (fun i row => f (i + 1) row) (fun i row => hf (i + 1) row)]

theorem gridWidth_zeroRect (g : Grid) (t : Rect) :
    gridWidth (zeroRect g t) = gridWidth g := by
  unfold zeroRect
  exact gridWidth_mapIdx g _ (fun i row => List.length_mapIdx)

theorem rowlen_le_gridWidth : ∀ (g : Grid) (i : Nat),
    (g.getD i []).length ≤ gridWidth g := by
  intro g
  induction g with
  | nil => intro i; cases i <;> simp [gridWidth]
  | cons x xs ih =>
    intro i
    cases i with
    | zero => exact le_max_left _ _
    | succ i' => exact le_trans (ih i') (le_max_right _ _)

theorem getCell_one_lt (g : Grid) (r c : Nat) (h : getCell g r c = 1) :
    r < g.length ∧ c < (g.getD r []).length := by
  constructor
  · by_contra hge
    unfold getCell at h
    rw [List.getD_eq_default g [] (Nat.le_of_not_lt hge)] at h
    simp at h
  · by_contra hge
    unfold getCell at h
    rw [List.getD_eq_default _ _ (Nat.le_of_not_lt hge)] at h
    exact absurd h (by omega)

theorem getCell_one_mem (g : Grid) (r c : Nat) (h : getCell g r c = 1) :
    (r, c) ∈ onesFinset g := by
  obtain ⟨hr, hc⟩ := getCell_one_lt g r c h
  unfold onesFinset
  rw [Finset.mem_filter, Finset.mem_product, Finset.mem_range, Finset.mem_range]
  exact ⟨⟨hr, Nat.lt_of_lt_of_le hc (rowlen_le_gridWidth g r)⟩, h⟩

theorem anyOnes_of_one (g : Grid) (r c : Nat) (h : getCell g r c = 1) :
    anyOnes g = true := by
  obtain ⟨hr, hc⟩ := getCell_one_lt g r c h
  unfold anyOnes
  rw [List.any_eq_true]
  refine ⟨g.getD r [], ?_, ?_⟩
  · rw [getD_eq_get g [] hr]
    exact List.get_mem g r hr
  · rw [List.any_eq_true]
    refine ⟨(g.getD r []).getD c 0, ?_, ?_⟩
    · rw [getD_eq_get _ 0 hc]
      exact List.get_mem _ c hc
    · unfold getCell at h
      rw [h]
      rfl

theorem onesCount_zero (g : Grid) (hz : onesCount g = 0) (r c : Nat) :
    getCell g r c ≠ 1 := by
  intro h
  have hmem := getCell_one_mem g r c h
  have : 0 < (onesFinset g).card := Finset.card_pos.mpr ⟨(r, c), hmem⟩
  unfold onesCount at hz
  omega

theorem zeroRect_one (g : Grid) (t : Rect) (r c : Nat)
    (h : getCell (zeroRect g t) r c = 1) :
    getCell g r c = 1 ∧ ¬inRect t r c := by
  rw [getCell_zeroRect] at h
  by_cases hcond : t.1 ≤ r ∧ r ≤ t.2.2.1 ∧ t.2.1 ≤ c ∧ c ≤ t.2.2.2
  · rw [if_pos hcond] at h
    exact absurd h (by omega)
  · rw [if_neg hcond] at h
    exact ⟨h, hcond⟩

theorem onesCount_zeroRect_lt (g : Grid) (t : Rect) (hg : rectGood g t) :
    onesCount (zeroRect g t) < onesCount g := by
  have hsub : onesFinset (zeroRect g t) ⊆ onesFinset g := by
    intro p hp
    unfold onesFinset at hp
    rw [Finset.mem_filter] at hp
    exact getCell_one_mem g p.1 p.2 (zeroRect_one g t p.1 p.2 hp.2).1
  have hin : inRect t t.1 t.2.1 :=
    ⟨Nat.le_refl _, hg.1, Nat.le_refl _, hg.2.1⟩
  have hcell : getCell g t.1 t.2.1 = 1 := hg.2.2 t.1 t.2.1 hin
  have hz : getCell (zeroRect g t) t.1 t.2.1 = 0 := by
    rw [getCell_zeroRect,
      if_pos (show t.1 ≤ t.1 ∧ t.1 ≤ t.2.2.1 ∧ t.2.1 ≤ t.2.1 ∧ t.2.1 ≤ t.2.2.2 from hin)]
  have hnot : (t.1, t.2.1) ∉ onesFinset (zeroRect g t) := by
    intro hmem
    unfold onesFinset at hmem
    rw [Finset.mem_filter] at hmem
    have := hmem.2
    dsimp only at this
    rw [hz] at this
    exact absurd this (by omega)
  unfold onesCount
  refine Finset.card_lt_card ?_
  rw [Finset.ssubset_iff_of_subset hsub]
  exact ⟨(t.1, t.2.1), getCell_one_mem g t.1 t.2.1 hcell, hnot⟩

theorem carveAux_spec : ∀ (fuel : Nat) (g : Grid),
    onesCount g ≤ fuel →
    (∀ row ∈ g, row.length = (g.headD []).length) →
    (∀ t ∈ carveAux fuel g, rectGood g t) ∧
    (carveAux fuel g).Pairwise rectDisjoint ∧
    (∀ r c, getCell g r c = 1 ↔ coveredBy (carveAux fuel g) r c) := by
  intro fuel
  induction fuel with
  | zero =>
    intro g hfuel hsq
    refine ⟨fun t ht => absurd ht (List.not_mem_nil t),
      List.Pairwise.nil, fun r c => ?_⟩
    constructor
    · intro h1
      exact absurd h1 (onesCount_zero g (by omega) r c)
    · rintro ⟨t, ht, -⟩
      exact absurd ht (List.not_mem_nil t)
  | succ fuel ih =>
    intro g hfuel hsq
    by_cases hone : anyOnes g = true
    · have hne := enumerate_ne g hsq hone
      obtain ⟨t, ht⟩ := pickLargest_ne _ hne
      have hstep : carveAux (fuel + 1) g = t :: carveAux fuel (zeroRect g t) := by
        rw [carveAux, if_pos hone, ht]
      have htgood := enumerate_good g t (pickLargest_mem _ _ ht)
      have hcnt := onesCount_zeroRect_lt g t htgood
      obtain ⟨ihgood, ihpw, ihcov⟩ :=
        ih (zeroRect g t) (by omega) (zeroRect_sq g t hsq)
      rw [hstep]
      refine ⟨?_, ?_, ?_⟩
      · intro u hu
        rcases List.mem_cons.mp hu with rfl | hu'
        · exact htgood
        · obtain ⟨h1, h2, h3⟩ := ihgood u hu'
          exact ⟨h1, h2, fun r c hrc => (zeroRect_one g t r c (h3 r c hrc)).1⟩
      · refine List.Pairwise.cons ?_ ihpw
        intro u hu
        intro r c
        rintro ⟨hrt, hru⟩
        have h1 := (ihgood u hu).2.2 r c hru
        exact (zeroRect_one g t r c h1).2 hrt
      · intro r c
        constructor
        · intro h1
          by_cases hrt : inRect t r c
          · exact ⟨t, List.mem_cons_self _ _, hrt⟩
          · have hz : getCell (zeroRect g t) r c = 1 := by
              rw [getCell_zeroRect,
                if_neg (show ¬(t.1 ≤ r ∧ r ≤ t.2.2.1 ∧ t.2.1 ≤ c ∧ c ≤ t.2.2.2) from hrt)]
              exact h1
            obtain ⟨u, hu, hru⟩ := (ihcov r c).mp hz
            exact ⟨u, List.mem_cons_of_mem _ hu, hru⟩
        · rintro ⟨u, hu, hru⟩
          rcases List.mem_cons.mp hu with rfl | hu'
          · exact htgood.2.2 r c hru
          · exact (zeroRect_one g t r c ((ihcov r c).mpr ⟨u, hu', hru⟩)).1
    · have hstep : carveAux (fuel + 1) g = [] := by
        rw [carveAux, if_neg hone]
      rw [hstep]
      refine ⟨fun t ht => absurd ht (List.not_mem_nil t),
        List.Pairwise.nil, fun r c => ?_⟩
      constructor
      · intro h1
        exact absurd (anyOnes_of_one g r c h1) hone
      · rintro ⟨t, ht, -⟩
        exact absurd ht (List.not_mem_nil t)

theorem rectDisjoint_symm {a b : Rect} (h : rectDisjoint a b) : rectDisjoint b a :=
  fun r c hp => h r c ⟨hp.2, hp.1⟩

theorem coveredBy_perm {l l2 : List Rect} (h : l.Perm l2) (r c : Nat) :
    coveredBy l r c ↔ coveredBy l2 r c := by
  unfold coveredBy
  constructor
  · rintro ⟨t, ht, hrt⟩
    exact ⟨t, h.mem_iff.mp ht, hrt⟩
  · rintro ⟨t, ht, hrt⟩
    exact ⟨t, h.mem_iff.mpr ht, hrt⟩

/-- C1: for every (rectangular) boolean grid, `carve_rectangles` returns a
list of rectangles that are pairwise disjoint and whose cell-set union is
exactly the set of 1-cells of the grid; in particular the empty grid yields
`[]` and the single-1-cell grid `[[1]]` yields exactly `[(0, 0, 0, 0)]`. -/
theorem C1_carve_partition (grid : Grid)
    (hsq : ∀ row ∈ grid, row.length = (grid.headD []).length) :
    ((carve_rectangles grid).Pairwise rectDisjoint ∧
      ∀ r c, getCell grid r c = 1 ↔ coveredBy (carve_rectangles grid) r c) ∧
    carve_rectangles ([] : Grid) = [] ∧
    carve_rectangles [[1]] = [(0, 0, 0, 0)] := by
  obtain ⟨hgood, hpw, hcov⟩ :=
    carveAux_spec (onesCount grid) grid (Nat.le_refl _) hsq
  have hperm := pySort_perm rectKeyLe (carveAux (onesCount grid) grid)
  refine ⟨⟨?_, ?_⟩, by rfl, by rfl⟩
  · show (pySort rectKeyLe (carveAux (onesCount grid) grid)).Pairwise rectDisjoint
    exact (hperm.pairwise_iff (fun h => rectDisjoint_symm h)).mpr hpw
  · intro r c
    refine (hcov r c).trans ?_
    exact coveredBy_perm hperm.symm r c

theorem C1_witness :
    (∀ row ∈ ([[1, 1], [1, 1]] : Grid),
        row.length = (([[1, 1], [1, 1]] : Grid).headD []).length) ∧
    (((carve_rectangles [[1, 1], [1, 1]]).Pairwise rectDisjoint ∧
        ∀ r c, getCell [[1, 1], [1, 1]] r c = 1 ↔
          coveredBy (carve_rectangles [[1, 1], [1, 1]]) r c) ∧
      carve_rectangles ([] : Grid) = [] ∧
      carve_rectangles [[1]] = [(0, 0, 0, 0)]) :=
  ⟨by decide, C1_carve_partition [[1, 1], [1, 1]] (by decide)⟩
